import Mathlib

/-!
LiteIDE UI glue: image view zoom, dock-widget action bookkeeping, terminal
settings and tab descriptors.

A shallow embedding of the parts of the LiteIDE sources that carry checkable
behaviour:

* `imageeditorwidget.cpp`: `doScale`, `zoomIn`, `zoomOut`, `pinchTriggered`,
  `resetSize`, `setImageItem`;
* `tooldockwidget.cpp`: `BaseDockWidget::addAction`, `removeAction`,
  `actionChanged`, `activeComboBoxIndex`, `checkedAction`;
* `terminal.h` / `terminal.cpp`: the `Command` and `TabInfoData` records, the
  stream operators of `TabInfoData`, the Unix shell probing of the `Terminal`
  constructor, `newTerminal`, `triggeredCmd`, `toggledDarkMode`,
  `toggledLoginMode`.

Toolkit objects (`QTransform`, `QAction`, `QComboBox`, `QSettings`,
`QDataStream`, `QFileInfo`) are represented by explicit state; every such model
says which toolkit behaviour it stands for.  A `qreal` is a C++ `double`: the
zoom code is embedded twice, over exact rationals (`ImageEditorWidget.doScale`)
and with every product and quotient rounded as IEEE 754 binary64 does
(`Binary64.doScale`).
-/

namespace LiteIDE

/-! ## Image view (`imageeditorwidget.cpp`) -/

/-- Toolkit `Qt::TransformationMode` of a pixmap item. -/
inductive TransformationMode where
  | FastTransformation
  | SmoothTransformation
  deriving DecidableEq, Repr

/-- A `QGraphicsItem` as far as `doScale` looks at it: a `QGraphicsPixmapItem`
(what `dynamic_cast<QGraphicsPixmapItem*>` finds) with its own
`transformationMode()`, or some other graphics item. -/
inductive QGraphicsItem where
  | pixmap (mode : TransformationMode)
  | other
  deriving DecidableEq, Repr

/-- The part of a `QPinchGesture` read by `pinchTriggered`: whether
`changeFlags()` has `ScaleFactorChanged`, and the `scaleFactor` property. -/
structure QPinchGesture where
  scaleFactorChanged : Bool
  scaleFactor : ℚ

/-- State of an `ImageEditorWidget`.  The view transform is kept by its two
diagonal entries (the view is never rotated or sheared by this code);
`m_imageItem` is the item shown in the scene (null when there is none), with
the transformation mode that belongs to that item; `emitted` records the
arguments of the `scaleFactorChanged` signal, newest last.  The values of type
`qreal` are rationals: every finite `double` is one. -/
structure ImageEditorWidget where
  m11 : ℚ
  m22 : ℚ
  m_scaleFactor : ℚ
  m_imageItem : Option QGraphicsItem
  emitted : List ℚ

/-! ### The zoom code over exact rationals

In this part a product or quotient of two `qreal` values is the exact rational
product or quotient: the reading taken by statements that say "arithmetic over
exact rationals".  The arithmetic of the machine is in the part after it. -/

namespace ImageEditorWidget

/-- The constructor: identity transform, `m_scaleFactor = 1.2`, no item. -/
def new : ImageEditorWidget :=
  { m11 := 1, m22 := 1, m_scaleFactor := 6 / 5, m_imageItem := none, emitted := [] }

/-- Toolkit `QGraphicsView::scale(sx, sy)`: the view transform is multiplied by a
scaling, so the diagonal entries are multiplied by `sx` and `sy`. -/
def scale (w : ImageEditorWidget) (sx sy : ℚ) : ImageEditorWidget :=
  { w with m11 := w.m11 * sx, m22 := w.m22 * sy }

/-- Toolkit `QGraphicsView::resetTransform()`: back to the identity. -/
def resetTransform (w : ImageEditorWidget) : ImageEditorWidget :=
  { w with m11 := 1, m22 := 1 }

/-- Source `emitScaleFactor`: emits `scaleFactorChanged(transform().m11())`. -/
def emitScaleFactor (w : ImageEditorWidget) : ImageEditorWidget :=
  { w with emitted := w.emitted ++ [w.m11] }

/-- Source `scaleFactor()`: the current view scale. -/
def scaleFactor (w : ImageEditorWidget) : ℚ := w.m11

/-- The factor really applied by `doScale`: capped so that the new scale stays
in 0.001 - 1000. -/
def actualFactor (currentScale factor : ℚ) : ℚ :=
  let newScale := currentScale * factor
  if newScale > 1000 then 1000 / currentScale
  else if newScale < 1 / 1000 then (1 / 1000) / currentScale
  else factor

/-- Source `ImageEditorWidget::doScale(qreal factor)`. -/
def doScale (w : ImageEditorWidget) (factor : ℚ) : ImageEditorWidget :=
  let currentScale := w.m11
  let w1 := w.scale (actualFactor currentScale factor) (actualFactor currentScale factor)
  let w2 := w1.emitScaleFactor
  match w2.m_imageItem with
  | some (QGraphicsItem.pixmap _) =>
      { w2 with m_imageItem := some (QGraphicsItem.pixmap
                  (if w2.m11 < 1 then TransformationMode.SmoothTransformation
                   else TransformationMode.FastTransformation)) }
  | _ => w2

/-- Source `ImageEditorWidget::pinchTriggered`. -/
def pinchTriggered (w : ImageEditorWidget) (gesture : QPinchGesture) : ImageEditorWidget :=
  if gesture.scaleFactorChanged then w.doScale gesture.scaleFactor else w

/-- Source `ImageEditorWidget::zoomIn`. -/
def zoomIn (w : ImageEditorWidget) : ImageEditorWidget := w.doScale w.m_scaleFactor

/-- Source `ImageEditorWidget::zoomOut`. -/
def zoomOut (w : ImageEditorWidget) : ImageEditorWidget := w.doScale (1 / w.m_scaleFactor)

/-- Source `ImageEditorWidget::resetSize`. -/
def resetSize (w : ImageEditorWidget) : ImageEditorWidget :=
  w.resetTransform.emitScaleFactor

/-- Source `ImageEditorWidget::setImageItem`: the scene is cleared, the new item (if
any) is added as it is, with its own transformation mode, and the size is
reset. -/
def setImageItem (w : ImageEditorWidget) (item : Option QGraphicsItem) : ImageEditorWidget :=
  ({ w with m_imageItem := item }).resetSize

end ImageEditorWidget

/-- The user operations on the image view that go through the zoom code
(`fitToView` is not among them). -/
inductive ViewOp where
  | zoomIn
  | zoomOut
  | pinch (gesture : QPinchGesture)
  | resetSize
  | setImageItem (item : Option QGraphicsItem)

/-- One operation applied to the view. -/
def ViewOp.apply (w : ImageEditorWidget) : ViewOp → ImageEditorWidget
  | ViewOp.zoomIn => w.zoomIn
  | ViewOp.zoomOut => w.zoomOut
  | ViewOp.pinch g => w.pinchTriggered g
  | ViewOp.resetSize => w.resetSize
  | ViewOp.setImageItem item => w.setImageItem item

/-- A finite sequence of operations applied in order. -/
def runViewOps (w : ImageEditorWidget) (ops : List ViewOp) : ImageEditorWidget :=
  ops.foldl ViewOp.apply w

/-- The view-scale invariant of the exact reading: the scale lies in
[0.001, 1000] (hence is positive) and the zoom step is the constructor's 1.2. -/
def ScaleInv (w : ImageEditorWidget) : Prop :=
  0 < w.m11 ∧ 1 / 1000 ≤ w.m11 ∧ w.m11 ≤ 1000 ∧ w.m_scaleFactor = 6 / 5

/-! ### The zoom code over IEEE 754 binary64

A `qreal` is a `double`.  The finite doubles are the rationals `± m * 2 ^ k`
with `m < 2 ^ 53` and `-1074 ≤ k`; a product or quotient computed by the
machine is the double nearest to the exact result, the one with even `m` when
two are equally near (the default rounding mode).  Infinities and NaN are not
part of this model: a result beyond the largest double stays the rational it
is, and the divisor is taken to be nonzero. -/

namespace Binary64

/-- Number of halvings that bring `n` below 2, at most `fuel` of them. -/
def log2Upto : Nat → Nat → Nat
  | 0, _ => 0
  | fuel + 1, n => if 2 ≤ n then log2Upto fuel (n / 2) + 1 else 0

/-- The position of the leading binary digit of `n`: `⌊log₂ n⌋` for `1 ≤ n`. -/
def floorLog2 (n : Nat) : Nat := log2Upto n n

/-- The binary exponent of `a / b` for positive `a`, `b`: the `e` with
`2 ^ e ≤ a / b < 2 ^ (e + 1)`. -/
def exponent (a b : Nat) : Int :=
  let d : Int := (floorLog2 a : Int) - (floorLog2 b : Int)
  if 0 ≤ d then (if a < b * 2 ^ d.toNat then d - 1 else d)
  else (if a * 2 ^ (-d).toNat < b then d - 1 else d)

/-- The natural number nearest to `a / b`, the even one of two equally near. -/
def nearestEven (a b : Nat) : Nat :=
  if 2 * (a % b) < b then a / b
  else if b < 2 * (a % b) then a / b + 1
  else a / b + (a / b) % 2

/-- The double nearest to the rational `q`: with `e` the binary exponent of
`|q|`, not below the `-1022` of the smallest normal number, the doubles around
`q` are the multiples of `2 ^ (e - 52)`, and `|q|` is rounded to the nearest of
them, ties to even. -/
def roundNearest (q : ℚ) : ℚ :=
  if q = 0 then 0
  else
    let a := q.num.natAbs
    let b := q.den
    let k := max (exponent a b) (-1022) - 52
    let m : ℚ :=
      if 0 ≤ k then ((nearestEven a (b * 2 ^ k.toNat) * 2 ^ k.toNat : Nat) : ℚ)
      else ((nearestEven (a * 2 ^ (-k).toNat) b : Nat) : ℚ) / ((2 ^ (-k).toNat : Nat) : ℚ)
    if q < 0 then -m else m

/-- The product `x * y` of two doubles as the machine computes it. -/
def mul (x y : ℚ) : ℚ := roundNearest (x * y)

/-- The quotient `x / y` of two doubles as the machine computes it. -/
def div (x y : ℚ) : ℚ := roundNearest (x / y)

/-- The constructor: identity transform, `m_scaleFactor` the double written
`1.2`, no item. -/
def new : ImageEditorWidget :=
  { m11 := 1, m22 := 1, m_scaleFactor := roundNearest (6 / 5), m_imageItem := none,
    emitted := [] }

/-- Toolkit `QGraphicsView::scale(sx, sy)`: `QTransform::scale` multiplies the
diagonal entries by `sx` and `sy`, in `double`. -/
def scale (w : ImageEditorWidget) (sx sy : ℚ) : ImageEditorWidget :=
  { w with m11 := mul w.m11 sx, m22 := mul w.m22 sy }

/-- The factor really applied by `doScale`; `1000.` is a double, `0.001` stands
for the double nearest to it. -/
def actualFactor (currentScale factor : ℚ) : ℚ :=
  let newScale := mul currentScale factor
  if newScale > 1000 then div 1000 currentScale
  else if newScale < roundNearest (1 / 1000) then div (roundNearest (1 / 1000)) currentScale
  else factor

/-- Source `ImageEditorWidget::doScale(qreal factor)`. -/
def doScale (w : ImageEditorWidget) (factor : ℚ) : ImageEditorWidget :=
  let currentScale := w.m11
  let w1 := scale w (actualFactor currentScale factor) (actualFactor currentScale factor)
  let w2 := w1.emitScaleFactor
  match w2.m_imageItem with
  | some (QGraphicsItem.pixmap _) =>
      { w2 with m_imageItem := some (QGraphicsItem.pixmap
                  (if w2.m11 < 1 then TransformationMode.SmoothTransformation
                   else TransformationMode.FastTransformation)) }
  | _ => w2

/-- Source `ImageEditorWidget::pinchTriggered`; the scale factor of the gesture
is a double. -/
def pinchTriggered (w : ImageEditorWidget) (gesture : QPinchGesture) : ImageEditorWidget :=
  if gesture.scaleFactorChanged then doScale w gesture.scaleFactor else w

/-- Source `ImageEditorWidget::zoomIn`. -/
def zoomIn (w : ImageEditorWidget) : ImageEditorWidget := doScale w w.m_scaleFactor

/-- Source `ImageEditorWidget::zoomOut`: the factor is `1.0 / m_scaleFactor`. -/
def zoomOut (w : ImageEditorWidget) : ImageEditorWidget := doScale w (div 1 w.m_scaleFactor)

/-- One operation applied to the view; `resetSize` and `setImageItem` do no
arithmetic. -/
def applyOp (w : ImageEditorWidget) : ViewOp → ImageEditorWidget
  | ViewOp.zoomIn => zoomIn w
  | ViewOp.zoomOut => zoomOut w
  | ViewOp.pinch g => pinchTriggered w g
  | ViewOp.resetSize => w.resetSize
  | ViewOp.setImageItem item => w.setImageItem item

/-- A finite sequence of operations applied in order. -/
def runViewOps (w : ImageEditorWidget) (ops : List ViewOp) : ImageEditorWidget :=
  ops.foldl applyOp w

end Binary64

/-! ## Dock widget (`tooldockwidget.cpp`)

`QAction` objects live outside the widget and are addressed by pointers; the
widget state carries the store of those objects (`heap`) next to its own
members.  A pointer that may be null is an `Option`. -/

/-- Address of a `QAction` object. -/
abbrev ActionPtr := Nat

/-- The properties of a `QAction` used by the dock widget. -/
structure QAction where
  objectName : String
  checkable : Bool
  checked : Bool
  deriving DecidableEq, Repr

/-- One combo-box entry: the shown text and the user data (a `QVariant` that
always holds a string here).  `owner` is specification-only: it records the
action whose `addAction` call created the entry, and no code reads it. -/
structure ComboItem where
  text : String
  data : String
  owner : ActionPtr
  deriving DecidableEq, Repr

/-- A `QComboBox`: its entries and the current index (`-1` when none). -/
structure QComboBox where
  items : List ComboItem
  currentIndex : Int
  deriving DecidableEq, Repr

namespace QComboBox

/-- Toolkit `QComboBox::count()`. -/
def count (c : QComboBox) : Int := c.items.length

/-- Position of the first entry whose data equals `d`, counted from `k`. -/
def findDataFrom (d : String) : List ComboItem → Nat → Option Nat
  | [], _ => none
  | it :: rest, k => if it.data = d then some k else findDataFrom d rest (k + 1)

/-- Toolkit `QComboBox::findData(data)`: index of the first entry with that data, or
`-1`. -/
def findData (c : QComboBox) (d : String) : Int :=
  match findDataFrom d c.items 0 with
  | some k => (k : Int)
  | none => -1

/-- Toolkit `QComboBox::itemData(index).toString()`: the data of the entry, the empty
string for an index without entry. -/
def itemData (c : QComboBox) (index : Int) : String :=
  if index < 0 then ""
  else match c.items[index.toNat]? with
    | some it => it.data
    | none => ""

/-- Toolkit `QComboBox::addItem(text, data)`: the entry is appended; the first entry of
an empty box without current index becomes current. -/
def addItem (c : QComboBox) (text data : String) (owner : ActionPtr) : QComboBox :=
  { items := c.items ++ [{ text := text, data := data, owner := owner }],
    currentIndex := if c.items.isEmpty && c.currentIndex < 0 then 0 else c.currentIndex }

/-- Toolkit `QComboBox::setCurrentIndex(index)`: an index without entry clears the
selection. -/
def setCurrentIndex (c : QComboBox) (index : Int) : QComboBox :=
  { c with currentIndex := if 0 ≤ index ∧ index < c.count then index else -1 }

/-- Toolkit `QComboBox::removeItem(index)`: nothing for an index without entry;
otherwise the entry is dropped and the current index follows its row (a removed
current row is replaced by the row now at that place, the last row, or none). -/
def removeItem (c : QComboBox) (index : Int) : QComboBox :=
  if index < 0 ∨ c.count ≤ index then c
  else
    let items := c.items.eraseIdx index.toNat
    let cur :=
      if c.currentIndex < index then c.currentIndex
      else if index < c.currentIndex then c.currentIndex - 1
      else if items.isEmpty then -1
      else min ((items.length : Int) - 1) index
    { items := items, currentIndex := cur }

end QComboBox

/-- How a slot call can fail: the `Q_ASSERT_X(action != 0, ...)` of
`actionChanged` (a null dereference where assertions are compiled out), or the
evaluation bound of the model being used up. -/
inductive Fault where
  | nullSender
  | outOfFuel
  deriving DecidableEq, Repr

/-- State of a `BaseDockWidget` together with the `QAction` objects it refers
to.  `connected` lists the actions whose `changed()` signal is connected to the
slot `actionChanged()`, one element per connection. -/
structure BaseDockWidget where
  heap : ActionPtr → QAction
  m_actions : List ActionPtr
  current : Option ActionPtr
  m_comboBox : QComboBox
  connected : List ActionPtr

namespace BaseDockWidget

/-- The constructor: no action, `current(0)`, an empty combo box. -/
def new (heap : ActionPtr → QAction) : BaseDockWidget :=
  { heap := heap, m_actions := [], current := none,
    m_comboBox := { items := [], currentIndex := -1 }, connected := [] }

/-- The store of actions with the checked flag of `a` set to `b`. -/
def writeChecked (heap : ActionPtr → QAction) (a : ActionPtr) (b : Bool) : ActionPtr → QAction :=
  fun p => if p = a then { heap a with checked := b } else heap p

/-- Source `BaseDockWidget::actions()`. -/
def actions (w : BaseDockWidget) : List ActionPtr := w.m_actions

/-- Source `BaseDockWidget::checkedAction()`. -/
def checkedAction (w : BaseDockWidget) : Option ActionPtr := w.current

/-- Source `BaseDockWidget::actionChanged()`, the slot run for `sender()`; the calls
of `QAction::setChecked` it makes are passed in as `setChk`.  The combo box emits
`activated` on user selection only, so `setCurrentIndex` runs no slot. -/
def actionChangedWith
    (setChk : ActionPtr → Bool → BaseDockWidget → Except Fault BaseDockWidget)
    (sender : Option ActionPtr) (w : BaseDockWidget) : Except Fault BaseDockWidget :=
  match sender with
  | none => Except.error Fault.nullSender
  | some action =>
    if (w.heap action).checked then
      if some action ≠ w.current then do
        let w1 ← match w.current with
          | some cur => setChk cur false w
          | none => pure w
        let w2 := { w1 with current := some action }
        let index := w2.m_comboBox.findData (w2.heap action).objectName
        if index ≥ 0 then
          pure { w2 with m_comboBox := w2.m_comboBox.setCurrentIndex index }
        else pure w2
      else pure w
    else if some action = w.current then pure { w with current := none }
    else pure w

/-- A slot called `n` times in a row (one call per connection). -/
def deliver (slot : BaseDockWidget → Except Fault BaseDockWidget) :
    Nat → BaseDockWidget → Except Fault BaseDockWidget
  | 0, w => pure w
  | n + 1, w => do
      let w1 ← slot w
      deliver slot n w1

/-- Toolkit `QAction::setChecked(b)` on action `a`: nothing when the action is not
checkable or already in state `b`; otherwise the flag is written and
`changed()` is emitted, which runs `actionChanged()` once per connection before
`setChecked` returns.  `fuel` bounds the nesting of slot calls. -/
def setChecked : Nat → ActionPtr → Bool → BaseDockWidget → Except Fault BaseDockWidget
  | 0, _, _, _ => Except.error Fault.outOfFuel
  | fuel + 1, a, b, w =>
    if (!(w.heap a).checkable || (w.heap a).checked == b) then pure w
    else
      let w1 := { w with heap := writeChecked w.heap a b }
      deliver (actionChangedWith (setChecked fuel) (some a)) (w1.connected.count a) w1

/-- Source `BaseDockWidget::actionChanged()` with `sender()` given. -/
def actionChanged (fuel : Nat) (sender : Option ActionPtr) (w : BaseDockWidget) :
    Except Fault BaseDockWidget :=
  actionChangedWith (setChecked fuel) sender w

/-- Source `BaseDockWidget::removeAction(action)`. -/
def removeAction (w : BaseDockWidget) (action : ActionPtr) : BaseDockWidget :=
  if w.m_actions.count action ≠ 0 then
    let w1 := { w with m_actions := w.m_actions.filter (fun p => p ≠ action) }
    let w2 := if some action = w1.current then { w1 with current := none } else w1
    let index := w2.m_comboBox.findData (w2.heap action).objectName
    let w3 := if index ≥ 0 then { w2 with m_comboBox := w2.m_comboBox.removeItem index } else w2
    { w3 with connected := w3.connected.filter (fun p => p ≠ action) }
  else w

/-- Source `BaseDockWidget::addAction(action, title)`. -/
def addAction (fuel : Nat) (w : BaseDockWidget) (action : ActionPtr) (title : String) :
    Except Fault BaseDockWidget := do
  let w1 :=
    if ¬ action ∈ w.m_actions then
      { w with m_actions := w.m_actions ++ [action],
               m_comboBox := w.m_comboBox.addItem title (w.heap action).objectName action,
               connected := w.connected ++ [action] }
    else w
  let w2 ← match w1.current with
    | some cur => if (w1.heap cur).checked then setChecked fuel cur false w1 else pure w1
    | none => pure w1
  if (w2.heap action).checked then pure { w2 with current := some action } else pure w2

/-- Source `BaseDockWidget::activeComboBoxIndex(index)`. -/
def activeComboBoxIndex (fuel : Nat) (w : BaseDockWidget) (index : Int) :
    Except Fault BaseDockWidget :=
  if index < 0 ∨ index ≥ w.m_comboBox.count then pure w
  else
    let objName := w.m_comboBox.itemData index
    match w.m_actions.find? (fun act => (w.heap act).objectName = objName) with
    | some act => if ¬ (w.heap act).checked then setChecked fuel act true w else pure w
    | none => pure w

end BaseDockWidget


/-! ### Closed forms and state predicates used to state the dock-widget claims -/

/-- Closed form of `setChecked a false`. -/
def BaseDockWidget.uncheckResult (w : BaseDockWidget) (a : ActionPtr) : BaseDockWidget :=
  if (!(w.heap a).checkable || (w.heap a).checked == false) then w
  else
    { w with heap := writeChecked w.heap a false,
             current := if w.connected.count a ≠ 0 ∧ w.current = some a then none
                        else w.current }

/-- Closed form of `setChecked a true`. -/
def BaseDockWidget.checkResult (w : BaseDockWidget) (a : ActionPtr) : BaseDockWidget :=
  if (!(w.heap a).checkable || (w.heap a).checked == true) then w
  else
    let w1 := { w with heap := writeChecked w.heap a true }
    if w1.connected.count a = 0 then w1
    else if some a = w1.current then w1
    else
      let w2 := match w1.current with
        | some cur => w1.uncheckResult cur
        | none => w1
      let w3 := { w2 with current := some a }
      let index := w3.m_comboBox.findData (w3.heap a).objectName
      if index ≥ 0 then { w3 with m_comboBox := w3.m_comboBox.setCurrentIndex index } else w3


/-- First step of `addAction`: an action not yet in the list is appended, gets
its combo-box entry and is connected. -/
def BaseDockWidget.registerResult (w : BaseDockWidget) (action : ActionPtr) (title : String) :
    BaseDockWidget :=
  if ¬ action ∈ w.m_actions then
    { w with m_actions := w.m_actions ++ [action],
             m_comboBox := w.m_comboBox.addItem title (w.heap action).objectName action,
             connected := w.connected ++ [action] }
  else w

/-- Closed form of `if (current && current->isChecked()) current->setChecked(false)`. -/
def BaseDockWidget.uncheckCurrent (w1 : BaseDockWidget) : BaseDockWidget :=
  match w1.current with
  | some cur => if (w1.heap cur).checked then w1.uncheckResult cur else w1
  | none => w1

/-- Rest of `addAction`, in closed form: the current action is unchecked, then
the added action becomes current if it is checked. -/
def BaseDockWidget.addTail (w1 : BaseDockWidget) (action : ActionPtr) : BaseDockWidget :=
  if (w1.uncheckCurrent.heap action).checked then
    { w1.uncheckCurrent with current := some action }
  else w1.uncheckCurrent

/-- Closed form of `addAction`. -/
def BaseDockWidget.addResult (w : BaseDockWidget) (action : ActionPtr) (title : String) :
    BaseDockWidget :=
  (w.registerResult action title).addTail action

/-- The entries left when the first entry with data `d` is taken out. -/
def eraseFirstData (d : String) : List ComboItem → List ComboItem
  | [] => []
  | it :: rest => if it.data = d then rest else it :: eraseFirstData d rest

/-- The registered actions have pairwise distinct object names. -/
def NamesDistinct (w : BaseDockWidget) : Prop :=
  ∀ a ∈ w.m_actions, ∀ b ∈ w.m_actions,
    (w.heap a).objectName = (w.heap b).objectName → a = b

instance (w : BaseDockWidget) : Decidable (NamesDistinct w) :=
  inferInstanceAs (Decidable (∀ a ∈ w.m_actions, ∀ b ∈ w.m_actions,
    (w.heap a).objectName = (w.heap b).objectName → a = b))

/-- The combo box is parallel to the action list: entry `i` was created by the
`addAction` call of the `i`-th registered action and carries its object name. -/
def Parallel (w : BaseDockWidget) : Prop :=
  w.m_comboBox.items.map ComboItem.owner = w.m_actions ∧
  ∀ it ∈ w.m_comboBox.items, it.data = (w.heap it.owner).objectName

/-- The entries carry their creators' object names, and the object names in
the combo box are, up to order, those of the registered actions. -/
def EntryNames (w : BaseDockWidget) : Prop :=
  (∀ it ∈ w.m_comboBox.items, it.data = (w.heap it.owner).objectName) ∧
  (w.m_comboBox.items.map ComboItem.data).Perm
    (w.m_actions.map (fun a => (w.heap a).objectName))

/-- Toolkit invariant of `QAction`: only a checkable action can be checked. -/
def ValidHeap (heap : ActionPtr → QAction) : Prop :=
  ∀ p, (heap p).checked = true → (heap p).checkable = true

/-- Bookkeeping invariant of the widget: the connected actions are the
registered ones, each registered once; a registered action that is checked is
`current`; and `current` is a registered, checked action. -/
def Coherent (w : BaseDockWidget) : Prop :=
  ValidHeap w.heap ∧
  w.connected = w.m_actions ∧
  w.m_actions.Nodup ∧
  (∀ a ∈ w.m_actions, (w.heap a).checked = true → w.current = some a) ∧
  (∀ a, w.current = some a → a ∈ w.m_actions ∧ (w.heap a).checked = true)

/-- States of a widget reached from its construction by calls of `addAction`
and `removeAction` and by toggles of actions (`QAction::setChecked` from
anywhere), every call run with an evaluation bound of at least 2 (which
`setChecked_true` and `setChecked_false` show to be enough). -/
inductive Reached : BaseDockWidget → Prop where
  | new (heap : ActionPtr → QAction) (hv : ValidHeap heap) : Reached (BaseDockWidget.new heap)
  | addAction {w w' : BaseDockWidget} (fuel : Nat) (a : ActionPtr) (title : String) :
      Reached w → 2 ≤ fuel → w.addAction fuel a title = Except.ok w' → Reached w'
  | removeAction {w : BaseDockWidget} (a : ActionPtr) :
      Reached w → Reached (w.removeAction a)
  | setChecked {w w' : BaseDockWidget} (fuel : Nat) (a : ActionPtr) (b : Bool) :
      Reached w → 2 ≤ fuel → BaseDockWidget.setChecked fuel a b w = Except.ok w' → Reached w'

/-- States reached from the construction by calls of `addAction` and
`removeAction` alone, the registered actions having pairwise distinct object
names after every call. -/
inductive ReachedDistinct : BaseDockWidget → Prop where
  | new (heap : ActionPtr → QAction) : ReachedDistinct (BaseDockWidget.new heap)
  | addAction {w w' : BaseDockWidget} (fuel : Nat) (a : ActionPtr) (title : String) :
      ReachedDistinct w → 2 ≤ fuel → w.addAction fuel a title = Except.ok w' →
      NamesDistinct w' → ReachedDistinct w'
  | removeAction {w : BaseDockWidget} (a : ActionPtr) :
      ReachedDistinct w → ReachedDistinct (w.removeAction a)

/-! ### Concrete widgets used as inputs -/

/-- Actions that all carry the object name `"x"`: checkable, unchecked. -/
def sameNameHeap : ActionPtr → QAction :=
  fun _ => { objectName := "x", checkable := true, checked := false }

/-- Actions that are not checkable (plain push actions). -/
def plainHeap : ActionPtr → QAction :=
  fun _ => { objectName := "tool", checkable := false, checked := false }

/-- Checkable actions with distinct object names; action 0 starts checked. -/
def toolHeap : ActionPtr → QAction :=
  fun p => { objectName := if p = 0 then "files" else if p = 1 then "outline" else "other",
             checkable := true, checked := decide (p = 0) }

/-- The widget after `addAction(0, "Files")` and `addAction(1, "Outline")` over
`toolHeap`. -/
def toolState : BaseDockWidget :=
  ((BaseDockWidget.new toolHeap).addResult 0 "Files").addResult 1 "Outline"

/-- The widget `toolState` after action 0 has been checked
(`setChecked(true)` from anywhere): action 0 is checked and current. -/
def checkedToolState : BaseDockWidget := toolState.checkResult 0

/-- The widget after `addAction(0, "A")`, `addAction(1, "B")` and
`removeAction(1)` over `sameNameHeap`: action 0 is registered, and the entry
left in the combo box is the one created for action 1. -/
def leftoverEntryState : BaseDockWidget :=
  BaseDockWidget.removeAction
    (((BaseDockWidget.new sameNameHeap).addResult 0 "A").addResult 1 "B") 1

/-- States reached from the construction by calls of `addAction` and
`removeAction` that keep the object names of the registered actions pairwise
distinct, together with the registrations in force: the registered actions in
the order of their `addAction` calls, each with the title given in that call. -/
inductive RegisteredDistinct : List (ActionPtr × String) → BaseDockWidget → Prop where
  | new (heap : ActionPtr → QAction) : RegisteredDistinct [] (BaseDockWidget.new heap)
  | addAction {reg : List (ActionPtr × String)} {w w' : BaseDockWidget} (fuel : Nat)
      (a : ActionPtr) (title : String) :
      RegisteredDistinct reg w → 2 ≤ fuel → w.addAction fuel a title = Except.ok w' →
      NamesDistinct w' →
      RegisteredDistinct (if a ∈ w.m_actions then reg else reg ++ [(a, title)]) w'
  | removeAction {reg : List (ActionPtr × String)} {w : BaseDockWidget} (a : ActionPtr) :
      RegisteredDistinct reg w →
      RegisteredDistinct (reg.filter (fun p => p.1 ≠ a)) (w.removeAction a)

/-! ## Split and output dock widgets (`tooldockwidget.cpp`) -/

/-- Value of `Qt::LeftDockWidgetArea`. -/
def LeftDockWidgetArea : Int := 1

/-- Value of `Qt::RightDockWidgetArea`. -/
def RightDockWidgetArea : Int := 2

/-- Value of `Qt::TopDockWidgetArea`. -/
def TopDockWidgetArea : Int := 4

/-- Value of `Qt::BottomDockWidgetArea`. -/
def BottomDockWidgetArea : Int := 8

/-- One emission of the signal `moveActionTo`: source area, target area, the
action handed over (`current`), and the split flag (`none` for the signal of
`OutputDockWidget`, which has three arguments). -/
structure MoveActionTo where
  fromArea : Int
  toArea : Int
  action : Option ActionPtr
  split : Option Bool
  deriving DecidableEq, Repr

/-- The slots that the actions of the dock-widget menus are connected to;
`showMoveMenu` stands for the menu action of the "Move To" sub-menu. -/
inductive DockSlot where
  | moveAction
  | moveActionSplit
  | splitAction
  | unsplitAction
  | setFloatingWindow
  | showMoveMenu
  deriving DecidableEq, Repr

/-- An action of a dock-widget menu: its text, `data().toInt()`, and the slot
its `triggered` signal is connected to. -/
structure DockMenuAction where
  text : String
  data : Int
  slot : DockSlot
  deriving DecidableEq, Repr

/-- The window state of a dock widget touched by `setFloatingWindow` and
`topLevelChanged`: floating, the feature `DockWidgetFloatable`, visibility of
the close action, whether the tool bar sits in the layout (and not in the
title bar), the layout margin, and the checked flag of `m_floatAct`. -/
structure DockWindowState where
  floating : Bool
  floatable : Bool
  closeActVisible : Bool
  toolBarInLayout : Bool
  margin : Nat
  floatActChecked : Bool
  deriving DecidableEq, Repr

namespace DockWindowState

/-- Source `BaseDockWidget::topLevelChanged(bool b)`. -/
def topLevelChanged (s : DockWindowState) (b : Bool) : DockWindowState :=
  if b then
    { s with closeActVisible := !b, toolBarInLayout := true, margin := 2, floatable := true,
             floatActChecked := b }
  else
    { s with closeActVisible := !b, toolBarInLayout := false, margin := 0, floatable := false,
             floatActChecked := b }

/-- Toolkit `QDockWidget::setFloating(b)`: a change of the floating state emits
`topLevelChanged(b)`, which the constructor connects to the slot of that name. -/
def setFloating (s : DockWindowState) (b : Bool) : DockWindowState :=
  if s.floating = b then s else ({ s with floating := b } : DockWindowState).topLevelChanged b

/-- Source `BaseDockWidget::setFloatingWindow(bool b)`. -/
def setFloatingWindow (s : DockWindowState) (b : Bool) : DockWindowState :=
  let s1 :=
    if s.floating ≠ b then ({ s with floatable := b } : DockWindowState).setFloating b
    else s
  if s1.floatActChecked ≠ b then { s1 with floatActChecked := b } else s1

end DockWindowState

/-- State of a `SplitDockWidget`: the `BaseDockWidget` it extends, its window
state, `m_area`, `m_areaInfo`, the "Move To" menu and the button menu built by
the latest `createMenu`, and the emissions of `moveActionTo`, newest last. -/
structure SplitDockWidget where
  base : BaseDockWidget
  window : DockWindowState
  m_area : Int
  m_areaInfo : String
  moveMenu : List DockMenuAction
  menu : List DockMenuAction
  emitted : List MoveActionTo

namespace SplitDockWidget

/-- The two entries of the "Move To" menu for one target area, absent when
the widget is in that area. -/
def moveEntries (area target : Int) (name : String) : List DockMenuAction :=
  if area ≠ target then
    [{ text := name, data := target, slot := DockSlot.moveAction },
     { text := name ++ " (Split)", data := target, slot := DockSlot.moveActionSplit }]
  else []

/-- The text `m_areaInfo` chosen by `createMenu`; unchanged for an area that
is none of the four. -/
def areaInfo (old : String) (area : Int) (split : Bool) : String :=
  if area = TopDockWidgetArea then
    (if split then "TopDockWidget (Split)" else "TopDockWidget")
  else if area = BottomDockWidgetArea then
    (if split then "BottomDockWidget (Split)" else "BottomDockWidget")
  else if area = LeftDockWidgetArea then
    (if split then "LeftDockWidget (Split)" else "LeftDockWidget")
  else if area = RightDockWidgetArea then
    (if split then "RightDockWidget (Split)" else "RightDockWidget")
  else old

/-- Source `SplitDockWidget::createMenu(area, split)` (menus and members; the
tool-bar layout is left out). -/
def createMenu (w : SplitDockWidget) (area : Int) (split : Bool) : SplitDockWidget :=
  let moveMenu :=
    moveEntries area TopDockWidgetArea "Top" ++
    moveEntries area BottomDockWidgetArea "Bottom" ++
    moveEntries area LeftDockWidgetArea "Left" ++
    moveEntries area RightDockWidgetArea "Right"
  let splitEntry : DockMenuAction :=
    if split then { text := "Unsplit", data := area, slot := DockSlot.unsplitAction }
    else { text := "Split", data := area, slot := DockSlot.splitAction }
  { w with m_area := area,
           m_areaInfo := areaInfo w.m_areaInfo area split,
           moveMenu := moveMenu,
           menu := [{ text := "Floating Window", data := 0, slot := DockSlot.setFloatingWindow },
                    splitEntry,
                    { text := "Move To", data := 0, slot := DockSlot.showMoveMenu }] }

/-- Source `SplitDockWidget::moveAction()`, with `sender()` given. -/
def moveAction (w : SplitDockWidget) (sender : Option DockMenuAction) : SplitDockWidget :=
  match sender with
  | none => w
  | some action =>
    { w with emitted := w.emitted ++ [⟨w.m_area, action.data, w.base.current, some false⟩] }

/-- Source `SplitDockWidget::moveActionSplit()`, with `sender()` given. -/
def moveActionSplit (w : SplitDockWidget) (sender : Option DockMenuAction) : SplitDockWidget :=
  match sender with
  | none => w
  | some action =>
    { w with emitted := w.emitted ++ [⟨w.m_area, action.data, w.base.current, some true⟩] }

/-- Source `SplitDockWidget::splitAction()`, with `sender()` given. -/
def splitAction (w : SplitDockWidget) (sender : Option DockMenuAction) : SplitDockWidget :=
  match sender with
  | none => w
  | some action =>
    { w with emitted := w.emitted ++ [⟨w.m_area, action.data, w.base.current, some true⟩] }

/-- Source `SplitDockWidget::unsplitAction()`, with `sender()` given. -/
def unsplitAction (w : SplitDockWidget) (sender : Option DockMenuAction) : SplitDockWidget :=
  match sender with
  | none => w
  | some action =>
    { w with emitted := w.emitted ++ [⟨w.m_area, action.data, w.base.current, some false⟩] }

/-- Toolkit `QAction::trigger()` on an action of the menus of `createMenu`:
a checkable action flips its checked flag, `triggered(checked)` is emitted, and
the slot connected to it runs with `sender()` being that action. Only
`m_floatAct` is checkable; the menu action of "Move To" opens the sub-menu and
is connected to no slot of the widget. -/
def trigger (w : SplitDockWidget) (act : DockMenuAction) : SplitDockWidget :=
  match act.slot with
  | DockSlot.moveAction => w.moveAction (some act)
  | DockSlot.moveActionSplit => w.moveActionSplit (some act)
  | DockSlot.splitAction => w.splitAction (some act)
  | DockSlot.unsplitAction => w.unsplitAction (some act)
  | DockSlot.setFloatingWindow =>
    let b := !w.window.floatActChecked
    { w with window :=
        ({ w.window with floatActChecked := b } : DockWindowState).setFloatingWindow b }
  | DockSlot.showMoveMenu => w

end SplitDockWidget

/-- State of an `OutputDockWidget`: the `BaseDockWidget` it extends, its window
state, and the emissions of `moveActionTo`, newest last. -/
structure OutputDockWidget where
  base : BaseDockWidget
  window : DockWindowState
  emitted : List MoveActionTo

/-- Source `OutputDockWidget::moveAction()`, with `sender()` given. -/
def OutputDockWidget.moveAction (w : OutputDockWidget) (sender : Option DockMenuAction) :
    OutputDockWidget :=
  match sender with
  | none => w
  | some action =>
    let window := w.window.setFloatingWindow false
    { w with window := window,
             emitted := w.emitted ++
               [⟨BottomDockWidgetArea, action.data, w.base.current, none⟩] }

/-- A split dock widget over `toolState` on which `createMenu` has not run. -/
def newSplitDock : SplitDockWidget :=
  { base := toolState,
    window := { floating := false, floatable := false, closeActVisible := true,
                toolBarInLayout := false, margin := 0, floatActChecked := false },
    m_area := 0, m_areaInfo := "", moveMenu := [], menu := [], emitted := [] }

/-- A split dock widget in the left area, floating, over `toolState`. -/
def leftSplitDock : SplitDockWidget :=
  SplitDockWidget.createMenu
    { base := toolState,
      window := { floating := true, floatable := true, closeActVisible := false,
                  toolBarInLayout := true, margin := 2, floatActChecked := true },
      m_area := 0, m_areaInfo := "", moveMenu := [], menu := [], emitted := [] }
    LeftDockWidgetArea false

/-- An output dock widget, floating, over `toolState`. -/
def floatingOutputDock : OutputDockWidget :=
  { base := toolState,
    window := { floating := true, floatable := true, closeActVisible := false,
                toolBarInLayout := true, margin := 2, floatActChecked := true },
    emitted := [] }

/-! ## Terminal (`terminal.h`, `terminal.cpp`)

Strings of this part are Lean strings (sequences of Unicode characters); the
text functions of `QString` used by the code are defined on character lists. -/

/-- Toolkit `QChar::isSpace()`: the ASCII blanks and the Unicode separators. -/
def QChar.isSpace (c : Char) : Bool :=
  let n := c.toNat
  n == 0x20 || (0x09 ≤ n && n ≤ 0x0D) || n == 0x85 || n == 0xA0 || n == 0x1680 ||
  (0x2000 ≤ n && n ≤ 0x200A) || n == 0x2028 || n == 0x2029 || n == 0x202F ||
  n == 0x205F || n == 0x3000

/-- Toolkit `QString::trimmed()` on characters: white space removed from both ends. -/
def trimmedChars (l : List Char) : List Char :=
  ((l.dropWhile QChar.isSpace).reverse.dropWhile QChar.isSpace).reverse

/-- Toolkit `QString::split(sep)` on characters, empty parts kept: the parts between
the separators, one part more than there are separators. -/
def splitChars (sep : Char) : List Char → List (List Char)
  | [] => [[]]
  | c :: cs =>
    if c = sep then [] :: splitChars sep cs
    else match splitChars sep cs with
      | l :: ls => (c :: l) :: ls
      | [] => [[c]]

/-- Toolkit `QString::indexOf(ch)`: position of the first occurrence, `-1` if none. -/
def indexOfChar (ch : Char) (l : List Char) : Int :=
  match l.indexOf? ch with
  | some k => (k : Int)
  | none => -1

/-- Body of the `foreach` of `GetUnixShellList` for one line: `none` stands for
`continue`, `some s` for `shells << s`. -/
def shellOfLine (line0 : List Char) : Option String :=
  let line := trimmedChars line0
  if line.isEmpty || line.head? = some '#' then none
  else
    let pos := indexOfChar '#' line
    if pos > 0 then some (String.mk (trimmedChars (line.take pos.toNat)))
    else some (String.mk line)

/-- Source `GetUnixShellList()`; the argument is the text of `/etc/shells`, `none`
when the file cannot be opened. -/
def GetUnixShellList (shells : Option String) : List String :=
  match shells with
  | none => []
  | some ar => (splitChars '\n' ar.data).filterMap shellOfLine

/-- The entry that goes with one line of the shell list, said in words: no entry
for a line that after trimming is empty or starts with `'#'`; otherwise the
trimmed text before the first `'#'` of the trimmed line, or the whole trimmed
line when it has no `'#'`. -/
def shellEntrySpec (line : List Char) : Option (List Char) :=
  if trimmedChars line = [] ∨ (trimmedChars line).head? = some '#' then none
  else if '#' ∈ trimmedChars line then
    some (trimmedChars ((trimmedChars line).takeWhile (fun c => c ≠ '#')))
  else some (trimmedChars line)

/-- Lines put together again with a separator between them. -/
def joinChars (sep : Char) : List (List Char) → List Char
  | [] => []
  | [l] => l
  | l :: rest => l ++ sep :: joinChars sep rest

/-- Toolkit `QStringList::removeDuplicates()` with the strings already seen: the first
occurrence of every string is kept, the order is kept. -/
def removeDuplicatesFrom : List String → List String → List String
  | _, [] => []
  | seen, s :: rest =>
    if s ∈ seen then removeDuplicatesFrom seen rest
    else s :: removeDuplicatesFrom (s :: seen) rest

/-- Toolkit `QStringList::removeDuplicates()`. -/
def removeDuplicates (l : List String) : List String := removeDuplicatesFrom [] l

/-- Position after the last `'/'` of a path given as characters, if any. -/
def afterLastSlash : List Char → Option (List Char)
  | [] => none
  | c :: cs =>
    match afterLastSlash cs with
    | some r => some r
    | none => if c = '/' then some cs else none

/-- Toolkit `QFileInfo(path).fileName()`: what follows the last `'/'`, the whole path
when it has none. -/
def QFileInfo.fileName (path : String) : String :=
  match afterLastSlash path.data with
  | some r => String.mk r
  | none => path

/-- Toolkit `QFileInfo(path).filePath()`: the path as given. -/
def QFileInfo.filePath (path : String) : String := path

/-- Toolkit `QFileInfo(path).path()`: the path without the file name; `"."` for a bare
file name and `"/"` for a file in the root directory. -/
def QFileInfo.path (path : String) : String :=
  match afterLastSlash path.data with
  | none => "."
  | some r =>
    let k := path.data.length - r.length - 1
    if k = 0 then "/" else String.mk (path.data.take k)

/-- The record `Command` of `terminal.h`. -/
structure Command where
  name : String
  path : String
  args : List String
  loginArgs : List String
  info : String
  deriving DecidableEq, Repr

/-- What the `Terminal` constructor asks of the machine: the text of
`/etc/shells` (`none` when it cannot be opened) and `QFileInfo::exists()`. -/
structure FileSystem where
  shells : Option String
  fileExists : String → Bool

/-- The Unix branch of the constructor that fills `m_cmdList`: `/bin/bash` is
put in front of the shell list, duplicates are removed, and every shell whose
file exists gives a command named after its file name. -/
def unixCommandList (fs : FileSystem) : List Command :=
  (removeDuplicates ("/bin/bash" :: GetUnixShellList fs.shells)).filterMap fun shell =>
    if fs.fileExists shell then
      some { name := QFileInfo.fileName shell, path := QFileInfo.filePath shell,
             args := [], loginArgs := ["-l"], info := "" }
    else none

/-- The values a `QVariant` takes in the settings of this plugin. -/
inductive QVariant where
  | invalid
  | bool (b : Bool)
  | string (s : String)
  deriving DecidableEq, Repr

/-- Toolkit `QVariant::toString()`. -/
def QVariant.toString : QVariant → String
  | QVariant.invalid => ""
  | QVariant.bool b => if b then "true" else "false"
  | QVariant.string s => s

/-- Toolkit `QVariant::toBool()`: a string is true unless its lower-case form is empty,
`"0"` or `"false"` (only ASCII letters lower to the letters of `"false"`). -/
def QVariant.toBool : QVariant → Bool
  | QVariant.invalid => false
  | QVariant.bool b => b
  | QVariant.string s =>
    !(s.data.isEmpty || s = "0" || String.mk (s.data.map Char.toLower) = "false")

/-- A `QSettings` store: a map from keys to values. -/
abbrev QSettings := String → Option QVariant

/-- Toolkit `QSettings::value(key, defaultValue)`. -/
def QSettings.value (s : QSettings) (key : String) (defaultValue : QVariant) : QVariant :=
  match s key with
  | some v => v
  | none => defaultValue

/-- Toolkit `QSettings::setValue(key, value)`. -/
def QSettings.setValue (s : QSettings) (key : String) (value : QVariant) : QSettings :=
  fun k => if k = key then some value else s k

/-- Settings key of the selected shell name. -/
def TERMINAL_CURCMD : String := "terminal/curcmd"

/-- Settings key of the dark-mode flag. -/
def TERMINAL_DARKMODE : String := "terminal/darkmode"

/-- Settings key of the login-mode flag. -/
def TERMINAL_LOGINMODE : String := "terminal/loginmode"

/-- A checkable menu action of the terminal: its text, user data, tool tip and
checked flag. -/
structure MenuAction where
  text : String
  data : QVariant
  toolTip : String
  checked : Bool
  deriving DecidableEq, Repr

/-- One terminal tab as `newTerminal` leaves it: the tab title, the dark-mode
flag handed to the widget, and the arguments of `term->start(...)`. -/
structure TermTab where
  title : String
  darkMode : Bool
  program : String
  arguments : List String
  workingDir : String
  environment : List String
  deriving DecidableEq, Repr

/-- What `newTerminal` reads from the application: the file path of the current
editor (`none` without editor), `QDir::homePath()`, the Go environment as a
string list, and the locale's rendering of a number (for `%L` place markers). -/
structure TermEnv where
  editorFilePath : Option String
  homePath : String
  goEnvironment : List String
  localeNumber : Nat → String

/-- State of a `Terminal`: the settings store of the application, the members
of the class, the two mode actions and the shell actions of the menu, and the
tabs opened so far (newest last). -/
structure Terminal where
  settings : QSettings
  m_cmdList : List Command
  m_curName : String
  m_darkMode : Bool
  m_loginMode : Bool
  m_indexId : Nat
  m_darkModeAct : MenuAction
  m_loginModeAct : MenuAction
  shellActions : List MenuAction
  tabs : List TermTab

/-- Failure of the terminal code: `m_cmdList[0]` on an empty list. -/
inductive TermFault where
  | indexOutOfRange
  deriving DecidableEq, Repr

/-- The menu text of a command: `name + "\t" + path`, then the arguments when
there are some. -/
def Command.menuText (cmd : Command) : String :=
  let info := cmd.name ++ "\t" ++ cmd.path
  if ¬ cmd.args.isEmpty then info ++ " " ++ " ".intercalate cmd.args else info

/-- The shell menu built by the constructor: one checkable action per command
when there is more than one command, none otherwise. -/
def shellMenu (m_cmdList : List Command) (m_curName : String) : List MenuAction :=
  if m_cmdList.length > 1 then
    m_cmdList.map fun cmd =>
      { text := cmd.menuText, data := QVariant.string cmd.name, toolTip := cmd.path,
        checked := decide (m_curName = cmd.name) }
  else []

namespace Terminal

/-- The constructor, from a command list already probed. -/
def fromCommands (m_cmdList : List Command) (settings : QSettings) :
    Except TermFault Terminal :=
  match m_cmdList with
  | [] => Except.error TermFault.indexOutOfRange
  | first :: _ =>
    let m_curName := (settings.value TERMINAL_CURCMD (QVariant.string first.name)).toString
    let m_darkMode := (settings.value TERMINAL_DARKMODE (QVariant.bool false)).toBool
    let m_loginMode := (settings.value TERMINAL_LOGINMODE (QVariant.bool true)).toBool
    Except.ok
      { settings := settings, m_cmdList := m_cmdList, m_curName := m_curName,
        m_darkMode := m_darkMode, m_loginMode := m_loginMode, m_indexId := 0,
        m_darkModeAct := { text := "Dark Mode", data := QVariant.invalid, toolTip := "",
                           checked := m_darkMode },
        m_loginModeAct := { text := "Login Mode", data := QVariant.invalid, toolTip := "",
                            checked := m_loginMode },
        shellActions := shellMenu m_cmdList m_curName,
        tabs := [] }

/-- Source `Terminal::Terminal` (Unix branch). -/
def new (fs : FileSystem) (settings : QSettings) : Except TermFault Terminal :=
  fromCommands (unixCommandList fs) settings

/-- Source `Terminal::triggeredCmd(act)`. -/
def triggeredCmd (t : Terminal) (act : MenuAction) : Terminal :=
  let m_curName := act.data.toString
  { t with m_curName := m_curName,
           settings := t.settings.setValue TERMINAL_CURCMD (QVariant.string m_curName) }

/-- Source `Terminal::toggledDarkMode(checked)`. -/
def toggledDarkMode (t : Terminal) (checked : Bool) : Terminal :=
  { t with m_darkMode := checked,
           settings := t.settings.setValue TERMINAL_DARKMODE (QVariant.bool checked) }

/-- Source `Terminal::toggledLoginMode(checked)`. -/
def toggledLoginMode (t : Terminal) (checked : Bool) : Terminal :=
  { t with m_loginMode := checked,
           settings := t.settings.setValue TERMINAL_LOGINMODE (QVariant.bool checked) }

/-- The user picks the `k`-th shell action of the menu: the action group checks
it alone and emits `triggered(act)`, which runs `triggeredCmd`. -/
def triggerShellAction (t : Terminal) (k : Nat) : Terminal :=
  match t.shellActions[k]? with
  | none => t
  | some act =>
    let t1 := { t with shellActions :=
      t.shellActions.enum.map fun (p : Nat × MenuAction) =>
        { p.2 with checked := decide (p.1 = k) } }
    t1.triggeredCmd act

end Terminal

/-! ### `QString::arg` and `newTerminal` -/

/-- Toolkit `QChar::digitValue()` for the ASCII digits. -/
def digitValue (c : Char) : Option Nat :=
  if '0' ≤ c ∧ c ≤ '9' then some (c.toNat - '0'.toNat) else none

/-- A place marker starting at the head of the text: `'%'`, an optional `'L'`,
one or two digits.  Gives its number, whether it is a locale marker, and its
length in characters. -/
def placeMarker : List Char → Option (Nat × Bool × Nat)
  | '%' :: 'L' :: d1 :: rest =>
    match digitValue d1, rest.head?.bind digitValue with
    | some a, some b => some (10 * a + b, true, 4)
    | some a, none => some (a, true, 3)
    | none, _ => none
  | '%' :: d1 :: rest =>
    match digitValue d1, rest.head?.bind digitValue with
    | some a, some b => some (10 * a + b, false, 3)
    | some a, none => some (a, false, 2)
    | none, _ => none
  | _ => none

/-- The numbers of the place markers of a text, left to right; `skip` counts
the characters of a marker still to pass over. -/
def markerNumbers : Nat → List Char → List Nat
  | _, [] => []
  | skip + 1, _ :: cs => markerNumbers skip cs
  | 0, c :: cs =>
    match placeMarker (c :: cs) with
    | some (n, _, len) => n :: markerNumbers (len - 1) cs
    | none => markerNumbers 0 cs

/-- The text with every place marker of number `lowest` replaced: by `larg` for
a locale marker, by `arg` otherwise. -/
def replaceMarkers (lowest : Nat) (arg larg : List Char) : Nat → List Char → List Char
  | _, [] => []
  | skip + 1, _ :: cs => replaceMarkers lowest arg larg skip cs
  | 0, c :: cs =>
    match placeMarker (c :: cs) with
    | some (n, isLocale, len) =>
      if n = lowest then
        (if isLocale then larg else arg) ++ replaceMarkers lowest arg larg (len - 1) cs
      else c :: replaceMarkers lowest arg larg 0 cs
    | none => c :: replaceMarkers lowest arg larg 0 cs

/-- Toolkit `QString::arg`: the place markers with the lowest number are replaced; a
text without place marker is returned as it is. -/
def argChars (text arg larg : List Char) : List Char :=
  match (markerNumbers 0 text).min? with
  | none => text
  | some lowest => replaceMarkers lowest arg larg 0 text

/-- Toolkit `QString::arg(const QString &a)`. -/
def argString (text a : String) : String :=
  String.mk (argChars text.data a.data a.data)

/-- Toolkit `QString::arg(int a)`: decimal digits, the locale's rendering for a `%L`
marker. -/
def argInt (text : String) (a : Nat) (localeNumber : Nat → String) : String :=
  String.mk (argChars text.data (Nat.repr a).data (localeNumber a).data)

namespace Terminal

/-- The command started by `newTerminal`: `m_cmdList[0]`, replaced by the first
command named `m_curName` when the list has more than one entry. -/
def selectedCommand (m_cmdList : List Command) (m_curName : String) :
    Except TermFault Command :=
  match m_cmdList with
  | [] => Except.error TermFault.indexOutOfRange
  | first :: _ =>
    if m_cmdList.length > 1 then
      match m_cmdList.find? (fun c => m_curName = c.name) with
      | some c => Except.ok c
      | none => Except.ok first
    else Except.ok first

/-- The working directory chosen by `newTerminal`: the directory of the current
editor's file, the home directory without one. -/
def workingDir (env : TermEnv) : String :=
  let dir := match env.editorFilePath with
    | some filePath => if ¬ filePath.data.isEmpty then QFileInfo.path filePath else ""
    | none => ""
  if dir.data.isEmpty then env.homePath else dir

/-- Source `Terminal::newTerminal()`: a tab titled `"%1 %2"` with the shell name and
the incremented counter is added, then the selected command is started with
its arguments, followed by its login arguments in login mode. -/
def newTerminal (t : Terminal) (env : TermEnv) : Except TermFault Terminal := do
  let m_indexId := t.m_indexId + 1
  let title := argInt (argString "%1 %2" t.m_curName) m_indexId env.localeNumber
  let cmd ← selectedCommand t.m_cmdList t.m_curName
  let args := if t.m_loginMode then cmd.args ++ cmd.loginArgs else cmd.args
  pure { t with m_indexId := m_indexId,
                tabs := t.tabs ++ [{ title := title, darkMode := t.m_darkMode,
                                     program := cmd.path, arguments := args,
                                     workingDir := workingDir env,
                                     environment := env.goEnvironment }] }

end Terminal

/-- The slot `newTerminal` called `k` times in a row. -/
def Terminal.newTerminalTimes (env : TermEnv) : Nat → Terminal → Except TermFault Terminal
  | 0, t => Except.ok t
  | k + 1, t =>
    match Terminal.newTerminalTimes env k t with
    | Except.ok t1 => t1.newTerminal env
    | Except.error e => Except.error e

/-! ### Slots run in sequence, and what they wrote last -/

/-- A call of one of the three slots that write a preference. -/
inductive TermSlot where
  | triggeredCmd (act : MenuAction)
  | toggledDarkMode (checked : Bool)
  | toggledLoginMode (checked : Bool)

/-- One slot call. -/
def TermSlot.apply (t : Terminal) : TermSlot → Terminal
  | TermSlot.triggeredCmd act => t.triggeredCmd act
  | TermSlot.toggledDarkMode b => t.toggledDarkMode b
  | TermSlot.toggledLoginMode b => t.toggledLoginMode b

/-- Slot calls in sequence. -/
def runSlots (t : Terminal) (slots : List TermSlot) : Terminal :=
  slots.foldl TermSlot.apply t

/-- The shell name of the last `triggeredCmd` call, if any. -/
def lastCurName (slots : List TermSlot) : Option String :=
  slots.foldl (fun acc s => match s with
    | TermSlot.triggeredCmd act => some act.data.toString
    | _ => acc) none

/-- The argument of the last `toggledDarkMode` call, if any. -/
def lastDarkMode (slots : List TermSlot) : Option Bool :=
  slots.foldl (fun acc s => match s with
    | TermSlot.toggledDarkMode b => some b
    | _ => acc) none

/-- The argument of the last `toggledLoginMode` call, if any. -/
def lastLoginMode (slots : List TermSlot) : Option Bool :=
  slots.foldl (fun acc s => match s with
    | TermSlot.toggledLoginMode b => some b
    | _ => acc) none

/-! ### Concrete machines used as inputs -/

/-- A machine whose `/etc/shells` lists `/bin/bash` and `/usr/bin/bash`, both
present. -/
def twoBashFs : FileSystem :=
  { shells := some "/bin/bash\n/usr/bin/bash\n", fileExists := fun _ => true }

/-- A machine without readable `/etc/shells` and without any shell file. -/
def noShellFs : FileSystem :=
  { shells := none, fileExists := fun _ => false }

/-- A machine whose `/etc/shells` names `/bin/sh` twice and a missing `/bin/zsh`;
`/bin/bash` and `/bin/sh` are present. -/
def mixedFs : FileSystem :=
  { shells := some "/bin/sh\n/bin/zsh\n/bin/bash\n/bin/sh\n",
    fileExists := fun p => decide (p = "/bin/bash" ∨ p = "/bin/sh") }

/-- A machine whose `/etc/shells` lists a shell whose file name holds a place
marker, `/opt/%1sh`; every file is present. -/
def markerFs : FileSystem :=
  { shells := some "/opt/%1sh\n", fileExists := fun _ => true }

/-- A settings store without any key. -/
def emptySettings : QSettings := fun _ => none

/-- The terminal the constructor builds on `twoBashFs` over `emptySettings`. -/
def twoBashTerminal : Terminal :=
  { settings := emptySettings,
    m_cmdList := [{ name := "bash", path := "/bin/bash", args := [], loginArgs := ["-l"],
                    info := "" },
                  { name := "bash", path := "/usr/bin/bash", args := [], loginArgs := ["-l"],
                    info := "" }],
    m_curName := "bash", m_darkMode := false, m_loginMode := true, m_indexId := 0,
    m_darkModeAct := { text := "Dark Mode", data := QVariant.invalid, toolTip := "",
                       checked := false },
    m_loginModeAct := { text := "Login Mode", data := QVariant.invalid, toolTip := "",
                        checked := true },
    shellActions := [{ text := "bash\t/bin/bash", data := QVariant.string "bash",
                       toolTip := "/bin/bash", checked := true },
                     { text := "bash\t/usr/bin/bash", data := QVariant.string "bash",
                       toolTip := "/usr/bin/bash", checked := true }],
    tabs := [] }

/-- An application state without open editor. -/
def plainEnv : TermEnv :=
  { editorFilePath := none, homePath := "/home/user", goEnvironment := [],
    localeNumber := Nat.repr }

/-! ### `QDataStream` and the tab descriptor (`terminal.h`)

The stream format works on UTF-16 code units, so the strings of `TabInfoData`
are kept the way `QString` stores them. -/

/-- A `QString` as stored: the null string (`none`) or its UTF-16 code units. -/
abbrev QString := Option (List Nat)

/-- A well-formed `QString`: 16-bit code units, a length that fits `int`. -/
def QString.Valid (s : QString) : Prop :=
  match s with
  | none => True
  | some u => u.length < 2 ^ 31 ∧ ∀ x ∈ u, x < 65536

instance (s : QString) : Decidable (QString.Valid s) :=
  match s with
  | none => isTrue trivial
  | some u => inferInstanceAs (Decidable (u.length < 2 ^ 31 ∧ ∀ x ∈ u, x < 65536))

/-- Toolkit `QDataStream::Status`. -/
inductive StreamStatus where
  | Ok
  | ReadPastEnd
  | ReadCorruptData
  | WriteFailed
  deriving DecidableEq, Repr

/-- A `QDataStream` over a byte buffer: writes append to `bytes`, reads take
from its front. -/
structure QDataStream where
  bytes : List Nat
  status : StreamStatus
  deriving DecidableEq, Repr

namespace QDataStream

/-- Toolkit `QDataStream::setStatus`: only the first failure is kept. -/
def setStatus (s : QDataStream) (st : StreamStatus) : QDataStream :=
  if s.status = StreamStatus.Ok then { s with status := st } else s

/-- Toolkit `QDataStream::writeRawData`: nothing is written once the status is not
`Ok`. -/
def writeRawData (s : QDataStream) (data : List Nat) : QDataStream :=
  if s.status ≠ StreamStatus.Ok then s else { s with bytes := s.bytes ++ data }

/-- The four bytes of a `quint32`, big-endian (the default byte order). -/
def bytesOfUInt32 (n : Nat) : List Nat :=
  [n / 2 ^ 24 % 256, n / 2 ^ 16 % 256, n / 2 ^ 8 % 256, n % 256]

/-- The bytes of a sequence of code units, two per unit, big-endian. -/
def bytesOfUnits : List Nat → List Nat
  | [] => []
  | x :: rest => (x / 256 % 256) :: (x % 256) :: bytesOfUnits rest

/-- The code units of a sequence of bytes. -/
def unitsOfBytes : List Nat → List Nat
  | hi :: lo :: rest => (hi * 256 + lo) :: unitsOfBytes rest
  | _ => []

/-- Toolkit `operator<<(quint32)`. -/
def writeUInt32 (s : QDataStream) (n : Nat) : QDataStream :=
  s.writeRawData (bytesOfUInt32 n)

/-- Toolkit `operator<<(bool)`: one byte, 1 or 0. -/
def writeBool (s : QDataStream) (b : Bool) : QDataStream :=
  s.writeRawData [if b then 1 else 0]

/-- Toolkit `operator<<(const QString &)`: the null marker `0xffffffff` for a null
string, otherwise the length in bytes followed by the code units. -/
def writeQString (s : QDataStream) (str : QString) : QDataStream :=
  match str with
  | none => s.writeUInt32 0xFFFFFFFF
  | some u =>
    let s1 := s.writeUInt32 ((2 * u.length) % 2 ^ 32)
    if u.length ≠ 0 then s1.writeRawData (bytesOfUnits u) else s1

/-- Toolkit `QDataStream::readBlock(data, len)`: `len` bytes when there are as many;
otherwise what is left is taken and the status becomes `ReadPastEnd`. -/
def readBlock (s : QDataStream) (len : Nat) : QDataStream × List Nat :=
  if len ≤ s.bytes.length then ({ s with bytes := s.bytes.drop len }, s.bytes.take len)
  else (({ s with bytes := [] } : QDataStream).setStatus StreamStatus.ReadPastEnd, s.bytes)

/-- Toolkit `operator>>(quint32 &)`: 0 when four bytes could not be read. -/
def readUInt32 (s : QDataStream) : QDataStream × Nat :=
  match s.readBlock 4 with
  | (s1, [b0, b1, b2, b3]) => (s1, ((b0 * 256 + b1) * 256 + b2) * 256 + b3)
  | (s1, _) => (s1, 0)

/-- Toolkit `operator>>(bool &)`: a byte is read, the value is whether it is not 0;
`false` when no byte could be read. -/
def readBool (s : QDataStream) : QDataStream × Bool :=
  match s.readBlock 1 with
  | (s1, [v]) => (s1, decide (v ≠ 0))
  | (s1, _) => (s1, false)

/-- Toolkit `operator>>(QString &)`.  Qt reads the code units in blocks of at
most 2^20 units; the blocks are consecutive, so one read of all the bytes has
the same result. -/
def readQString (s : QDataStream) : QDataStream × QString :=
  match s.readUInt32 with
  | (s1, bytes) =>
    if bytes = 0xFFFFFFFF then (s1, none)
    else if bytes > 0 then
      if bytes % 2 = 1 then (s1.setStatus StreamStatus.ReadCorruptData, none)
      else
        match s1.readBlock bytes with
        | (s2, raw) =>
          if raw.length ≠ bytes then (s2, none) else (s2, some (unitsOfBytes raw))
    else (s1, some [])

/-- The serialized form of a `QString`. -/
def encodeQString (str : QString) : List Nat :=
  match str with
  | none => bytesOfUInt32 0xFFFFFFFF
  | some u => bytesOfUInt32 ((2 * u.length) % 2 ^ 32) ++ bytesOfUnits u

/-- The serialized form of a `bool`. -/
def encodeBool (b : Bool) : List Nat := [if b then 1 else 0]

end QDataStream

/-- The record `TabInfoData` of `terminal.h` (`open_` is its member `open`). -/
structure TabInfoData where
  cmd : QString
  dir : QString
  cwd : QString
  title : QString
  pid : QString
  login : Bool
  open_ : Bool
  deriving DecidableEq, Repr

/-- Source `operator<<(QDataStream &, const TabInfoData &)`. -/
def TabInfoData.operatorOut (s : QDataStream) (data : TabInfoData) : QDataStream :=
  ((((s.writeQString data.cmd).writeQString data.dir).writeQString data.cwd).writeQString
    data.title).writeBool data.login

/-- Source `operator>>(QDataStream &, TabInfoData &)`: the stream after the reads and
the descriptor with the fields read. -/
def TabInfoData.operatorIn (s : QDataStream) (data : TabInfoData) :
    QDataStream × TabInfoData :=
  let r1 := s.readQString
  let r2 := r1.1.readQString
  let r3 := r2.1.readQString
  let r4 := r3.1.readQString
  let r5 := r4.1.readBool
  (r5.1, { data with cmd := r1.2, dir := r2.2, cwd := r3.2, title := r4.2, login := r5.2 })

/-- The strings of a descriptor that go into the stream are well-formed. -/
def TabInfoData.Valid (d : TabInfoData) : Prop :=
  QString.Valid d.cmd ∧ QString.Valid d.dir ∧ QString.Valid d.cwd ∧ QString.Valid d.title

instance (d : TabInfoData) : Decidable d.Valid :=
  inferInstanceAs (Decidable (QString.Valid d.cmd ∧ QString.Valid d.dir ∧
    QString.Valid d.cwd ∧ QString.Valid d.title))

/-- The serialized form of a descriptor: `cmd`, `dir`, `cwd`, `title`, `login`,
in this order. -/
def TabInfoData.encode (d : TabInfoData) : List Nat :=
  QDataStream.encodeQString d.cmd ++ (QDataStream.encodeQString d.dir ++
    (QDataStream.encodeQString d.cwd ++ (QDataStream.encodeQString d.title ++
      QDataStream.encodeBool d.login)))

/-- A stream on an empty buffer, ready for writing. -/
def QDataStream.empty : QDataStream := { bytes := [], status := StreamStatus.Ok }

/-- A descriptor used as an input: command `"sh"`, directory `"/"`, a null
current directory, an empty title. -/
def sampleTab : TabInfoData :=
  { cmd := some [115, 104], dir := some [47], cwd := none, title := some [],
    pid := some [52, 50], login := true, open_ := false }

/-! ## Quick-open popup (`quickopenwidget.cpp`)

The tree view shows a flat list: the rows of the model under the root index,
all of them visible and enabled, none with children. -/

/-- An item model as the view uses it: its numbers of rows and columns under
the root index. -/
structure ItemModel where
  rowCount : Nat
  columnCount : Nat
  deriving DecidableEq, Repr

/-- A `QModelIndex`: invalid (`none`) or a row and a column. -/
abbrev QModelIndex := Option (Nat × Nat)

/-- Toolkit `QAbstractItemModel::index(row, column, parent)`: valid for a row and
a column that the model has. -/
def ItemModel.index (m : ItemModel) (row : Int) (column : Nat) : QModelIndex :=
  if 0 ≤ row ∧ row < m.rowCount ∧ column < m.columnCount then some (row.toNat, column)
  else none

/-- Position of an index among the items shown by the view, `-1` for an index
that is not shown. -/
def ItemModel.viewIndex (m : ItemModel) (index : Nat × Nat) : Int :=
  if index.1 < m.rowCount then (index.1 : Int) else -1

/-- Toolkit `QTreeView::indexBelow(index)`: the item shown right after the index,
in the column of the index; invalid for an invalid index and after the last
item. -/
def ItemModel.indexBelow (m : ItemModel) (index : QModelIndex) : QModelIndex :=
  match index with
  | none => none
  | some i =>
    let k := m.viewIndex i + 1
    if k ≥ m.rowCount then none else some (k.toNat, i.2)

/-- Toolkit `QTreeView::indexAbove(index)`: the item shown right before the index,
in the column of the index; invalid for an invalid index and before the first
item. -/
def ItemModel.indexAbove (m : ItemModel) (index : QModelIndex) : QModelIndex :=
  match index with
  | none => none
  | some i =>
    let k := m.viewIndex i - 1
    if k < 0 then none else some (k.toNat, i.2)

/-- Value of `Qt::Key_Up`. -/
def Key_Up : Int := 0x01000013

/-- Value of `Qt::Key_Down`. -/
def Key_Down : Int := 0x01000015

/-- The events told apart by `eventFilter`. -/
inductive QEvent where
  | KeyPress (key : Int)
  | FocusOut
  | other
  deriving DecidableEq, Repr

/-- The widget that has the focus inside the popup. -/
inductive FocusWidget where
  | edit
  | view
  | elsewhere
  deriving DecidableEq, Repr

/-- State of a `QuickOpenWidget`: the model of `m_view` (`none` without model),
the current index of the view, the focus widget, and the arguments of the
emitted `indexChanage` signals, newest last. -/
structure QuickOpenWidget where
  model : Option ItemModel
  currentIndex : QModelIndex
  focusWidget : FocusWidget
  emitted : List QModelIndex
  deriving DecidableEq, Repr

/-- Source `QuickOpenWidget::eventFilter(o, e)`: the return value and the state
after the call.  `QWidget::eventFilter` returns `false`. -/
def QuickOpenWidget.eventFilter (w : QuickOpenWidget) (e : QEvent) : Bool × QuickOpenWidget :=
  match e with
  | QEvent.KeyPress key =>
    match w.model with
    | none => (false, w)
    | some model =>
      if key = Key_Up then
        let above := model.indexAbove w.currentIndex
        let index := if above.isNone then model.index ((model.rowCount : Int) - 1) 0 else above
        (true, { w with currentIndex := index, emitted := w.emitted ++ [index] })
      else if key = Key_Down then
        let below := model.indexBelow w.currentIndex
        let index := if below.isNone then model.index 0 0 else below
        (true, { w with currentIndex := index, emitted := w.emitted ++ [index] })
      else (false, w)
  | QEvent.FocusOut =>
    if w.focusWidget = FocusWidget.view then (true, { w with focusWidget := FocusWidget.edit })
    else (true, w)
  | QEvent.other => (false, w)

/-- A popup without model, the view holding a stale current index. -/
def noModelPopup : QuickOpenWidget :=
  { model := none, currentIndex := some (2, 0), focusWidget := FocusWidget.edit, emitted := [] }

/-- A popup over five rows in one column, row 4 (the last) current. -/
def fiveRowPopup : QuickOpenWidget :=
  { model := some { rowCount := 5, columnCount := 1 }, currentIndex := some (4, 0),
    focusWidget := FocusWidget.edit, emitted := [] }

/-! ### Zoom lemmas -/

theorem ImageEditorWidget.doScale_m11 (w : ImageEditorWidget) (f : ℚ) :
    (w.doScale f).m11 = w.m11 * ImageEditorWidget.actualFactor w.m11 f := by
  unfold ImageEditorWidget.doScale
  simp only [ImageEditorWidget.emitScaleFactor, ImageEditorWidget.scale]
  split <;> rfl

theorem ImageEditorWidget.doScale_m_scaleFactor (w : ImageEditorWidget) (f : ℚ) :
    (w.doScale f).m_scaleFactor = w.m_scaleFactor := by
  unfold ImageEditorWidget.doScale
  simp only [ImageEditorWidget.emitScaleFactor, ImageEditorWidget.scale]
  split <;> rfl

theorem ImageEditorWidget.mul_actualFactor (s f : ℚ) (hs : 0 < s) :
    s * ImageEditorWidget.actualFactor s f =
      if s * f > 1000 then 1000 else if s * f < 1 / 1000 then 1 / 1000 else s * f := by
  have hne : s ≠ 0 := ne_of_gt hs
  unfold ImageEditorWidget.actualFactor
  simp only
  split_ifs
  · exact mul_div_cancel₀ 1000 hne
  · exact mul_div_cancel₀ (1 / 1000) hne
  · rfl

theorem ScaleInv.doScale {w : ImageEditorWidget} (h : ScaleInv w) (f : ℚ) :
    ScaleInv (w.doScale f) := by
  obtain ⟨hpos, _, _, hsf⟩ := h
  have hm := ImageEditorWidget.mul_actualFactor w.m11 f hpos
  have hk : (1 : ℚ) / 1000 > 0 := by norm_num
  refine ⟨?_, ?_, ?_, ?_⟩
  · rw [ImageEditorWidget.doScale_m11, hm]
    split_ifs with h1 h2
    · norm_num
    · norm_num
    · linarith [not_lt.mp h2]
  · rw [ImageEditorWidget.doScale_m11, hm]
    split_ifs with h1 h2
    · norm_num
    · exact le_refl _
    · exact not_lt.mp h2
  · rw [ImageEditorWidget.doScale_m11, hm]
    split_ifs with h1 h2
    · exact le_refl _
    · norm_num
    · exact not_lt.mp h1
  · rw [ImageEditorWidget.doScale_m_scaleFactor, hsf]

theorem ScaleInv.resetSize (w : ImageEditorWidget) (h : w.m_scaleFactor = 6 / 5) :
    ScaleInv w.resetSize := by
  refine ⟨?_, ?_, ?_, ?_⟩ <;>
    simp only [ImageEditorWidget.resetSize, ImageEditorWidget.resetTransform,
      ImageEditorWidget.emitScaleFactor, h] <;> norm_num

theorem ScaleInv.apply {w : ImageEditorWidget} (h : ScaleInv w) (op : ViewOp) :
    ScaleInv (op.apply w) := by
  cases op with
  | zoomIn => exact h.doScale _
  | zoomOut => exact h.doScale _
  | pinch g =>
      simp only [ViewOp.apply, ImageEditorWidget.pinchTriggered]
      split
      · exact h.doScale _
      · exact h
  | resetSize => exact ScaleInv.resetSize w h.2.2.2
  | setImageItem item =>
      exact ScaleInv.resetSize { w with m_imageItem := item } h.2.2.2

/-- Over exact rationals the view scale stays in [0.001, 1000] along every
sequence of operations. -/
theorem ScaleInv.run {w : ImageEditorWidget} (h : ScaleInv w) (ops : List ViewOp) :
    ScaleInv (runViewOps w ops) := by
  induction ops generalizing w with
  | nil => exact h
  | cons op ops ih => exact ih (h.apply op)

/-- The rounding on known doubles: `1.2` is `0x3FF3333333333333`, `0.001` is
`0x3F50624DD2F1A9FC`, `65.1` is `0x4050466666666666`; a double is left as it
is; a tie goes to the even neighbour; below the normal range the spacing stays
`2 ^ (-1074)`. -/
theorem Binary64.roundNearest_values :
    Binary64.roundNearest (6 / 5) = 0x13333333333333 / 2 ^ 52 ∧
    Binary64.roundNearest (1 / 1000) = 0x10624DD2F1A9FC / 2 ^ 62 ∧
    Binary64.roundNearest (651 / 10) = 0x10466666666666 / 2 ^ 46 ∧
    Binary64.roundNearest (1000 + 1 / 2 ^ 43) = 1000 + 1 / 2 ^ 43 ∧
    Binary64.roundNearest (1 + 1 / 2 ^ 53) = 1 ∧
    Binary64.roundNearest (1 + 3 / 2 ^ 53) = 1 + 2 / 2 ^ 52 ∧
    Binary64.roundNearest (-(1 + 3 / 2 ^ 53)) = -(1 + 2 / 2 ^ 52) ∧
    Binary64.roundNearest (3 / 2 ^ 1075) = 2 / 2 ^ 1074 ∧
    Binary64.roundNearest (2 ^ 60 + 1) = 2 ^ 60 := by
  decide!

/-! ### Claims on the image view -/

/-- C1: for a current view scale `s > 0` and any factor `f`, `doScale f`
leaves the view scale equal to `s * f` when `0.001 ≤ s * f ≤ 1000`, to `1000`
when `s * f > 1000` and to `0.001` when `s * f < 0.001`; `zoomIn` is `doScale`
with the step `1.2` and `zoomOut` is `doScale` with `1 / 1.2`. -/
theorem C1_doScale_clamps (w : ImageEditorWidget) (f : ℚ) (hs : 0 < w.m11) :
    (1 / 1000 ≤ w.m11 * f → w.m11 * f ≤ 1000 → (w.doScale f).scaleFactor = w.m11 * f) ∧
    (w.m11 * f > 1000 → (w.doScale f).scaleFactor = 1000) ∧
    (w.m11 * f < 1 / 1000 → (w.doScale f).scaleFactor = 1 / 1000) ∧
    (w.m_scaleFactor = 6 / 5 →
      w.zoomIn = w.doScale (6 / 5) ∧ w.zoomOut = w.doScale (5 / 6)) := by
  have hm := ImageEditorWidget.mul_actualFactor w.m11 f hs
  simp only [ImageEditorWidget.scaleFactor, ImageEditorWidget.doScale_m11, hm]
  refine ⟨?_, ?_, ?_, ?_⟩
  · intro h1 h2
    rw [if_neg (not_lt.mpr h2), if_neg (not_lt.mpr h1)]
  · intro h
    rw [if_pos h]
  · intro h
    have h' : ¬ w.m11 * f > 1000 := by
      intro h2
      have : (1 : ℚ) / 1000 < 1000 := by norm_num
      linarith
    rw [if_neg h', if_pos h]
  · intro h
    constructor
    · simp only [ImageEditorWidget.zoomIn, h]
    · simp only [ImageEditorWidget.zoomOut, h]
      norm_num

/-- Witness of C1 on the freshly constructed view and a pinch factor of 5000. -/
theorem C1_doScale_clamps_witness :
    (0 : ℚ) < ImageEditorWidget.new.m11 ∧
    (ImageEditorWidget.new.doScale 5000).scaleFactor = 1000 :=
  ⟨by simp [ImageEditorWidget.new],
   (C1_doScale_clamps ImageEditorWidget.new 5000 (by simp [ImageEditorWidget.new])).2.1
     (by simp [ImageEditorWidget.new]; norm_num)⟩

/-- C2 fails on the machine, where a `qreal` is a binary64 `double`: from the
constructed view, 38 calls of `zoomIn` leave the scale one unit in the last
place below 1000 (999.9999999999999); in the 39th call the new scale would
exceed 1000, the capped factor `1000. / currentScale` is `1 + 2 ^ (-52)`
(1.0000000000000002), and `scale` leaves the view scale at `1000 + 2 ^ (-43)`
(1000.0000000000001), above the cap.  At the other end a pinch by the double
65.1 followed by a pinch by `2 ^ (-20)` leaves the scale below 0.001. -/
theorem C2_double_scale_leaves_range :
    (Binary64.runViewOps Binary64.new (List.replicate 38 ViewOp.zoomIn)).scaleFactor =
      1000 - 1 / 2 ^ 43 ∧
    Binary64.mul (1000 - 1 / 2 ^ 43) Binary64.new.m_scaleFactor > 1000 ∧
    Binary64.actualFactor (1000 - 1 / 2 ^ 43) Binary64.new.m_scaleFactor = 1 + 1 / 2 ^ 52 ∧
    (Binary64.runViewOps Binary64.new (List.replicate 39 ViewOp.zoomIn)).scaleFactor =
      1000 + 1 / 2 ^ 43 ∧
    1000 < (Binary64.runViewOps Binary64.new (List.replicate 39 ViewOp.zoomIn)).scaleFactor ∧
    (Binary64.runViewOps Binary64.new
        [ViewOp.pinch ⟨true, Binary64.roundNearest (651 / 10)⟩,
         ViewOp.pinch ⟨true, 1 / 2 ^ 20⟩]).scaleFactor < 1 / 1000 := by
  decide!

/-! ### Dock widget lemmas -/

section DockLemmas
open BaseDockWidget

theorem BaseDockWidget.deliver_fixed (slot : BaseDockWidget → Except Fault BaseDockWidget)
    (w : BaseDockWidget) (h : slot w = Except.ok w) (n : Nat) :
    deliver slot n w = Except.ok w := by
  induction n with
  | zero => rfl
  | succ n ih => simp only [deliver, h, bind, Except.bind, ih]

theorem BaseDockWidget.deliver_once (slot : BaseDockWidget → Except Fault BaseDockWidget)
    (w w1 : BaseDockWidget) (h : slot w = Except.ok w1) (h1 : slot w1 = Except.ok w1)
    (n : Nat) (hn : n ≠ 0) :
    deliver slot n w = Except.ok w1 := by
  cases n with
  | zero => exact absurd rfl hn
  | succ n =>
    simp only [deliver, h, bind, Except.bind]
    exact deliver_fixed slot w1 h1 n

theorem BaseDockWidget.writeChecked_self (heap : ActionPtr → QAction) (a : ActionPtr) (b : Bool) :
    (writeChecked heap a b a).checked = b := by
  simp [writeChecked]

theorem BaseDockWidget.writeChecked_other (heap : ActionPtr → QAction) (a p : ActionPtr) (b : Bool)
    (h : p ≠ a) : writeChecked heap a b p = heap p := by
  simp [writeChecked, h]

theorem BaseDockWidget.writeChecked_objectName (heap : ActionPtr → QAction) (a p : ActionPtr)
    (b : Bool) : (writeChecked heap a b p).objectName = (heap p).objectName := by
  unfold writeChecked
  split
  · next h => subst h; rfl
  · rfl

theorem BaseDockWidget.writeChecked_checkable (heap : ActionPtr → QAction) (a p : ActionPtr)
    (b : Bool) : (writeChecked heap a b p).checkable = (heap p).checkable := by
  unfold writeChecked
  split
  · next h => subst h; rfl
  · rfl

/-- The slot on an unchecked sender: it only clears `current` when the sender
is the current action. -/
theorem BaseDockWidget.actionChangedWith_unchecked
    (f : ActionPtr → Bool → BaseDockWidget → Except Fault BaseDockWidget)
    (a : ActionPtr) (w : BaseDockWidget) (h : (w.heap a).checked = false) :
    actionChangedWith f (some a) w =
      Except.ok (if some a = w.current then { w with current := none } else w) := by
  simp only [actionChangedWith, h, Bool.false_eq_true, if_false]
  split <;> rfl

theorem BaseDockWidget.setChecked_false (fuel : Nat) (a : ActionPtr) (w : BaseDockWidget) :
    setChecked (fuel + 1) a false w = Except.ok (w.uncheckResult a) := by
  unfold setChecked uncheckResult
  split
  · rfl
  · next hc =>
    simp only [Bool.or_eq_true, Bool.not_eq_true', beq_iff_eq, not_or, Bool.not_eq_false] at hc
    by_cases hcnt : w.connected.count a = 0
    · simp only [hcnt, deliver, ne_eq, not_true_eq_false, false_and, if_false]
      rfl
    · by_cases hcur : w.current = some a
      · rw [deliver_once _ _ { w with heap := writeChecked w.heap a false, current := none } _ _ _ hcnt]
        · simp [hcnt, hcur]
        · rw [actionChangedWith_unchecked _ _ _ (writeChecked_self _ _ _)]
          simp [hcur]
        · rw [actionChangedWith_unchecked _ _ _ (writeChecked_self _ _ _)]
          simp
      · rw [deliver_fixed]
        · simp [hcur]
        · rw [actionChangedWith_unchecked _ _ _ (writeChecked_self _ _ _)]
          have : ¬ some a = w.current := fun h => hcur h.symm
          simp [this]


theorem BaseDockWidget.uncheckResult_heap_other (w : BaseDockWidget) (cur p : ActionPtr)
    (h : p ≠ cur) : (w.uncheckResult cur).heap p = w.heap p := by
  unfold uncheckResult
  split
  · rfl
  · exact writeChecked_other _ _ _ _ h

/-- The slot on a checked sender that already is the current action. -/
theorem BaseDockWidget.actionChangedWith_current
    (f : ActionPtr → Bool → BaseDockWidget → Except Fault BaseDockWidget)
    (a : ActionPtr) (w : BaseDockWidget) (h : (w.heap a).checked = true)
    (hc : w.current = some a) :
    actionChangedWith f (some a) w = Except.ok w := by
  simp only [actionChangedWith, h, if_true, hc, ne_eq, not_true_eq_false, if_false]
  rfl

theorem BaseDockWidget.setChecked_true (fuel : Nat) (a : ActionPtr) (w : BaseDockWidget) :
    setChecked (fuel + 2) a true w = Except.ok (w.checkResult a) := by
  unfold setChecked checkResult
  split
  · rfl
  · next hc =>
    simp only [Bool.or_eq_true, Bool.not_eq_true', beq_iff_eq, not_or, Bool.not_eq_false] at hc
    simp only
    by_cases hcnt : w.connected.count a = 0
    · simp only [hcnt, deliver, if_true]
      rfl
    · rw [if_neg hcnt]
      by_cases hcur : some a = w.current
      · rw [if_pos hcur]
        apply deliver_fixed
        exact actionChangedWith_current _ _ _ (writeChecked_self _ _ _) hcur.symm
      · rw [if_neg hcur]
        apply deliver_once _ _ _ _ _ _ hcnt
        · simp only [actionChangedWith, writeChecked_self, if_true, ne_eq, hcur, not_false_eq_true]
          cases hw : w.current with
          | none =>
            simp only [bind, Except.bind, pure, Except.pure]
            split <;> rfl
          | some cur =>
            simp only [setChecked_false, bind, Except.bind, pure, Except.pure]
            split <;> rfl
        · apply actionChangedWith_current
          · cases hw : w.current with
            | none =>
              simp only
              split <;> exact writeChecked_self _ _ _
            | some cur =>
              have hne : a ≠ cur := by
                intro h; apply hcur; rw [hw, h]
              simp only
              split <;>
                (simp only [uncheckResult_heap_other _ _ _ hne]; exact writeChecked_self _ _ _)
          · split <;> rfl

@[simp] theorem BaseDockWidget.uncheckResult_m_actions (w : BaseDockWidget) (a : ActionPtr) :
    (w.uncheckResult a).m_actions = w.m_actions := by
  unfold uncheckResult; split <;> rfl

@[simp] theorem BaseDockWidget.uncheckResult_m_comboBox (w : BaseDockWidget) (a : ActionPtr) :
    (w.uncheckResult a).m_comboBox = w.m_comboBox := by
  unfold uncheckResult; split <;> rfl

@[simp] theorem BaseDockWidget.uncheckResult_connected (w : BaseDockWidget) (a : ActionPtr) :
    (w.uncheckResult a).connected = w.connected := by
  unfold uncheckResult; split <;> rfl

@[simp] theorem BaseDockWidget.uncheckResult_objectName (w : BaseDockWidget) (a p : ActionPtr) :
    ((w.uncheckResult a).heap p).objectName = (w.heap p).objectName := by
  unfold uncheckResult
  split
  · rfl
  · exact writeChecked_objectName _ _ _ _

@[simp] theorem BaseDockWidget.uncheckResult_checkable (w : BaseDockWidget) (a p : ActionPtr) :
    ((w.uncheckResult a).heap p).checkable = (w.heap p).checkable := by
  unfold uncheckResult
  split
  · rfl
  · exact writeChecked_checkable _ _ _ _

@[simp] theorem BaseDockWidget.checkResult_m_actions (w : BaseDockWidget) (a : ActionPtr) :
    (w.checkResult a).m_actions = w.m_actions := by
  unfold checkResult
  simp only
  split
  · rfl
  · split
    · rfl
    · split
      · rfl
      · cases w.current <;> simp only <;> split <;> simp

@[simp] theorem BaseDockWidget.checkResult_connected (w : BaseDockWidget) (a : ActionPtr) :
    (w.checkResult a).connected = w.connected := by
  unfold checkResult
  simp only
  split
  · rfl
  · split
    · rfl
    · split
      · rfl
      · cases w.current <;> simp only <;> split <;> simp

@[simp] theorem QComboBox.setCurrentIndex_items (c : QComboBox) (i : Int) :
    (c.setCurrentIndex i).items = c.items := rfl

@[simp] theorem BaseDockWidget.checkResult_items (w : BaseDockWidget) (a : ActionPtr) :
    (w.checkResult a).m_comboBox.items = w.m_comboBox.items := by
  unfold checkResult
  simp only
  split
  · rfl
  · split
    · rfl
    · split
      · rfl
      · cases w.current <;> simp only <;> split <;> simp

@[simp] theorem BaseDockWidget.checkResult_objectName (w : BaseDockWidget) (a p : ActionPtr) :
    ((w.checkResult a).heap p).objectName = (w.heap p).objectName := by
  unfold checkResult
  simp only
  split
  · rfl
  · split
    · exact writeChecked_objectName _ _ _ _
    · split
      · exact writeChecked_objectName _ _ _ _
      · cases w.current <;> simp only <;> split <;>
          simp [writeChecked_objectName]

@[simp] theorem BaseDockWidget.checkResult_checkable (w : BaseDockWidget) (a p : ActionPtr) :
    ((w.checkResult a).heap p).checkable = (w.heap p).checkable := by
  unfold checkResult
  simp only
  split
  · rfl
  · split
    · exact writeChecked_checkable _ _ _ _
    · split
      · exact writeChecked_checkable _ _ _ _
      · cases w.current <;> simp only <;> split <;>
          simp [writeChecked_checkable]

theorem BaseDockWidget.addAction_eq (fuel : Nat) (w : BaseDockWidget) (a : ActionPtr)
    (title : String) :
    w.addAction (fuel + 1) a title = Except.ok (w.addResult a title) := by
  unfold addAction addResult registerResult addTail uncheckCurrent
  simp only [bind, Except.bind, pure, Except.pure]
  generalize (if ¬ a ∈ w.m_actions then
      ({ w with m_actions := w.m_actions ++ [a],
                m_comboBox := w.m_comboBox.addItem title (w.heap a).objectName a,
                connected := w.connected ++ [a] } : BaseDockWidget)
    else w) = w1
  cases hcur : w1.current with
  | none =>
    simp only
    by_cases h : (w1.heap a).checked = true
    · rw [if_pos h, if_pos h]
    · rw [if_neg h, if_neg h]
  | some cur =>
    simp only
    by_cases hchk : (w1.heap cur).checked = true
    · rw [if_pos hchk, if_pos hchk, setChecked_false]
      simp only
      by_cases h : ((w1.uncheckResult cur).heap a).checked = true
      · rw [if_pos h, if_pos h]
      · rw [if_neg h, if_neg h]
    · rw [if_neg hchk, if_neg hchk]
      by_cases h : (w1.heap a).checked = true
      · rw [if_pos h, if_pos h]
      · rw [if_neg h, if_neg h]

theorem BaseDockWidget.addResult_m_actions (w : BaseDockWidget) (a : ActionPtr) (title : String) :
    (w.addResult a title).m_actions =
      if a ∈ w.m_actions then w.m_actions else w.m_actions ++ [a] := by
  unfold addResult registerResult addTail uncheckCurrent
  by_cases ha : a ∈ w.m_actions
  · simp only [ha, not_true_eq_false, if_false, if_true]
    cases w.current <;> simp only <;> (repeat' split) <;> simp
  · simp only [ha, not_false_eq_true, if_true, if_false]
    cases w.current <;> simp only <;> (repeat' split) <;> simp

theorem BaseDockWidget.addResult_connected (w : BaseDockWidget) (a : ActionPtr) (title : String) :
    (w.addResult a title).connected =
      if a ∈ w.m_actions then w.connected else w.connected ++ [a] := by
  unfold addResult registerResult addTail uncheckCurrent
  by_cases ha : a ∈ w.m_actions
  · simp only [ha, not_true_eq_false, if_false, if_true]
    cases w.current <;> simp only <;> (repeat' split) <;> simp
  · simp only [ha, not_false_eq_true, if_true, if_false]
    cases w.current <;> simp only <;> (repeat' split) <;> simp

theorem BaseDockWidget.addResult_items (w : BaseDockWidget) (a : ActionPtr) (title : String) :
    (w.addResult a title).m_comboBox.items =
      if a ∈ w.m_actions then w.m_comboBox.items
      else w.m_comboBox.items ++ [{ text := title, data := (w.heap a).objectName, owner := a }] := by
  unfold addResult registerResult addTail uncheckCurrent
  by_cases ha : a ∈ w.m_actions
  · simp only [ha, not_true_eq_false, if_false, if_true]
    cases w.current <;> simp only <;> (repeat' split) <;> simp
  · simp only [ha, not_false_eq_true, if_true, if_false]
    cases w.current <;> simp only <;> (repeat' split) <;> simp [QComboBox.addItem]

@[simp] theorem BaseDockWidget.addResult_objectName (w : BaseDockWidget) (a p : ActionPtr)
    (title : String) :
    ((w.addResult a title).heap p).objectName = (w.heap p).objectName := by
  unfold addResult registerResult addTail uncheckCurrent
  by_cases ha : a ∈ w.m_actions
  · simp only [ha, not_true_eq_false, if_false, if_true]
    cases w.current <;> simp only <;> (repeat' split) <;> simp
  · simp only [ha, not_false_eq_true, if_true, if_false]
    cases w.current <;> simp only <;> (repeat' split) <;> simp

@[simp] theorem BaseDockWidget.addResult_checkable (w : BaseDockWidget) (a p : ActionPtr)
    (title : String) :
    ((w.addResult a title).heap p).checkable = (w.heap p).checkable := by
  unfold addResult registerResult addTail uncheckCurrent
  by_cases ha : a ∈ w.m_actions
  · simp only [ha, not_true_eq_false, if_false, if_true]
    cases w.current <;> simp only <;> (repeat' split) <;> simp
  · simp only [ha, not_false_eq_true, if_true, if_false]
    cases w.current <;> simp only <;> (repeat' split) <;> simp

/-- The loop of `activeComboBoxIndex` stops at `a` when `a` is registered and
no other registered action carries its object name. -/
theorem find?_objectName (name : ActionPtr → String) (l : List ActionPtr) (a : ActionPtr)
    (ha : a ∈ l) (h : ∀ b ∈ l, name b = name a → b = a) :
    l.find? (fun act => decide (name act = name a)) = some a := by
  induction l with
  | nil => cases ha
  | cons b l ih =>
    by_cases hb : name b = name a
    · have : b = a := h b (List.mem_cons_self _ _) hb
      subst this
      simp [List.find?]
    · have hne : a ≠ b := fun e => hb (by rw [e])
      have ha' : a ∈ l := by
        rcases List.mem_cons.mp ha with e | e
        · exact absurd e hne
        · exact e
      simp only [List.find?, hb, decide_False]
      exact ih ha' (fun c hc => h c (List.mem_cons_of_mem _ hc))

theorem eraseFirstData_subset (d : String) (items : List ComboItem) (x : ComboItem)
    (hx : x ∈ eraseFirstData d items) : x ∈ items := by
  induction items with
  | nil => cases hx
  | cons it rest ih =>
    unfold eraseFirstData at hx
    split at hx
    · exact List.mem_cons_of_mem _ hx
    · rcases List.mem_cons.mp hx with e | e
      · rw [e]; exact List.mem_cons_self _ _
      · exact List.mem_cons_of_mem _ (ih e)

theorem QComboBox.findDataFrom_none (d : String) (items : List ComboItem) (k : Nat)
    (h : QComboBox.findDataFrom d items k = none) : eraseFirstData d items = items := by
  induction items generalizing k with
  | nil => rfl
  | cons it rest ih =>
    unfold QComboBox.findDataFrom at h
    unfold eraseFirstData
    split at h
    · cases h
    · next hne => rw [if_neg hne, ih (k + 1) h]

theorem QComboBox.findDataFrom_some (d : String) (items : List ComboItem) (k j : Nat)
    (h : QComboBox.findDataFrom d items k = some j) :
    k ≤ j ∧ j - k < items.length ∧ items.eraseIdx (j - k) = eraseFirstData d items := by
  induction items generalizing k with
  | nil => cases h
  | cons it rest ih =>
    unfold QComboBox.findDataFrom at h
    unfold eraseFirstData
    split at h
    · next he =>
      cases h
      simp [he]
    · next hne =>
      obtain ⟨h1, h2, h3⟩ := ih (k + 1) h
      have hj : j - k = (j - (k + 1)) + 1 := by omega
      refine ⟨by omega, ?_, ?_⟩
      · rw [hj]; simp only [List.length_cons]; omega
      · rw [hj, if_neg hne, List.eraseIdx_cons_succ, h3]

/-- What `removeAction` does to the combo box: the first entry carrying the
data is taken out (none when no entry carries it). -/
theorem QComboBox.removeFound_items (c : QComboBox) (d : String) :
    (if c.findData d ≥ 0 then c.removeItem (c.findData d) else c).items =
      eraseFirstData d c.items := by
  unfold QComboBox.findData
  cases h : QComboBox.findDataFrom d c.items 0 with
  | none =>
    simp only [QComboBox.findDataFrom_none d c.items 0 h]
    simp
  | some j =>
    obtain ⟨_, h2, h3⟩ := QComboBox.findDataFrom_some d c.items 0 j h
    simp only [Nat.sub_zero] at h2 h3
    have hj : (0 : Int) ≤ (j : Int) := Int.ofNat_nonneg j
    simp only [ge_iff_le, hj, if_true]
    unfold QComboBox.removeItem
    have hlt : ¬ ((j : Int) < 0 ∨ c.count ≤ (j : Int)) := by
      unfold QComboBox.count
      omega
    rw [if_neg hlt]
    simp only [Int.toNat_ofNat, h3]

theorem BaseDockWidget.removeAction_heap (w : BaseDockWidget) (a : ActionPtr) :
    (w.removeAction a).heap = w.heap := by
  unfold removeAction
  split
  · simp only
    (repeat' split) <;> rfl
  · rfl

theorem BaseDockWidget.removeAction_m_actions (w : BaseDockWidget) (a : ActionPtr) :
    (w.removeAction a).m_actions = w.m_actions.filter (fun p => p ≠ a) := by
  unfold removeAction
  split
  · simp only
    (repeat' split) <;> rfl
  · next h =>
    have hn : a ∉ w.m_actions := by
      intro hm
      exact h (by simpa using List.count_pos_iff.mpr hm |> Nat.pos_iff_ne_zero.mp)
    symm
    rw [List.filter_eq_self]
    intro b hb
    simp only [ne_eq, decide_not, Bool.not_eq_true', decide_eq_false_iff_not]
    intro e; exact hn (e ▸ hb)

theorem BaseDockWidget.removeAction_connected (w : BaseDockWidget) (a : ActionPtr)
    (h : w.connected = w.m_actions) :
    (w.removeAction a).connected = w.connected.filter (fun p => p ≠ a) := by
  unfold removeAction
  split
  · simp only
    (repeat' split) <;> rfl
  · next hc =>
    have hn : a ∉ w.connected := by
      rw [h]
      intro hm
      exact hc (by simpa using List.count_pos_iff.mpr hm |> Nat.pos_iff_ne_zero.mp)
    symm
    rw [List.filter_eq_self]
    intro b hb
    simp only [ne_eq, decide_not, Bool.not_eq_true', decide_eq_false_iff_not]
    intro e; exact hn (e ▸ hb)

theorem BaseDockWidget.removeAction_current (w : BaseDockWidget) (a : ActionPtr)
    (ha : a ∈ w.m_actions) :
    (w.removeAction a).current = if some a = w.current then none else w.current := by
  unfold removeAction
  have hc : w.m_actions.count a ≠ 0 := Nat.pos_iff_ne_zero.mp (List.count_pos_iff.mpr ha)
  rw [if_pos hc]
  simp only
  (repeat' split) <;> rfl

theorem BaseDockWidget.removeAction_current_of_not_mem (w : BaseDockWidget) (a : ActionPtr)
    (ha : a ∉ w.m_actions) : (w.removeAction a).current = w.current := by
  unfold removeAction
  have hc : ¬ w.m_actions.count a ≠ 0 := by
    simp [List.count_eq_zero, ha]
  rw [if_neg hc]

theorem BaseDockWidget.removeAction_items (w : BaseDockWidget) (a : ActionPtr) :
    (w.removeAction a).m_comboBox.items =
      if a ∈ w.m_actions then eraseFirstData (w.heap a).objectName w.m_comboBox.items
      else w.m_comboBox.items := by
  unfold removeAction
  by_cases ha : a ∈ w.m_actions
  · have hc : w.m_actions.count a ≠ 0 := Nat.pos_iff_ne_zero.mp (List.count_pos_iff.mpr ha)
    rw [if_pos hc, if_pos ha]
    simp only
    rw [← QComboBox.removeFound_items]
    (repeat' split) <;> rfl
  · have hc : ¬ w.m_actions.count a ≠ 0 := by
      simp [List.count_eq_zero, ha]
    rw [if_neg hc, if_neg ha]

/-- Taking out the first entry with the object name of `a` takes out the entry
of `a`, when entries carry their owners' names and names tell owners apart. -/
theorem eraseFirstData_owner (name : ActionPtr → String) (items : List ComboItem)
    (a : ActionPtr)
    (hdata : ∀ it ∈ items, it.data = name it.owner)
    (hnodup : (items.map ComboItem.owner).Nodup)
    (hinj : ∀ it ∈ items, name it.owner = name a → it.owner = a) :
    (eraseFirstData (name a) items).map ComboItem.owner =
      (items.map ComboItem.owner).filter (fun p => p ≠ a) := by
  induction items with
  | nil => rfl
  | cons it rest ih =>
    have hd := hdata it (List.mem_cons_self _ _)
    simp only [List.map_cons, List.nodup_cons] at hnodup
    have ih' := ih (fun x hx => hdata x (List.mem_cons_of_mem _ hx)) hnodup.2
      (fun x hx => hinj x (List.mem_cons_of_mem _ hx))
    unfold eraseFirstData
    by_cases he : it.data = name a
    · have ho : it.owner = a := hinj it (List.mem_cons_self _ _) (hd ▸ he)
      rw [if_pos he]
      simp only [List.map_cons, ho, ne_eq, not_true_eq_false, decide_False, Bool.false_eq_true,
        not_false_eq_true, List.filter_cons_of_neg]
      symm
      rw [List.filter_eq_self]
      intro b hb
      simp only [decide_not, Bool.not_eq_true', decide_eq_false_iff_not]
      intro e
      exact hnodup.1 (ho ▸ e ▸ hb)
    · have ho : it.owner ≠ a := fun e => he (by rw [hd, e])
      rw [if_neg he]
      simp only [List.map_cons, ih', ne_eq, ho, not_false_eq_true, decide_True,
        List.filter_cons_of_pos]

/-- Along `addAction` / `removeAction` calls that keep the registered object
names pairwise distinct, the combo box stays parallel to the action list. -/
theorem ReachedDistinct.inv {w : BaseDockWidget} (h : ReachedDistinct w) :
    Parallel w ∧ w.m_actions.Nodup ∧ NamesDistinct w := by
  induction h with
  | new heap =>
    refine ⟨⟨rfl, ?_⟩, List.nodup_nil, ?_⟩
    · intro it hit; cases hit
    · intro a ha; cases ha
  | @addAction w w' fuel a title _ hf heq hnd ih =>
    obtain ⟨⟨hown, hdata⟩, hnodup, _⟩ := ih
    obtain ⟨f, rfl⟩ : ∃ f, fuel = f + 1 := ⟨fuel - 1, by omega⟩
    rw [addAction_eq] at heq
    cases heq
    refine ⟨⟨?_, ?_⟩, ?_, hnd⟩
    · rw [addResult_items, addResult_m_actions]
      split
      · exact hown
      · simp [hown]
    · intro it hit
      rw [addResult_items] at hit
      rw [addResult_objectName]
      split at hit
      · exact hdata it hit
      · rcases List.mem_append.mp hit with h1 | h1
        · exact hdata it h1
        · simp only [List.mem_singleton] at h1
          rw [h1]
    · rw [addResult_m_actions]
      split
      · exact hnodup
      · next hna =>
        rw [List.nodup_append]
        refine ⟨hnodup, List.nodup_singleton _, ?_⟩
        intro x hx hx'
        simp only [List.mem_singleton] at hx'
        exact hna (hx' ▸ hx)
  | @removeAction w a _ ih =>
    obtain ⟨⟨hown, hdata⟩, hnodup, hnd⟩ := ih
    refine ⟨⟨?_, ?_⟩, ?_, ?_⟩
    · rw [removeAction_items, removeAction_m_actions]
      split
      · next ha =>
        rw [← hown]
        apply eraseFirstData_owner (fun p => (w.heap p).objectName) _ a hdata
        · rw [hown]; exact hnodup
        · intro it hit hname
          have hmem : it.owner ∈ w.m_actions := by
            rw [← hown]; exact List.mem_map_of_mem _ hit
          exact hnd _ hmem _ ha hname
      · next ha =>
        rw [hown]
        symm
        rw [List.filter_eq_self]
        intro b hb
        simp only [ne_eq, decide_not, Bool.not_eq_true', decide_eq_false_iff_not]
        intro e; exact ha (e ▸ hb)
    · intro it hit
      rw [removeAction_items] at hit
      rw [removeAction_heap]
      split at hit
      · exact hdata it (eraseFirstData_subset _ _ _ hit)
      · exact hdata it hit
    · rw [removeAction_m_actions]
      exact hnodup.filter _
    · intro x hx y hy
      rw [removeAction_m_actions] at hx hy
      rw [removeAction_heap]
      exact hnd x (List.mem_of_mem_filter hx) y (List.mem_of_mem_filter hy)

theorem BaseDockWidget.checkResult_checked (w : BaseDockWidget) (a : ActionPtr)
    (hc : (w.heap a).checkable = true) : ((w.checkResult a).heap a).checked = true := by
  unfold checkResult
  simp only
  split
  · next h =>
    simpa [hc] using h
  · split
    · exact writeChecked_self _ _ _
    · split
      · exact writeChecked_self _ _ _
      · next hne =>
        cases hw : w.current with
        | none =>
          simp only
          split <;> exact writeChecked_self _ _ _
        | some cur =>
          have hne' : a ≠ cur := by
            intro e; apply hne; simp only [hw, e]
          simp only
          split <;>
            (simp only [uncheckResult_heap_other _ _ _ hne']; exact writeChecked_self _ _ _)

theorem QComboBox.itemData_eq (c : QComboBox) (i : Int) (it : ComboItem) (h0 : 0 ≤ i)
    (h : c.items[i.toNat]? = some it) : c.itemData i = it.data := by
  unfold QComboBox.itemData
  rw [if_neg (not_lt.mpr h0), h]

/-- Selecting an entry whose creating action is registered under a name no
other registered action carries runs `setChecked(true)` on that action, unless
it is checked already. -/
theorem BaseDockWidget.activeComboBoxIndex_eq (w : BaseDockWidget) (i : Int) (it : ComboItem)
    (fuel : Nat) (h0 : 0 ≤ i) (hit : w.m_comboBox.items[i.toNat]? = some it)
    (hmem : it.owner ∈ w.m_actions) (hdata : it.data = (w.heap it.owner).objectName)
    (hnd : NamesDistinct w) :
    w.activeComboBoxIndex (fuel + 2) i =
      Except.ok (if (w.heap it.owner).checked then w else w.checkResult it.owner) := by
  have hlen : i.toNat < w.m_comboBox.items.length := by
    rcases List.getElem?_eq_some_iff.mp hit with ⟨hl, _⟩
    exact hl
  have hcount : ¬ (i < 0 ∨ i ≥ w.m_comboBox.count) := by
    unfold QComboBox.count
    omega
  unfold activeComboBoxIndex
  rw [if_neg hcount]
  simp only [QComboBox.itemData_eq _ _ _ h0 hit, hdata]
  rw [find?_objectName (fun p => (w.heap p).objectName) w.m_actions it.owner hmem
    (fun b hb hname => hnd b hb it.owner hmem hname)]
  simp only
  by_cases hchk : (w.heap it.owner).checked = true
  · simp [hchk]
    rfl
  · simp only [hchk, not_false_eq_true, if_true, setChecked_true]
    simp

theorem BaseDockWidget.writeChecked_checked (heap : ActionPtr → QAction) (a p : ActionPtr)
    (b : Bool) : (writeChecked heap a b p).checked = if p = a then b else (heap p).checked := by
  unfold writeChecked
  split <;> rfl

theorem ValidHeap.writeChecked {heap : ActionPtr → QAction} (hv : ValidHeap heap)
    (a : ActionPtr) (b : Bool) (hb : b = true → (heap a).checkable = true) :
    ValidHeap (writeChecked heap a b) := by
  intro p hp
  rw [writeChecked_checkable]
  rw [writeChecked_checked] at hp
  split at hp
  · next e => subst e; exact hb hp
  · exact hv p hp

theorem Coherent.uncheckResult {w : BaseDockWidget} (h : Coherent w) (a : ActionPtr) :
    Coherent (w.uncheckResult a) := by
  obtain ⟨hv, hconn, hnodup, h3, h4⟩ := h
  unfold BaseDockWidget.uncheckResult
  split
  · exact ⟨hv, hconn, hnodup, h3, h4⟩
  · next hc =>
    simp only [Bool.or_eq_true, Bool.not_eq_true', beq_iff_eq, not_or, Bool.not_eq_false] at hc
    refine ⟨hv.writeChecked a false (by simp), hconn, hnodup, ?_, ?_⟩
    · intro b hb hchk
      simp only [writeChecked_checked] at hchk
      split at hchk
      · cases hchk
      · next hne =>
        have hcur := h3 b hb hchk
        simp only [hcur, Option.some.injEq, hne, and_false, if_false]
    · intro b hcur
      simp only at hcur
      split at hcur
      · cases hcur
      · next hnot =>
        obtain ⟨hb, hchk⟩ := h4 b hcur
        have hne : b ≠ a := by
          intro e
          subst e
          apply hnot
          refine ⟨?_, hcur⟩
          rw [hconn]
          exact Nat.pos_iff_ne_zero.mp (List.count_pos_iff.mpr hb)
        refine ⟨hb, ?_⟩
        simp only [writeChecked_checked, hne, if_false, hchk]

theorem Coherent.checkResult {w : BaseDockWidget} (h : Coherent w) (a : ActionPtr) :
    Coherent (w.checkResult a) := by
  have h' := h
  obtain ⟨hv, hconn, hnodup, h3, h4⟩ := h
  unfold BaseDockWidget.checkResult
  simp only
  split
  · exact h'
  · next hc =>
    simp only [Bool.or_eq_true, Bool.not_eq_true', beq_iff_eq, not_or, Bool.not_eq_false,
      Bool.not_eq_true] at hc
    obtain ⟨hcheckable, hunchecked⟩ := hc
    have hv1 : ValidHeap (writeChecked w.heap a true) := hv.writeChecked a true (fun _ => hcheckable)
    split
    · next hcnt =>
      -- `a` is not registered
      have ha : a ∉ w.m_actions := by
        intro hm
        rw [hconn] at hcnt
        exact (Nat.pos_iff_ne_zero.mp (List.count_pos_iff.mpr hm)) hcnt
      refine ⟨hv1, hconn, hnodup, ?_, ?_⟩
      · intro b hb hchk
        have hne : b ≠ a := fun e => ha (e ▸ hb)
        simp only [writeChecked_checked, hne, if_false] at hchk
        exact h3 b hb hchk
      · intro b hcur
        obtain ⟨hb, hchk⟩ := h4 b hcur
        have hne : b ≠ a := fun e => ha (e ▸ hb)
        exact ⟨hb, by simp only [writeChecked_checked, hne, if_false, hchk]⟩
    · next hcnt =>
      have ha : a ∈ w.m_actions := by
        rw [hconn] at hcnt
        exact List.count_pos_iff.mp (Nat.pos_of_ne_zero hcnt)
      split
      · next hcur =>
        -- impossible: `current` is checked, `a` was not
        have := (h4 a hcur.symm).2
        rw [hunchecked] at this
        cases this
      · next hcur =>
        cases hw : w.current with
        | none =>
          simp only
          have key : Coherent { w with heap := writeChecked w.heap a true, current := some a } := by
            refine ⟨hv1, hconn, hnodup, ?_, ?_⟩
            · intro b hb hchk
              simp only [writeChecked_checked] at hchk
              split at hchk
              · next e => simp only [e]
              · have := h3 b hb hchk
                rw [hw] at this
                cases this
            · intro b hb
              simp only [Option.some.injEq] at hb
              subst hb
              exact ⟨ha, writeChecked_self _ _ _⟩
          split
          · exact ⟨key.1, key.2.1, key.2.2.1, key.2.2.2.1, key.2.2.2.2⟩
          · exact key
        | some cur =>
          have hne : a ≠ cur := by
            intro e; apply hcur; simp only [hw, e]
          obtain ⟨hcurmem, hcurchk⟩ := h4 cur hw
          have hcurable : (w.heap cur).checkable = true := hv cur hcurchk
          have hv2 : ValidHeap (writeChecked (writeChecked w.heap a true) cur false) :=
            hv1.writeChecked cur false (by simp)
          have hu : ({ w with heap := writeChecked w.heap a true,
                              current := some cur } : BaseDockWidget).uncheckResult cur =
              { w with heap := writeChecked (writeChecked w.heap a true) cur false,
                       current := none } := by
            unfold BaseDockWidget.uncheckResult
            have hcc : List.count cur w.connected ≠ 0 := by
              rw [hconn]
              exact Nat.pos_iff_ne_zero.mp (List.count_pos_iff.mpr hcurmem)
            simp [writeChecked_checkable, writeChecked_checked, hcurable, hcurchk,
              (Ne.symm hne), hw, hcc]
          have key : Coherent { w with heap := writeChecked (writeChecked w.heap a true) cur false,
                                       current := some a } := by
            refine ⟨hv2, hconn, hnodup, ?_, ?_⟩
            · intro b hb hchk
              simp only [writeChecked_checked] at hchk
              split at hchk
              · cases hchk
              · next hbc =>
                split at hchk
                · next e => simp only [e]
                · have := h3 b hb hchk
                  rw [hw] at this
                  simp only [Option.some.injEq] at this
                  exact absurd this.symm hbc
            · intro b hb
              simp only [Option.some.injEq] at hb
              subst hb
              refine ⟨ha, ?_⟩
              simp only [writeChecked_checked, hne, if_false, if_true]
          simp only [hw, hu]
          split
          · exact ⟨key.1, key.2.1, key.2.2.1, key.2.2.2.1, key.2.2.2.2⟩
          · exact key

/-- Second half of `addAction` (uncheck the current action, then make the added
action current if it is checked), from a state that is coherent except that
the added action `a` may be checked without being current. -/
theorem Coherent.addResult_tail (w1 : BaseDockWidget) (a : ActionPtr)
    (hv : ValidHeap w1.heap) (hconn : w1.connected = w1.m_actions)
    (hnodup : w1.m_actions.Nodup) (ha : a ∈ w1.m_actions)
    (h3 : ∀ b ∈ w1.m_actions, b ≠ a → (w1.heap b).checked = true → w1.current = some b)
    (h4 : ∀ b, w1.current = some b → b ∈ w1.m_actions ∧ (w1.heap b).checked = true) :
    Coherent (w1.addTail a) := by
  -- the state after the current action has been unchecked
  have hq : ∃ w2 : BaseDockWidget, w1.uncheckCurrent = w2 ∧
      ValidHeap w2.heap ∧ w2.connected = w2.m_actions ∧ w2.m_actions.Nodup ∧
      a ∈ w2.m_actions ∧ w2.current = none ∧
      ∀ b ∈ w2.m_actions, b ≠ a → (w2.heap b).checked = false := by
    unfold BaseDockWidget.uncheckCurrent
    cases hw : w1.current with
    | none =>
      refine ⟨w1, rfl, hv, hconn, hnodup, ha, hw, ?_⟩
      intro b hb hne
      cases hchk : (w1.heap b).checked with
      | false => rfl
      | true =>
        have := h3 b hb hne hchk
        rw [hw] at this
        cases this
    | some cur =>
      obtain ⟨hcurmem, hcurchk⟩ := h4 cur hw
      have hcurable : (w1.heap cur).checkable = true := hv cur hcurchk
      have hcc : List.count cur w1.connected ≠ 0 := by
        rw [hconn]
        exact Nat.pos_iff_ne_zero.mp (List.count_pos_iff.mpr hcurmem)
      have hu : w1.uncheckResult cur =
          { w1 with heap := writeChecked w1.heap cur false, current := none } := by
        unfold BaseDockWidget.uncheckResult
        simp [hcurable, hcurchk, hw, hcc]
      refine ⟨{ w1 with heap := writeChecked w1.heap cur false, current := none }, ?_,
        hv.writeChecked cur false (by simp), hconn, hnodup, ha, rfl, ?_⟩
      · simp only [hcurchk, if_true, hu]
      · intro b hb hne
        simp only [writeChecked_checked]
        split
        · rfl
        · next hbc =>
          cases hchk : (w1.heap b).checked with
          | false => rfl
          | true =>
            have := h3 b hb hne hchk
            rw [hw] at this
            simp only [Option.some.injEq] at this
            exact absurd this.symm hbc
  obtain ⟨w2, he, hv2, hconn2, hnodup2, ha2, hcur2, hoth⟩ := hq
  unfold BaseDockWidget.addTail
  rw [he]
  simp only
  split
  · next hchk =>
    refine ⟨hv2, hconn2, hnodup2, ?_, ?_⟩
    · intro b hb hbchk
      by_cases hne : b = a
      · simp only [hne]
      · have := hoth b hb hne
        simp only at hbchk
        rw [this] at hbchk
        cases hbchk
    · intro b hb
      simp only [Option.some.injEq] at hb
      subst hb
      exact ⟨ha2, hchk⟩
  · next hchk =>
    refine ⟨hv2, hconn2, hnodup2, ?_, ?_⟩
    · intro b hb hbchk
      by_cases hne : b = a
      · subst hne; exact absurd hbchk hchk
      · have := hoth b hb hne
        rw [this] at hbchk
        cases hbchk
    · intro b hb
      rw [hcur2] at hb
      cases hb

theorem Coherent.addResult {w : BaseDockWidget} (h : Coherent w) (a : ActionPtr)
    (title : String) : Coherent (w.addResult a title) := by
  obtain ⟨hv, hconn, hnodup, h3, h4⟩ := h
  unfold BaseDockWidget.addResult BaseDockWidget.registerResult
  by_cases ha : a ∈ w.m_actions
  · simp only [ha, not_true_eq_false, if_false]
    exact Coherent.addResult_tail w a hv hconn hnodup ha (fun b hb _ => h3 b hb) h4
  · simp only [ha, not_false_eq_true, if_true]
    apply Coherent.addResult_tail
    · exact hv
    · simp only [hconn]
    · simp only
      rw [List.nodup_append]
      refine ⟨hnodup, List.nodup_singleton _, ?_⟩
      intro x hx hx'
      simp only [List.mem_singleton] at hx'
      exact ha (hx' ▸ hx)
    · simp
    · intro b hb hne hchk
      simp only [List.mem_append, List.mem_singleton] at hb
      rcases hb with hb | hb
      · exact h3 b hb hchk
      · exact absurd hb hne
    · intro b hb
      obtain ⟨h1, h2⟩ := h4 b hb
      exact ⟨List.mem_append_left _ h1, h2⟩

theorem Coherent.removeAction {w : BaseDockWidget} (h : Coherent w) (a : ActionPtr) :
    Coherent (w.removeAction a) := by
  obtain ⟨hv, hconn, hnodup, h3, h4⟩ := h
  refine ⟨?_, ?_, ?_, ?_, ?_⟩
  · rw [removeAction_heap]; exact hv
  · rw [removeAction_connected _ _ hconn, removeAction_m_actions, hconn]
  · rw [removeAction_m_actions]; exact hnodup.filter _
  · intro b hb hchk
    rw [removeAction_m_actions] at hb
    rw [removeAction_heap] at hchk
    have hb' := List.mem_of_mem_filter hb
    have hne : b ≠ a := by
      have := List.of_mem_filter hb
      simpa using this
    have hcur := h3 b hb' hchk
    by_cases ha : a ∈ w.m_actions
    · rw [removeAction_current _ _ ha, hcur]
      simp [Ne.symm hne]
    · rw [removeAction_current_of_not_mem _ _ ha, hcur]
  · intro b hb
    rw [removeAction_m_actions, removeAction_heap]
    by_cases ha : a ∈ w.m_actions
    · rw [removeAction_current _ _ ha] at hb
      split at hb
      · cases hb
      · next hne =>
        obtain ⟨h1, h2⟩ := h4 b hb
        refine ⟨?_, h2⟩
        rw [List.mem_filter]
        refine ⟨h1, ?_⟩
        simp only [ne_eq, decide_not, Bool.not_eq_true', decide_eq_false_iff_not]
        intro e
        apply hne
        rw [hb, e]
    · rw [removeAction_current_of_not_mem _ _ ha] at hb
      obtain ⟨h1, h2⟩ := h4 b hb
      refine ⟨?_, h2⟩
      rw [List.mem_filter]
      refine ⟨h1, ?_⟩
      simp only [ne_eq, decide_not, Bool.not_eq_true', decide_eq_false_iff_not]
      intro e
      exact ha (e ▸ h1)

theorem BaseDockWidget.new_coherent (heap : ActionPtr → QAction) (hv : ValidHeap heap) :
    Coherent (BaseDockWidget.new heap) := by
  refine ⟨hv, rfl, List.nodup_nil, ?_, ?_⟩
  · intro a ha; cases ha
  · intro a ha; cases ha

/-- Every reached state satisfies the bookkeeping invariant. -/
theorem Reached.coherent {w : BaseDockWidget} (h : Reached w) : Coherent w := by
  induction h with
  | new heap hv => exact BaseDockWidget.new_coherent heap hv
  | @addAction w w' fuel a title _ hf heq ih =>
    obtain ⟨f, rfl⟩ : ∃ f, fuel = f + 1 := ⟨fuel - 1, by omega⟩
    rw [addAction_eq] at heq
    cases heq
    exact ih.addResult a title
  | @removeAction w a _ ih => exact ih.removeAction a
  | @setChecked w w' fuel a b _ hf heq ih =>
    obtain ⟨f, rfl⟩ : ∃ f, fuel = f + 2 := ⟨fuel - 2, by omega⟩
    cases b with
    | false =>
      rw [setChecked_false] at heq
      cases heq
      exact ih.uncheckResult a
    | true =>
      rw [setChecked_true] at heq
      cases heq
      exact ih.checkResult a

theorem eraseFirstData_map_data (d : String) (items : List ComboItem) :
    (eraseFirstData d items).map ComboItem.data = (items.map ComboItem.data).erase d := by
  induction items with
  | nil => rfl
  | cons it rest ih =>
    unfold eraseFirstData
    by_cases he : it.data = d
    · rw [if_pos he]
      simp [he]
    · rw [if_neg he]
      simp only [List.map_cons, ih]
      rw [List.erase_cons_tail]
      simpa using he

theorem perm_map_erase {α β : Type} [DecidableEq α] [DecidableEq β] (f : α → β) (l : List α)
    (a : α) (ha : a ∈ l) : ((l.erase a).map f).Perm ((l.map f).erase (f a)) := by
  have h1 : (l.map f).Perm (f a :: (l.erase a).map f) :=
    (List.perm_cons_erase ha).map f
  have h2 : (l.map f).Perm (f a :: (l.map f).erase (f a)) :=
    List.perm_cons_erase (List.mem_map_of_mem f ha)
  exact (List.Perm.cons_inv (h1.symm.trans h2))

theorem EntryNames.frame {w w' : BaseDockWidget} (h : EntryNames w)
    (hitems : w'.m_comboBox.items = w.m_comboBox.items) (hact : w'.m_actions = w.m_actions)
    (hname : ∀ p, (w'.heap p).objectName = (w.heap p).objectName) : EntryNames w' := by
  obtain ⟨hd, hp⟩ := h
  refine ⟨?_, ?_⟩
  · intro it hit
    rw [hitems] at hit
    rw [hname]
    exact hd it hit
  · rw [hitems, hact]
    have : (fun a => (w'.heap a).objectName) = (fun a => (w.heap a).objectName) :=
      funext hname
    rw [this]
    exact hp

theorem EntryNames.of_addResult {w : BaseDockWidget} (h : EntryNames w) (a : ActionPtr)
    (title : String) : EntryNames (w.addResult a title) := by
  obtain ⟨hd, hp⟩ := h
  have hn : (fun p => ((w.addResult a title).heap p).objectName) =
      (fun p => (w.heap p).objectName) := funext (fun p => addResult_objectName w a p title)
  refine ⟨?_, ?_⟩
  · intro it hit
    rw [addResult_items] at hit
    rw [addResult_objectName]
    split at hit
    · exact hd it hit
    · rcases List.mem_append.mp hit with h1 | h1
      · exact hd it h1
      · simp only [List.mem_singleton] at h1
        rw [h1]
  · rw [addResult_items, addResult_m_actions, hn]
    split
    · exact hp
    · simp only [List.map_append, List.map_cons, List.map_nil]
      exact hp.append_right _

theorem EntryNames.of_removeAction {w : BaseDockWidget} (h : EntryNames w)
    (hnodup : w.m_actions.Nodup) (a : ActionPtr) : EntryNames (w.removeAction a) := by
  obtain ⟨hd, hp⟩ := h
  refine ⟨?_, ?_⟩
  · intro it hit
    rw [removeAction_items] at hit
    rw [removeAction_heap]
    split at hit
    · exact hd it (eraseFirstData_subset _ _ _ hit)
    · exact hd it hit
  · rw [removeAction_items, removeAction_m_actions, removeAction_heap]
    by_cases ha : a ∈ w.m_actions
    · rw [if_pos ha, eraseFirstData_map_data]
      have hf : w.m_actions.filter (fun p => p ≠ a) = w.m_actions.erase a := by
        rw [hnodup.erase_eq_filter]
        apply List.filter_congr
        intro p _
        by_cases hpa : p = a <;> simp [hpa]
      rw [hf]
      exact (hp.erase _).trans
        (perm_map_erase (fun p => (w.heap p).objectName) w.m_actions a ha).symm
    · rw [if_neg ha]
      have hf : w.m_actions.filter (fun p => p ≠ a) = w.m_actions := by
        rw [List.filter_eq_self]
        intro b hb
        simp only [ne_eq, decide_not, Bool.not_eq_true', decide_eq_false_iff_not]
        intro e; exact ha (e ▸ hb)
      rw [hf]
      exact hp

/-- In every reached state each entry carries the object name of the action it
was created for, and the names in the combo box are those of the registered
actions, as many times. -/
theorem Reached.entryNames {w : BaseDockWidget} (h : Reached w) : EntryNames w := by
  induction h with
  | new heap hv =>
    refine ⟨?_, List.Perm.refl _⟩
    intro it hit; cases hit
  | @addAction w w' fuel a title hr hf heq ih =>
    obtain ⟨f, rfl⟩ : ∃ f, fuel = f + 1 := ⟨fuel - 1, by omega⟩
    rw [addAction_eq] at heq
    cases heq
    exact ih.of_addResult a title
  | @removeAction w a hr ih => exact ih.of_removeAction hr.coherent.2.2.1 a
  | @setChecked w w' fuel a b hr hf heq ih =>
    obtain ⟨f, rfl⟩ : ∃ f, fuel = f + 2 := ⟨fuel - 2, by omega⟩
    cases b with
    | false =>
      rw [setChecked_false] at heq
      cases heq
      exact ih.frame (by simp) (by simp) (by simp)
    | true =>
      rw [setChecked_true] at heq
      cases heq
      exact ih.frame (by simp) (by simp) (by simp)

/-- Selecting a valid entry whose object name is carried by exactly one
registered action `a` runs `setChecked(true)` on `a`, unless it is checked
already. -/
theorem BaseDockWidget.activeComboBoxIndex_of_name (w : BaseDockWidget) (i : Int)
    (it : ComboItem) (a : ActionPtr) (fuel : Nat) (h0 : 0 ≤ i)
    (hit : w.m_comboBox.items[i.toNat]? = some it)
    (hmem : a ∈ w.m_actions) (hdata : (w.heap a).objectName = it.data)
    (hnd : NamesDistinct w) :
    w.activeComboBoxIndex (fuel + 2) i =
      Except.ok (if (w.heap a).checked then w else w.checkResult a) := by
  have hlen : i.toNat < w.m_comboBox.items.length := by
    rcases List.getElem?_eq_some_iff.mp hit with ⟨hl, _⟩
    exact hl
  have hcount : ¬ (i < 0 ∨ i ≥ w.m_comboBox.count) := by
    unfold QComboBox.count
    omega
  unfold activeComboBoxIndex
  rw [if_neg hcount]
  simp only [QComboBox.itemData_eq _ _ _ h0 hit, ← hdata]
  rw [find?_objectName (fun p => (w.heap p).objectName) w.m_actions a hmem
    (fun b hb hname => hnd b hb a hmem hname)]
  simp only
  by_cases hchk : (w.heap a).checked = true
  · simp [hchk]
    rfl
  · simp only [hchk, not_false_eq_true, if_true, setChecked_true]
    simp

/-- After the selection of an entry whose object name is carried by exactly
one registered, checkable action `a`, that action is `checkedAction()` and no
other registered action is checked. -/
theorem BaseDockWidget.activeComboBoxIndex_checkedAction (w : BaseDockWidget) (i : Int)
    (it : ComboItem) (a : ActionPtr) (fuel : Nat)
    (hcoh : Coherent w) (hnd : NamesDistinct w)
    (hchk : (w.heap a).checkable = true)
    (h0 : 0 ≤ i) (hit : w.m_comboBox.items[i.toNat]? = some it)
    (hmem : a ∈ w.m_actions) (hdata : (w.heap a).objectName = it.data) :
    ∃ w', w.activeComboBoxIndex (fuel + 2) i = Except.ok w' ∧
      w'.m_actions = w.m_actions ∧
      w'.checkedAction = some a ∧
      ∀ b ∈ w'.m_actions, b ≠ a → (w'.heap b).checked = false := by
  refine ⟨_, activeComboBoxIndex_of_name w i it a fuel h0 hit hmem hdata hnd, ?_⟩
  have key : ∀ w' : BaseDockWidget, Coherent w' → a ∈ w'.m_actions →
      (w'.heap a).checked = true →
      w'.checkedAction = some a ∧
      ∀ b ∈ w'.m_actions, b ≠ a → (w'.heap b).checked = false := by
    intro w' hc hm hck
    obtain ⟨_, _, _, h3, _⟩ := hc
    have hcur : w'.current = some a := h3 _ hm hck
    refine ⟨hcur, ?_⟩
    intro b hb hne
    cases hbc : (w'.heap b).checked with
    | false => rfl
    | true =>
      have := h3 b hb hbc
      rw [hcur] at this
      simp only [Option.some.injEq] at this
      exact absurd this.symm hne
  split
  · next h => exact ⟨rfl, key w hcoh hmem h⟩
  · exact ⟨checkResult_m_actions _ _,
      key _ (hcoh.checkResult _) (by rw [checkResult_m_actions]; exact hmem)
        (checkResult_checked _ _ hchk)⟩

end DockLemmas

/-! ### Claims on the dock widget -/

section DockClaims
open BaseDockWidget

/-- C3 fails as stated: (1) with two registered actions that share the object
name `"x"`, selecting entry 1 (created by the `addAction` of action 1) checks
action 0 and leaves action 1 unchecked; (2) with a registered action that is
not checkable, selecting its entry leaves it unchecked. -/
theorem C3_counterexample :
    (∃ w0 w w' : BaseDockWidget,
      (BaseDockWidget.new sameNameHeap).addAction 2 0 "A" = Except.ok w0 ∧
      w0.addAction 2 1 "B" = Except.ok w ∧
      w.m_comboBox.items = [⟨"A", "x", 0⟩, ⟨"B", "x", 1⟩] ∧
      w.activeComboBoxIndex 2 1 = Except.ok w' ∧
      (w'.heap 1).checked = false ∧ (w'.heap 0).checked = true) ∧
    (∃ v v' : BaseDockWidget,
      (BaseDockWidget.new plainHeap).addAction 2 0 "T" = Except.ok v ∧
      v.m_comboBox.items = [⟨"T", "tool", 0⟩] ∧
      v.activeComboBoxIndex 2 0 = Except.ok v' ∧
      (v'.heap 0).checked = false) :=
  ⟨⟨_, _, _, rfl, rfl, rfl, rfl, rfl, rfl⟩, ⟨_, _, rfl, rfl, rfl, rfl⟩⟩

/-- C3 (amended): in every state reached by `addAction` and `removeAction`
calls that keep the object names of the registered actions pairwise distinct,
with the registered actions checkable, `activeComboBoxIndex(i)` for a valid
index `i` runs to completion and leaves checked the action whose `addAction`
call created combo-box entry `i`. -/
theorem C3_distinct_names_check_creator (w : BaseDockWidget) (i : Int) (fuel : Nat)
    (hreach : ReachedDistinct w)
    (hchk : ∀ a ∈ w.m_actions, (w.heap a).checkable = true)
    (h0 : 0 ≤ i) (h1 : i < w.m_comboBox.count) (hf : 2 ≤ fuel) :
    ∃ it w', w.m_comboBox.items[i.toNat]? = some it ∧
      w.activeComboBoxIndex fuel i = Except.ok w' ∧
      (w'.heap it.owner).checked = true := by
  obtain ⟨⟨hown, hdata⟩, _, hnd⟩ := hreach.inv
  have hlen : i.toNat < w.m_comboBox.items.length := by
    unfold QComboBox.count at h1
    omega
  obtain ⟨f, rfl⟩ : ∃ f, fuel = f + 2 := ⟨fuel - 2, by omega⟩
  have hit : w.m_comboBox.items[i.toNat]? = some (w.m_comboBox.items[i.toNat]) :=
    List.getElem?_eq_getElem hlen
  have hin : w.m_comboBox.items[i.toNat] ∈ w.m_comboBox.items := List.getElem_mem hlen
  have hmem : (w.m_comboBox.items[i.toNat]).owner ∈ w.m_actions := by
    rw [← hown]
    exact List.mem_map_of_mem _ hin
  refine ⟨_, _, hit, activeComboBoxIndex_eq w i _ f h0 hit hmem (hdata _ hin) hnd, ?_⟩
  split
  · next h => exact h
  · exact checkResult_checked _ _ (hchk _ hmem)

/-- Witness of C3 (amended): `toolState`, entry 1. -/
theorem C3_distinct_names_check_creator_witness :
    ∃ it w', toolState.m_comboBox.items[(1 : Int).toNat]? = some it ∧
      toolState.activeComboBoxIndex 2 1 = Except.ok w' ∧
      (w'.heap it.owner).checked = true :=
  C3_distinct_names_check_creator toolState 1 2
    (ReachedDistinct.addAction 2 1 "Outline"
      (ReachedDistinct.addAction 2 0 "Files" (ReachedDistinct.new toolHeap) (by decide)
        (addAction_eq 1 _ 0 "Files") (by decide))
      (by decide) (addAction_eq 1 _ 1 "Outline") (by decide))
    (by decide) (by decide) (by decide) (by decide)

/-- C4 fails as stated: after `addAction(0, "A")`, `addAction(1, "B")` and
`removeAction(1)` over actions that all carry the object name `"x"`, the only
registered action is action 0 (so the registered actions are checkable with
pairwise distinct names), the only entry is the one created for action 1, and
selecting it makes action 0 the checked action: `checkedAction()` is not the
action of entry 0. -/
theorem C4_counterexample :
    ∃ w0 w1 w', (BaseDockWidget.new sameNameHeap).addAction 2 0 "A" = Except.ok w0 ∧
      w0.addAction 2 1 "B" = Except.ok w1 ∧
      w1.removeAction 1 = leftoverEntryState ∧
      leftoverEntryState.m_actions = [0] ∧
      NamesDistinct leftoverEntryState ∧
      (∀ a ∈ leftoverEntryState.m_actions, (leftoverEntryState.heap a).checkable = true) ∧
      leftoverEntryState.m_comboBox.items = [⟨"B", "x", 1⟩] ∧
      leftoverEntryState.activeComboBoxIndex 2 0 = Except.ok w' ∧
      w'.checkedAction = some 0 ∧
      (w'.heap 1).checked = false :=
  ⟨_, _, _, rfl, rfl, rfl, rfl, by decide, by decide, rfl, rfl, rfl, rfl⟩

/-- C4 (amended): in every state reached by `addAction`, `removeAction` and
toggles whose registered actions are checkable and carry pairwise distinct
object names, `activeComboBoxIndex(i)` for a valid index `i` runs to
completion; afterwards `checkedAction()` is the registered action that carries
the object name stored in entry `i`, and every other registered action is
unchecked.  That action is the one whose `addAction` call created entry `i`
whenever the creating action is still registered, as it is in every state
reached by `addAction` and `removeAction` calls that keep the object names
pairwise distinct. -/
theorem C4_entry_name_becomes_checkedAction (w : BaseDockWidget) (i : Int) (fuel : Nat)
    (hreach : Reached w) (hnd : NamesDistinct w)
    (hchk : ∀ a ∈ w.m_actions, (w.heap a).checkable = true)
    (h0 : 0 ≤ i) (h1 : i < w.m_comboBox.count) (hf : 2 ≤ fuel) :
    ∃ it a w', w.m_comboBox.items[i.toNat]? = some it ∧
      a ∈ w.m_actions ∧ (w.heap a).objectName = it.data ∧
      w.activeComboBoxIndex fuel i = Except.ok w' ∧
      w'.m_actions = w.m_actions ∧
      w'.checkedAction = some a ∧
      (∀ b ∈ w'.m_actions, b ≠ a → (w'.heap b).checked = false) ∧
      (it.owner ∈ w.m_actions → a = it.owner) ∧
      (ReachedDistinct w → a = it.owner) := by
  obtain ⟨hown, hperm⟩ := hreach.entryNames
  have hlen : i.toNat < w.m_comboBox.items.length := by
    unfold QComboBox.count at h1
    omega
  obtain ⟨f, rfl⟩ : ∃ f, fuel = f + 2 := ⟨fuel - 2, by omega⟩
  have hit : w.m_comboBox.items[i.toNat]? = some (w.m_comboBox.items[i.toNat]) :=
    List.getElem?_eq_getElem hlen
  have hin : w.m_comboBox.items[i.toNat] ∈ w.m_comboBox.items := List.getElem_mem hlen
  have hname : (w.m_comboBox.items[i.toNat]).data ∈
      w.m_actions.map (fun a => (w.heap a).objectName) :=
    hperm.mem_iff.mp (List.mem_map_of_mem _ hin)
  obtain ⟨a, ha, hdata⟩ := List.mem_map.mp hname
  obtain ⟨w', hrun, hact, hcur, hothers⟩ :=
    activeComboBoxIndex_checkedAction w i _ a f hreach.coherent hnd (hchk a ha) h0 hit ha hdata
  have hcreator : (w.m_comboBox.items[i.toNat]).owner ∈ w.m_actions →
      a = (w.m_comboBox.items[i.toNat]).owner := by
    intro hmem
    apply hnd a ha _ hmem
    rw [hdata, hown _ hin]
  refine ⟨_, a, w', hit, ha, hdata, hrun, hact, hcur, hothers, hcreator, ?_⟩
  intro hdist
  apply hcreator
  rw [← hdist.inv.1.1]
  exact List.mem_map_of_mem _ hin

/-- Witness of C4 (amended): `checkedToolState`, where action 0 is checked and
current, entry 1: the call unchecks action 0 and makes action 1 the checked
action. -/
theorem C4_entry_name_becomes_checkedAction_witness :
    ((checkedToolState.heap 0).checked = true ∧ checkedToolState.checkedAction = some 0) ∧
    (∃ v, checkedToolState.activeComboBoxIndex 2 1 = Except.ok v ∧
      v.checkedAction = some 1 ∧ (v.heap 0).checked = false ∧ (v.heap 1).checked = true) ∧
    (∃ it a w', checkedToolState.m_comboBox.items[(1 : Int).toNat]? = some it ∧
      a ∈ checkedToolState.m_actions ∧ (checkedToolState.heap a).objectName = it.data ∧
      checkedToolState.activeComboBoxIndex 2 1 = Except.ok w' ∧
      w'.m_actions = checkedToolState.m_actions ∧
      w'.checkedAction = some a ∧
      (∀ b ∈ w'.m_actions, b ≠ a → (w'.heap b).checked = false) ∧
      (it.owner ∈ checkedToolState.m_actions → a = it.owner) ∧
      (ReachedDistinct checkedToolState → a = it.owner)) :=
  ⟨⟨rfl, rfl⟩, ⟨_, rfl, rfl, rfl, rfl⟩,
   C4_entry_name_becomes_checkedAction checkedToolState 1 2
    (Reached.setChecked 2 0 true
      (Reached.addAction 2 1 "Outline"
        (Reached.addAction 2 0 "Files"
          (Reached.new toolHeap (fun p h => by simp [toolHeap] at h ⊢))
          (by decide) (addAction_eq 1 _ 0 "Files"))
        (by decide) (addAction_eq 1 _ 1 "Outline"))
      (by decide) (setChecked_true 0 0 toolState))
    (by decide) (by decide) (by decide) (by decide) (by decide)⟩

end DockClaims

/-! ### Terminal lemmas -/

section TerminalLemmas

theorem QSettings.setValue_same (s : QSettings) (key : String) (v : QVariant) :
    (s.setValue key v) key = some v := by
  simp [QSettings.setValue]

theorem QSettings.setValue_other (s : QSettings) (key k : String) (v : QVariant)
    (h : k ≠ key) : (s.setValue key v) k = s k := by
  simp [QSettings.setValue, h]

theorem runSlots_append (t : Terminal) (slots : List TermSlot) (s : TermSlot) :
    runSlots t (slots ++ [s]) = TermSlot.apply (runSlots t slots) s := by
  simp [runSlots, List.foldl_append]

/-- After a sequence of slot calls the store holds, under each of the three
keys, what the last call for that key wrote, or what it held before. -/
theorem runSlots_settings (t : Terminal) (slots : List TermSlot) :
    (runSlots t slots).settings TERMINAL_CURCMD =
      (match lastCurName slots with
        | some n => some (QVariant.string n)
        | none => t.settings TERMINAL_CURCMD) ∧
    (runSlots t slots).settings TERMINAL_DARKMODE =
      (match lastDarkMode slots with
        | some b => some (QVariant.bool b)
        | none => t.settings TERMINAL_DARKMODE) ∧
    (runSlots t slots).settings TERMINAL_LOGINMODE =
      (match lastLoginMode slots with
        | some b => some (QVariant.bool b)
        | none => t.settings TERMINAL_LOGINMODE) := by
  induction slots using List.reverseRecOn with
  | nil => exact ⟨rfl, rfl, rfl⟩
  | append_singleton slots s ih =>
    obtain ⟨h1, h2, h3⟩ := ih
    rw [runSlots_append]
    simp only [lastCurName, lastDarkMode, lastLoginMode, List.foldl_append, List.foldl_cons,
      List.foldl_nil] at h1 h2 h3 ⊢
    cases s with
    | triggeredCmd act =>
      refine ⟨?_, ?_, ?_⟩
      · simp only [TermSlot.apply, Terminal.triggeredCmd]
        exact QSettings.setValue_same _ _ _
      · simp only [TermSlot.apply, Terminal.triggeredCmd]
        rw [QSettings.setValue_other _ _ _ _ (by decide)]
        exact h2
      · simp only [TermSlot.apply, Terminal.triggeredCmd]
        rw [QSettings.setValue_other _ _ _ _ (by decide)]
        exact h3
    | toggledDarkMode b =>
      refine ⟨?_, ?_, ?_⟩
      · simp only [TermSlot.apply, Terminal.toggledDarkMode]
        rw [QSettings.setValue_other _ _ _ _ (by decide)]
        exact h1
      · simp only [TermSlot.apply, Terminal.toggledDarkMode]
        exact QSettings.setValue_same _ _ _
      · simp only [TermSlot.apply, Terminal.toggledDarkMode]
        rw [QSettings.setValue_other _ _ _ _ (by decide)]
        exact h3
    | toggledLoginMode b =>
      refine ⟨?_, ?_, ?_⟩
      · simp only [TermSlot.apply, Terminal.toggledLoginMode]
        rw [QSettings.setValue_other _ _ _ _ (by decide)]
        exact h1
      · simp only [TermSlot.apply, Terminal.toggledLoginMode]
        rw [QSettings.setValue_other _ _ _ _ (by decide)]
        exact h2
      · simp only [TermSlot.apply, Terminal.toggledLoginMode]
        exact QSettings.setValue_same _ _ _


/-- The lookup of `newTerminal` finds the command `c` itself when no other
command of the list carries its name. -/
theorem find?_command_name (cmds : List Command) (c : Command) (hc : c ∈ cmds)
    (h : ∀ c' ∈ cmds, c'.name = c.name → c' = c) :
    cmds.find? (fun c' => decide (c.name = c'.name)) = some c := by
  induction cmds with
  | nil => cases hc
  | cons b l ih =>
    by_cases hb : c.name = b.name
    · have : b = c := h b (List.mem_cons_self _ _) hb.symm
      subst this
      simp [List.find?]
    · have hne : c ≠ b := fun e => hb (by rw [e])
      have hc' : c ∈ l := by
        rcases List.mem_cons.mp hc with e | e
        · exact absurd e hne
        · exact e
      simp only [List.find?, hb, decide_False]
      exact ih hc' (fun c' hc'' => h c' (List.mem_cons_of_mem _ hc''))

/-- With pairwise distinct command names the shell picked in the menu is the
shell that `newTerminal` starts. -/
theorem Terminal.newTerminal_starts_selected (t : Terminal) (env : TermEnv) (k : Nat)
    (c : Command) (hmenu : t.shellActions = shellMenu t.m_cmdList t.m_curName)
    (hlen : t.m_cmdList.length > 1) (hk : t.m_cmdList[k]? = some c)
    (hdist : ∀ c' ∈ t.m_cmdList, c'.name = c.name → c' = c) :
    ∃ t', (t.triggerShellAction k).newTerminal env = Except.ok t' ∧
      (t'.tabs.getLast?.map TermTab.program) = some c.path ∧
      (t'.tabs.getLast?.map TermTab.arguments) =
        some (if t.m_loginMode then c.args ++ c.loginArgs else c.args) := by
  have hmem : c ∈ t.m_cmdList := List.getElem?_mem hk
  have hact : t.shellActions[k]? = some
      { text := c.menuText, data := QVariant.string c.name, toolTip := c.path,
        checked := decide (t.m_curName = c.name) } := by
    rw [hmenu]
    unfold shellMenu
    rw [if_pos hlen, List.getElem?_map, hk]
    rfl
  obtain ⟨first, rest, hcmds⟩ : ∃ first rest, t.m_cmdList = first :: rest := by
    cases h : t.m_cmdList with
    | nil => rw [h] at hmem; cases hmem
    | cons a b => exact ⟨a, b, rfl⟩
  have hsel : Terminal.selectedCommand t.m_cmdList c.name = Except.ok c := by
    unfold Terminal.selectedCommand
    rw [hcmds]
    simp only
    rw [← hcmds, if_pos hlen, find?_command_name t.m_cmdList c hmem hdist]
  unfold Terminal.triggerShellAction
  rw [hact]
  simp only [Terminal.newTerminal, Terminal.triggeredCmd, QVariant.toString, hsel, bind,
    Except.bind, pure, Except.pure]
  refine ⟨_, rfl, ?_, ?_⟩ <;> simp

end TerminalLemmas

section StreamLemmas
open QDataStream

theorem QDataStream.writeRawData_ok (s : QDataStream) (data : List Nat)
    (hs : s.status = StreamStatus.Ok) :
    s.writeRawData data = { bytes := s.bytes ++ data, status := StreamStatus.Ok } := by
  unfold writeRawData
  simp [hs]

theorem QDataStream.writeQString_ok (s : QDataStream) (str : QString)
    (hs : s.status = StreamStatus.Ok) :
    s.writeQString str =
      { bytes := s.bytes ++ encodeQString str, status := StreamStatus.Ok } := by
  cases str with
  | none =>
    simp only [writeQString, writeUInt32, encodeQString, writeRawData_ok _ _ hs]
  | some u =>
    simp only [writeQString, writeUInt32, encodeQString, writeRawData_ok _ _ hs]
    split
    · rw [writeRawData_ok _ _ rfl]
      simp
    · next h =>
      have hu : u = [] := by
        cases u with
        | nil => rfl
        | cons a b => simp at h
      subst hu
      simp [bytesOfUnits]

theorem QDataStream.writeBool_ok (s : QDataStream) (b : Bool)
    (hs : s.status = StreamStatus.Ok) :
    s.writeBool b = { bytes := s.bytes ++ encodeBool b, status := StreamStatus.Ok } := by
  simp only [writeBool, encodeBool, writeRawData_ok _ _ hs]

theorem QDataStream.readBlock_append (a rest : List Nat) (st : StreamStatus) :
    readBlock { bytes := a ++ rest, status := st } a.length =
      ({ bytes := rest, status := st }, a) := by
  unfold readBlock
  simp

theorem QDataStream.readUInt32_bytes (n : Nat) (hn : n < 2 ^ 32) (rest : List Nat)
    (st : StreamStatus) :
    readUInt32 { bytes := bytesOfUInt32 n ++ rest, status := st } =
      ({ bytes := rest, status := st }, n) := by
  unfold readUInt32
  have h := readBlock_append (bytesOfUInt32 n) rest st
  have hl : (bytesOfUInt32 n).length = 4 := rfl
  rw [hl] at h
  rw [h]
  simp only [bytesOfUInt32, Prod.mk.injEq, true_and]
  omega

theorem QDataStream.length_bytesOfUnits (u : List Nat) :
    (bytesOfUnits u).length = 2 * u.length := by
  induction u with
  | nil => rfl
  | cons x rest ih => simp only [bytesOfUnits, List.length_cons, ih]; omega

theorem QDataStream.unitsOfBytes_bytesOfUnits (u : List Nat) (h : ∀ x ∈ u, x < 65536) :
    unitsOfBytes (bytesOfUnits u) = u := by
  induction u with
  | nil => rfl
  | cons x rest ih =>
    have hx : x < 65536 := h x (List.mem_cons_self _ _)
    simp only [bytesOfUnits, unitsOfBytes, ih (fun y hy => h y (List.mem_cons_of_mem _ hy)),
      List.cons.injEq, and_true]
    omega

/-- Reading back a serialized string gives the string and leaves what follows
it. -/
theorem QDataStream.readQString_encode (str : QString) (hv : QString.Valid str)
    (rest : List Nat) (st : StreamStatus) :
    readQString { bytes := encodeQString str ++ rest, status := st } =
      ({ bytes := rest, status := st }, str) := by
  cases str with
  | none =>
    unfold readQString
    simp only [encodeQString]
    rw [readUInt32_bytes _ (by norm_num)]
    simp
  | some u =>
    obtain ⟨hlen, hunits⟩ := hv
    have hmod : (2 * u.length) % 2 ^ 32 = 2 * u.length := Nat.mod_eq_of_lt (by omega)
    unfold readQString
    simp only [encodeQString, hmod, List.append_assoc]
    rw [readUInt32_bytes _ (by omega)]
    simp only
    have hne : ¬ (2 * u.length = 0xFFFFFFFF) := by omega
    rw [if_neg hne]
    by_cases h0 : u.length = 0
    · have hu : u = [] := List.length_eq_zero.mp h0
      subst hu
      simp [bytesOfUnits]
    · have hpos : 2 * u.length > 0 := by omega
      have hodd : ¬ (2 * u.length % 2 = 1) := by omega
      rw [if_pos hpos, if_neg hodd]
      have h := readBlock_append (bytesOfUnits u) rest st
      rw [length_bytesOfUnits] at h
      rw [h]
      simp only [length_bytesOfUnits, ne_eq, not_true_eq_false, if_false,
        unitsOfBytes_bytesOfUnits u hunits]

theorem QDataStream.readBool_encode (b : Bool) (rest : List Nat) (st : StreamStatus) :
    readBool { bytes := encodeBool b ++ rest, status := st } =
      ({ bytes := rest, status := st }, b) := by
  unfold readBool
  have h := readBlock_append (encodeBool b) rest st
  have hl : (encodeBool b).length = 1 := rfl
  rw [hl] at h
  rw [h]
  cases b <;> simp [encodeBool]

end StreamLemmas

/-! ### Claims on the terminal -/

section TerminalClaims

/-- C5: `toggledDarkMode(b)` sets the dark-mode flag to `b` and stores `b` under
`"terminal/darkmode"`; `toggledLoginMode(b)` sets the login-mode flag to `b`
and stores `b` under `"terminal/loginmode"`; each leaves every other settings
key and the other flag unchanged. -/
theorem C5_toggles_store_flag (t : Terminal) (b : Bool) :
    ((t.toggledDarkMode b).m_darkMode = b ∧
     (t.toggledDarkMode b).settings "terminal/darkmode" = some (QVariant.bool b) ∧
     (∀ k, k ≠ "terminal/darkmode" → (t.toggledDarkMode b).settings k = t.settings k) ∧
     (t.toggledDarkMode b).m_loginMode = t.m_loginMode) ∧
    ((t.toggledLoginMode b).m_loginMode = b ∧
     (t.toggledLoginMode b).settings "terminal/loginmode" = some (QVariant.bool b) ∧
     (∀ k, k ≠ "terminal/loginmode" → (t.toggledLoginMode b).settings k = t.settings k) ∧
     (t.toggledLoginMode b).m_darkMode = t.m_darkMode) := by
  refine ⟨⟨rfl, ?_, ?_, rfl⟩, ⟨rfl, ?_, ?_, rfl⟩⟩
  · exact QSettings.setValue_same t.settings TERMINAL_DARKMODE _
  · intro k hk
    exact QSettings.setValue_other t.settings TERMINAL_DARKMODE k _ hk
  · exact QSettings.setValue_same t.settings TERMINAL_LOGINMODE _
  · intro k hk
    exact QSettings.setValue_other t.settings TERMINAL_LOGINMODE k _ hk

/-- Witness of C5 on `twoBashTerminal`: the key of the shell name is left alone
by both toggles. -/
theorem C5_toggles_store_flag_witness :
    (twoBashTerminal.toggledDarkMode true).settings "terminal/curcmd" =
      twoBashTerminal.settings "terminal/curcmd" ∧
    (twoBashTerminal.toggledLoginMode false).settings "terminal/curcmd" =
      twoBashTerminal.settings "terminal/curcmd" :=
  ⟨(C5_toggles_store_flag twoBashTerminal true).1.2.2.1 "terminal/curcmd" (by decide),
   (C5_toggles_store_flag twoBashTerminal false).2.2.2.1 "terminal/curcmd" (by decide)⟩

/-- C6: a `Terminal` constructed (on a machine that has at least one shell) over
the store left by any sequence of `triggeredCmd`, `toggledDarkMode` and
`toggledLoginMode` calls whose last written shell name is `n`, last dark mode
`d` and last login mode `l`, starts with `m_curName = n`, `m_darkMode = d`,
`m_loginMode = l` and the two mode actions checked as `d` and `l`; over a store
holding none of the three keys it starts with the first command's name, dark
mode off and login mode on. -/
theorem C6_preferences_round_trip (fs : FileSystem) (hne : unixCommandList fs ≠ []) :
    (∀ (prev : Terminal) (slots : List TermSlot) (n : String) (d l : Bool),
      lastCurName slots = some n → lastDarkMode slots = some d →
      lastLoginMode slots = some l →
      ∃ t, Terminal.new fs (runSlots prev slots).settings = Except.ok t ∧
        t.m_curName = n ∧ t.m_darkMode = d ∧ t.m_loginMode = l ∧
        t.m_darkModeAct.checked = d ∧ t.m_loginModeAct.checked = l) ∧
    (∀ store : QSettings, store "terminal/curcmd" = none →
      store "terminal/darkmode" = none → store "terminal/loginmode" = none →
      ∃ t first, (unixCommandList fs).head? = some first ∧
        Terminal.new fs store = Except.ok t ∧
        t.m_curName = first.name ∧ t.m_darkMode = false ∧ t.m_loginMode = true ∧
        t.m_darkModeAct.checked = false ∧ t.m_loginModeAct.checked = true) := by
  obtain ⟨first, rest, hcmds⟩ : ∃ first rest, unixCommandList fs = first :: rest := by
    cases h : unixCommandList fs with
    | nil => exact absurd h hne
    | cons a b => exact ⟨a, b, rfl⟩
  constructor
  · intro prev slots n d l hn hd hl
    obtain ⟨h1, h2, h3⟩ := runSlots_settings prev slots
    rw [hn] at h1
    rw [hd] at h2
    rw [hl] at h3
    refine ⟨_, by simp only [Terminal.new, hcmds, Terminal.fromCommands]; rfl, ?_, ?_, ?_, ?_, ?_⟩ <;>
      simp only [QSettings.value, h1, h2, h3, QVariant.toString, QVariant.toBool]
  · intro store h1 h2 h3
    have h1' : store TERMINAL_CURCMD = none := h1
    have h2' : store TERMINAL_DARKMODE = none := h2
    have h3' : store TERMINAL_LOGINMODE = none := h3
    refine ⟨_, first, by rw [hcmds]; rfl,
      by simp only [Terminal.new, hcmds, Terminal.fromCommands]; rfl, ?_, ?_, ?_, ?_, ?_⟩ <;>
      simp only [QSettings.value, h1', h2', h3', QVariant.toString, QVariant.toBool]

/-- Witness of C6: the machine `twoBashFs`; the store written by selecting a
shell named `"zsh"`, switching dark mode on and login mode off. -/
theorem C6_preferences_round_trip_witness :
    unixCommandList twoBashFs ≠ [] ∧
    ∃ t, Terminal.new twoBashFs
        (runSlots twoBashTerminal
          [TermSlot.triggeredCmd ⟨"zsh", QVariant.string "zsh", "/bin/zsh", true⟩,
           TermSlot.toggledDarkMode true, TermSlot.toggledLoginMode false]).settings =
          Except.ok t ∧
      t.m_curName = "zsh" ∧ t.m_darkMode = true ∧ t.m_loginMode = false ∧
      t.m_darkModeAct.checked = true ∧ t.m_loginModeAct.checked = false :=
  ⟨by decide,
   (C6_preferences_round_trip twoBashFs (by decide)).1 twoBashTerminal _ "zsh" true false
     rfl rfl rfl⟩

/-- C7 fails on the machine `twoBashFs`: the command list is `/bin/bash`,
`/usr/bin/bash`, both named `"bash"`; after the menu action created for
`/usr/bin/bash` (the second one) is triggered, `newTerminal` starts
`/bin/bash`. -/
theorem C7_selected_shell_not_launched :
    Terminal.new twoBashFs emptySettings = Except.ok twoBashTerminal ∧
    twoBashTerminal.m_cmdList.map Command.path = ["/bin/bash", "/usr/bin/bash"] ∧
    twoBashTerminal.shellActions.map MenuAction.toolTip = ["/bin/bash", "/usr/bin/bash"] ∧
    ∃ t', (twoBashTerminal.triggerShellAction 1).newTerminal plainEnv = Except.ok t' ∧
      t'.tabs.map TermTab.program = ["/bin/bash"] :=
  ⟨rfl, rfl, rfl, _, rfl, rfl⟩

end TerminalClaims

section StreamClaims
open QDataStream

/-- C8: for a descriptor `d` with well-formed strings, `operator<<` on a stream
in state `Ok` appends the serialized `cmd`, `dir`, `cwd`, `title` and `login`
in this order, and `operator>>` on these bytes (followed by anything) yields a
descriptor whose `cmd`, `dir`, `cwd`, `title` and `login` are those of `d`,
consuming exactly the bytes written and leaving the status `Ok`. -/
theorem C8_tab_round_trip (d target : TabInfoData) (s : QDataStream) (rest : List Nat)
    (hv : d.Valid) (hs : s.status = StreamStatus.Ok) :
    TabInfoData.operatorOut s d =
      { bytes := s.bytes ++ d.encode, status := StreamStatus.Ok } ∧
    TabInfoData.operatorIn { bytes := d.encode ++ rest, status := StreamStatus.Ok } target =
      ({ bytes := rest, status := StreamStatus.Ok },
       { target with cmd := d.cmd, dir := d.dir, cwd := d.cwd, title := d.title,
                     login := d.login }) := by
  obtain ⟨h1, h2, h3, h4⟩ := hv
  constructor
  · unfold TabInfoData.operatorOut TabInfoData.encode
    rw [writeQString_ok s d.cmd hs, writeQString_ok _ d.dir rfl, writeQString_ok _ d.cwd rfl,
      writeQString_ok _ d.title rfl, writeBool_ok _ d.login rfl]
    simp only [List.append_assoc]
  · unfold TabInfoData.operatorIn TabInfoData.encode
    simp only [List.append_assoc, readQString_encode _ h1, readQString_encode _ h2,
      readQString_encode _ h3, readQString_encode _ h4, readBool_encode]

/-- Witness of C8: `sampleTab` written to an empty stream and read back into
a descriptor with other contents, two more bytes following in the buffer. -/
theorem C8_tab_round_trip_witness :
    sampleTab.Valid ∧
    TabInfoData.operatorOut QDataStream.empty sampleTab =
      { bytes := [0, 0, 0, 4, 0, 115, 0, 104, 0, 0, 0, 2, 0, 47, 255, 255, 255, 255,
                  0, 0, 0, 0, 1],
        status := StreamStatus.Ok } ∧
    TabInfoData.operatorIn { bytes := sampleTab.encode ++ [7, 7], status := StreamStatus.Ok }
        { sampleTab with cmd := none, login := false, open_ := true } =
      ({ bytes := [7, 7], status := StreamStatus.Ok }, { sampleTab with open_ := true }) :=
  ⟨by decide,
   (C8_tab_round_trip sampleTab sampleTab QDataStream.empty [] (by decide) rfl).1,
   (C8_tab_round_trip sampleTab { sampleTab with cmd := none, login := false, open_ := true }
      QDataStream.empty [7, 7] (by decide) rfl).2⟩

/-- C9: the process id and the open flag are not part of the serialized form:
descriptors that differ only in `pid` or `open` are written as the same bytes,
and `operator>>` leaves `pid` and `open` of its target as they were. -/
theorem C9_pid_open_not_serialized (d target : TabInfoData) (s : QDataStream)
    (pid : QString) (isOpen : Bool) :
    TabInfoData.operatorOut s { d with pid := pid, open_ := isOpen } =
      TabInfoData.operatorOut s d ∧
    (TabInfoData.operatorIn s target).2.pid = target.pid ∧
    (TabInfoData.operatorIn s target).2.open_ = target.open_ :=
  ⟨rfl, rfl, rfl⟩

end StreamClaims

section ProbingClaims

/-- C10 fails on the machine `twoBashFs`: the command list built by the
constructor has two entries named `"bash"`. -/
theorem C10_command_names_repeat :
    (unixCommandList twoBashFs).map Command.name = ["bash", "bash"] ∧
    ¬ ((unixCommandList twoBashFs).map Command.name).Nodup := by
  constructor
  · rfl
  · decide

end ProbingClaims

/-! ### Shell probing lemmas -/

section ProbingLemmas

theorem mem_removeDuplicatesFrom (seen l : List String) (x : String) :
    x ∈ removeDuplicatesFrom seen l ↔ x ∈ l ∧ x ∉ seen := by
  induction l generalizing seen with
  | nil => simp [removeDuplicatesFrom]
  | cons s rest ih =>
    unfold removeDuplicatesFrom
    by_cases hs : s ∈ seen
    · rw [if_pos hs, ih]
      constructor
      · rintro ⟨h1, h2⟩
        exact ⟨List.mem_cons_of_mem _ h1, h2⟩
      · rintro ⟨h1, h2⟩
        rcases List.mem_cons.mp h1 with e | e
        · exact absurd (e ▸ hs) h2
        · exact ⟨e, h2⟩
    · rw [if_neg hs, List.mem_cons, ih]
      constructor
      · rintro (e | ⟨h1, h2⟩)
        · exact ⟨e ▸ List.mem_cons_self _ _, e ▸ hs⟩
        · exact ⟨List.mem_cons_of_mem _ h1, fun h => h2 (List.mem_cons_of_mem _ h)⟩
      · rintro ⟨h1, h2⟩
        by_cases e : x = s
        · exact Or.inl e
        · rcases List.mem_cons.mp h1 with e' | e'
          · exact absurd e' e
          · refine Or.inr ⟨e', ?_⟩
            intro h
            rcases List.mem_cons.mp h with e'' | e''
            · exact e e''
            · exact h2 e''

theorem nodup_removeDuplicatesFrom (seen l : List String) :
    (removeDuplicatesFrom seen l).Nodup := by
  induction l generalizing seen with
  | nil => exact List.nodup_nil
  | cons s rest ih =>
    unfold removeDuplicatesFrom
    split
    · exact ih seen
    · rw [List.nodup_cons]
      refine ⟨?_, ih _⟩
      rw [mem_removeDuplicatesFrom]
      rintro ⟨_, h⟩
      exact h (List.mem_cons_self _ _)

theorem sublist_removeDuplicatesFrom (seen l : List String) :
    (removeDuplicatesFrom seen l).Sublist l := by
  induction l generalizing seen with
  | nil => exact List.Sublist.slnil
  | cons s rest ih =>
    unfold removeDuplicatesFrom
    split
    · exact (ih seen).cons _
    · exact (ih _).cons₂ _

/-- The strings kept by `removeDuplicates` stand in the order of their first
occurrences. -/
theorem pairwise_removeDuplicatesFrom (seen pre l : List String)
    (hseen : ∀ x, x ∈ seen ↔ x ∈ pre) :
    (removeDuplicatesFrom seen l).Pairwise
        (fun x y => (pre ++ l).indexOf x < (pre ++ l).indexOf y) ∧
    ∀ y ∈ removeDuplicatesFrom seen l, pre.length ≤ (pre ++ l).indexOf y := by
  induction l generalizing seen pre with
  | nil =>
    unfold removeDuplicatesFrom
    exact ⟨List.Pairwise.nil, fun y hy => by cases hy⟩
  | cons s rest ih =>
    have happ : pre ++ s :: rest = (pre ++ [s]) ++ rest := by simp
    unfold removeDuplicatesFrom
    by_cases hs : s ∈ seen
    · rw [if_pos hs]
      have h' : ∀ x, x ∈ seen ↔ x ∈ pre ++ [s] := by
        intro x
        rw [List.mem_append, List.mem_singleton, hseen]
        constructor
        · exact Or.inl
        · rintro (h | h)
          · exact h
          · rw [h]; exact (hseen s).mp hs
      obtain ⟨h1, h2⟩ := ih seen (pre ++ [s]) h'
      rw [happ]
      refine ⟨h1, fun y hy => ?_⟩
      have := h2 y hy
      simp only [List.length_append, List.length_singleton] at this
      omega
    · rw [if_neg hs]
      have h' : ∀ x, x ∈ s :: seen ↔ x ∈ pre ++ [s] := by
        intro x
        rw [List.mem_cons, List.mem_append, List.mem_singleton, hseen]
        constructor
        · rintro (h | h)
          · exact Or.inr h
          · exact Or.inl h
        · rintro (h | h)
          · exact Or.inr h
          · exact Or.inl h
      obtain ⟨h1, h2⟩ := ih (s :: seen) (pre ++ [s]) h'
      have hspre : s ∉ pre := fun h => hs ((hseen s).mpr h)
      have hidx : (pre ++ s :: rest).indexOf s = pre.length := by
        rw [List.indexOf_append_of_not_mem hspre, List.indexOf_cons_self]
        rfl
      rw [happ] at hidx ⊢
      have h2' : ∀ y ∈ removeDuplicatesFrom (s :: seen) rest,
          pre.length + 1 ≤ List.indexOf y (pre ++ [s] ++ rest) := by
        intro y hy
        have := h2 y hy
        simp only [List.length_append, List.length_singleton] at this
        exact this
      refine ⟨List.Pairwise.cons ?_ h1, ?_⟩
      · intro y hy
        rw [hidx]
        exact h2' y hy
      · intro y hy
        rcases List.mem_cons.mp hy with e | e
        · rw [e, hidx]
        · exact Nat.le_of_succ_le (h2' y e)

theorem unixCommandList_paths (fs : FileSystem) :
    (unixCommandList fs).map Command.path =
      (removeDuplicates ("/bin/bash" :: GetUnixShellList fs.shells)).filter fs.fileExists := by
  unfold unixCommandList
  induction removeDuplicates ("/bin/bash" :: GetUnixShellList fs.shells) with
  | nil => rfl
  | cons s rest ih =>
    by_cases h : fs.fileExists s = true
    · simp only [List.filterMap_cons, h, if_true, List.map_cons, List.filter_cons_of_pos, ih]
      rfl
    · simp only [List.filterMap_cons, h, if_false, Bool.false_eq_true]
      rw [List.filter_cons_of_neg h]
      exact ih

end ProbingLemmas

/-! ### Claims on shell probing -/

section ProbingClaims

/-- C11: on the Unix probing path every entry of the command list has a path
whose file exists; a candidate (`"/bin/bash"` or a line of the shell list)
whose file does not exist gives no entry, and one whose file exists gives an
entry; the entry paths stand in the order of the candidates' first
occurrences, `"/bin/bash"` first when it exists, and no path appears twice. -/
theorem C11_probing_keeps_existing_shells (fs : FileSystem) :
    (∀ c ∈ unixCommandList fs, fs.fileExists c.path = true) ∧
    (∀ s ∈ "/bin/bash" :: GetUnixShellList fs.shells, fs.fileExists s = false →
      s ∉ (unixCommandList fs).map Command.path) ∧
    (∀ s ∈ "/bin/bash" :: GetUnixShellList fs.shells, fs.fileExists s = true →
      s ∈ (unixCommandList fs).map Command.path) ∧
    ((unixCommandList fs).map Command.path).Sublist
      ("/bin/bash" :: GetUnixShellList fs.shells) ∧
    ((unixCommandList fs).map Command.path).Pairwise
      (fun x y => ("/bin/bash" :: GetUnixShellList fs.shells).indexOf x <
        ("/bin/bash" :: GetUnixShellList fs.shells).indexOf y) ∧
    (fs.fileExists "/bin/bash" = true →
      ((unixCommandList fs).map Command.path).head? = some "/bin/bash") ∧
    ((unixCommandList fs).map Command.path).Nodup := by
  have hp := unixCommandList_paths fs
  have hmem : ∀ s, s ∈ (unixCommandList fs).map Command.path ↔
      s ∈ "/bin/bash" :: GetUnixShellList fs.shells ∧ fs.fileExists s = true := by
    intro s
    rw [hp, List.mem_filter]
    unfold removeDuplicates
    rw [mem_removeDuplicatesFrom]
    simp
  refine ⟨?_, ?_, ?_, ?_, ?_, ?_, ?_⟩
  · intro c hc
    exact ((hmem c.path).mp (List.mem_map_of_mem _ hc)).2
  · intro s _ hs hin
    have := ((hmem s).mp hin).2
    rw [hs] at this
    cases this
  · intro s hs he
    exact (hmem s).mpr ⟨hs, he⟩
  · rw [hp]
    exact (List.filter_sublist _).trans (sublist_removeDuplicatesFrom [] _)
  · rw [hp]
    exact ((pairwise_removeDuplicatesFrom [] [] _ (fun x => Iff.rfl)).1).filter _
  · intro he
    rw [hp]
    unfold removeDuplicates removeDuplicatesFrom
    simp [he]
  · rw [hp]
    exact (nodup_removeDuplicatesFrom [] _).filter _

/-- Witness of C11 on `mixedFs`: the candidates are `/bin/bash`, `/bin/sh`,
`/bin/zsh`, `/bin/bash`, `/bin/sh`; the list built is `/bin/bash`, `/bin/sh`. -/
theorem C11_probing_keeps_existing_shells_witness :
    (unixCommandList mixedFs).map Command.path = ["/bin/bash", "/bin/sh"] ∧
    "/bin/zsh" ∉ (unixCommandList mixedFs).map Command.path ∧
    ((unixCommandList mixedFs).map Command.path).head? = some "/bin/bash" :=
  ⟨by decide,
   (C11_probing_keeps_existing_shells mixedFs).2.1 "/bin/zsh" (by decide) (by decide),
   (C11_probing_keeps_existing_shells mixedFs).2.2.2.2.2.1 (by decide)⟩

/-- C12 fails on the machine `noShellFs` (no shell file exists): the command
list is empty, so `m_cmdList[0]` in the constructor is out of range, and so is
`m_cmdList[0]` in `newTerminal` on an empty list. -/
theorem C12_no_shell_index_out_of_range :
    unixCommandList noShellFs = [] ∧
    Terminal.new noShellFs emptySettings = Except.error TermFault.indexOutOfRange ∧
    ({ twoBashTerminal with m_cmdList := [] } : Terminal).newTerminal plainEnv =
      Except.error TermFault.indexOutOfRange :=
  ⟨rfl, rfl, rfl⟩

end ProbingClaims

/-! ### Claims on failed toolkit lookups -/

section NullLookupClaims

/-- C13: with a null sender the slots `moveAction`, `moveActionSplit`,
`splitAction` and `unsplitAction` of `SplitDockWidget` and `moveAction` of
`OutputDockWidget` return the state they were given: no `moveActionTo` is
emitted and nothing, the floating state included, is changed. -/
theorem C13_null_sender_slots_do_nothing (w : SplitDockWidget) (o : OutputDockWidget) :
    w.moveAction none = w ∧ w.moveActionSplit none = w ∧
    w.splitAction none = w ∧ w.unsplitAction none = w ∧
    o.moveAction none = o ∧
    (o.moveAction none).emitted = o.emitted ∧
    (o.moveAction none).window.floating = o.window.floating :=
  ⟨rfl, rfl, rfl, rfl, rfl, rfl, rfl⟩

/-- C14: without model, `eventFilter` on a key press (any key, `Key_Up` and
`Key_Down` included) returns `false` and leaves the state as it was: the
current index is kept and `indexChanage` is not emitted. -/
theorem C14_no_model_key_press_ignored (w : QuickOpenWidget) (key : Int)
    (h : w.model = none) :
    w.eventFilter (QEvent.KeyPress key) = (false, w) := by
  simp only [QuickOpenWidget.eventFilter, h]

/-- Witness of C14: `noModelPopup` and the key `Key_Up`. -/
theorem C14_no_model_key_press_ignored_witness :
    noModelPopup.model = none ∧
    noModelPopup.eventFilter (QEvent.KeyPress Key_Up) = (false, noModelPopup) :=
  ⟨rfl, C14_no_model_key_press_ignored noModelPopup Key_Up rfl⟩

end NullLookupClaims

/-! ### Lemmas on registrations -/

section DockLemmas2
open BaseDockWidget

/-- Taking out the first entry with the object name of `a` leaves the entries
of the other actions, when entries carry their owners' names and names tell
owners apart. -/
theorem eraseFirstData_eq_filter (name : ActionPtr → String) (items : List ComboItem)
    (a : ActionPtr)
    (hdata : ∀ it ∈ items, it.data = name it.owner)
    (hnodup : (items.map ComboItem.owner).Nodup)
    (hinj : ∀ it ∈ items, name it.owner = name a → it.owner = a) :
    eraseFirstData (name a) items = items.filter (fun it => it.owner ≠ a) := by
  induction items with
  | nil => rfl
  | cons it rest ih =>
    have hd := hdata it (List.mem_cons_self _ _)
    simp only [List.map_cons, List.nodup_cons] at hnodup
    have ih' := ih (fun x hx => hdata x (List.mem_cons_of_mem _ hx)) hnodup.2
      (fun x hx => hinj x (List.mem_cons_of_mem _ hx))
    unfold eraseFirstData
    by_cases he : it.data = name a
    · have ho : it.owner = a := hinj it (List.mem_cons_self _ _) (hd ▸ he)
      rw [if_pos he]
      rw [List.filter_cons_of_neg (by simp [ho])]
      symm
      rw [List.filter_eq_self]
      intro x hx
      simp only [ne_eq, decide_not, Bool.not_eq_true', decide_eq_false_iff_not]
      intro e
      apply hnodup.1
      rw [ho, ← e]
      exact List.mem_map_of_mem _ hx
    · have ho : it.owner ≠ a := fun e => he (by rw [hd, e])
      rw [if_neg he, List.filter_cons_of_pos (by simp [ho]), ih']

theorem RegisteredDistinct.reachedDistinct {reg : List (ActionPtr × String)}
    {w : BaseDockWidget} (h : RegisteredDistinct reg w) : ReachedDistinct w := by
  induction h with
  | new heap => exact ReachedDistinct.new heap
  | addAction fuel a title _ hf heq hnd ih => exact ReachedDistinct.addAction fuel a title ih hf heq hnd
  | removeAction a _ ih => exact ReachedDistinct.removeAction a ih

/-- In a state whose combo box is parallel to the action list and whose
registered names are distinct, `removeAction(a)` takes out the entry of `a`
and no other. -/
theorem BaseDockWidget.removeAction_items_filter (w : BaseDockWidget) (a : ActionPtr)
    (hpar : Parallel w) (hnodup : w.m_actions.Nodup) (hnd : NamesDistinct w) :
    (w.removeAction a).m_comboBox.items =
      w.m_comboBox.items.filter (fun it => it.owner ≠ a) := by
  obtain ⟨hown, hdata⟩ := hpar
  rw [removeAction_items]
  split
  · next ha =>
    apply eraseFirstData_eq_filter (fun p => (w.heap p).objectName) _ a hdata
    · rw [hown]; exact hnodup
    · intro it hit hname
      have hmem : it.owner ∈ w.m_actions := by
        rw [← hown]; exact List.mem_map_of_mem _ hit
      exact hnd _ hmem _ ha hname
  · next ha =>
    symm
    rw [List.filter_eq_self]
    intro it hit
    simp only [ne_eq, decide_not, Bool.not_eq_true', decide_eq_false_iff_not]
    intro e
    apply ha
    rw [← e, ← hown]
    exact List.mem_map_of_mem _ hit

/-- The combo box holds the registrations in force, in their order, each entry
with the title of its registration and the object name of its action. -/
theorem RegisteredDistinct.items {reg : List (ActionPtr × String)} {w : BaseDockWidget}
    (h : RegisteredDistinct reg w) :
    w.m_actions = reg.map Prod.fst ∧
    w.m_comboBox.items =
      reg.map (fun p => ({ text := p.2, data := (w.heap p.1).objectName, owner := p.1 } :
        ComboItem)) := by
  induction h with
  | new heap => exact ⟨rfl, rfl⟩
  | @addAction reg w w' fuel a title hprev hf heq hnd ih =>
    obtain ⟨h1, h2⟩ := ih
    obtain ⟨f, rfl⟩ : ∃ f, fuel = f + 1 := ⟨fuel - 1, by omega⟩
    rw [addAction_eq] at heq
    cases heq
    simp only [addResult_objectName]
    rw [addResult_m_actions, addResult_items]
    by_cases ha : a ∈ w.m_actions
    · simp only [ha, if_true]
      exact ⟨h1, h2⟩
    · simp only [ha, if_false, List.map_append, List.map_cons, List.map_nil]
      rw [← h1, ← h2]
      exact ⟨rfl, rfl⟩
  | @removeAction reg w a hprev ih =>
    obtain ⟨h1, h2⟩ := ih
    obtain ⟨hpar, hnodup, hnd⟩ := hprev.reachedDistinct.inv
    constructor
    · rw [removeAction_m_actions, h1, List.filter_map]
      rfl
    · rw [removeAction_items_filter w a hpar hnodup hnd, removeAction_heap, h2, List.filter_map]
      rfl

end DockLemmas2

/-! ### Claims on the bookkeeping of the dock widget -/

section DockClaims2
open BaseDockWidget

/-- C15 fails as stated: on `toolState` the slot `actionChanged` run with a null
sender does not return; it stops at its assertion `action != 0`. -/
theorem C15_counterexample :
    BaseDockWidget.actionChanged 2 none toolState = Except.error Fault.nullSender :=
  rfl

/-- C15 (amended): with a null sender `actionChanged` stops at its assertion
`action != 0` in every state, before it reads or writes anything, and is not a
silent no-op; with a sender that is an action it runs to completion. -/
theorem C15_null_sender_fails_assertion (w : BaseDockWidget) (fuel : Nat) :
    BaseDockWidget.actionChanged fuel none w = Except.error Fault.nullSender ∧
    (∀ a : ActionPtr, 1 ≤ fuel →
      ∃ w', BaseDockWidget.actionChanged fuel (some a) w = Except.ok w') := by
  constructor
  · rfl
  · intro a hf
    obtain ⟨f, rfl⟩ : ∃ f, fuel = f + 1 := ⟨fuel - 1, by omega⟩
    unfold BaseDockWidget.actionChanged actionChangedWith
    simp only
    split
    · split
      · cases hc : w.current with
        | none =>
          simp only [bind, Except.bind, pure, Except.pure]
          split <;> exact ⟨_, rfl⟩
        | some cur =>
          simp only [setChecked_false, bind, Except.bind, pure, Except.pure]
          split <;> exact ⟨_, rfl⟩
      · exact ⟨_, rfl⟩
    · split <;> exact ⟨_, rfl⟩

/-- Witness of C15 (amended): on `toolState` the slot completes for the sender
action 1. -/
theorem C15_null_sender_fails_assertion_witness :
    ∃ w', BaseDockWidget.actionChanged 2 (some 1) toolState = Except.ok w' :=
  (C15_null_sender_fails_assertion toolState 2).2 1 (by decide)

/-- C16: in every state reached from a newly constructed widget by `addAction`,
`removeAction` and toggles of actions (each `changed()` delivered to
`actionChanged`, also the one of the uncheck that the slot performs), at most
one registered action is checked; `checkedAction()` is that action when there
is one and null when there is none; and `checkedAction()` is never an action
that is not registered. -/
theorem C16_checked_action_invariant (w : BaseDockWidget) (h : Reached w) :
    (∀ a ∈ w.m_actions, ∀ b ∈ w.m_actions,
      (w.heap a).checked = true → (w.heap b).checked = true → a = b) ∧
    (∀ a ∈ w.m_actions, (w.heap a).checked = true → w.checkedAction = some a) ∧
    ((∀ a ∈ w.m_actions, (w.heap a).checked = false) → w.checkedAction = none) ∧
    (∀ a, w.checkedAction = some a → a ∈ w.m_actions ∧ (w.heap a).checked = true) := by
  obtain ⟨_, _, _, h3, h4⟩ := h.coherent
  refine ⟨?_, h3, ?_, h4⟩
  · intro a ha b hb hca hcb
    have h1 := h3 a ha hca
    have h2 := h3 b hb hcb
    rw [h1] at h2
    exact Option.some.inj h2
  · intro hall
    cases hc : w.checkedAction with
    | none => rfl
    | some a =>
      obtain ⟨hm, hk⟩ := h4 a hc
      rw [hall a hm] at hk
      cases hk

/-- Witness of C16: `toolState` after the toggle that checks action 1 and after
`removeAction(1)`: no registered action is checked and `checkedAction()` is
null. -/
theorem C16_checked_action_invariant_witness :
    (BaseDockWidget.removeAction (toolState.checkResult 1) 1).m_actions = [0] ∧
    (BaseDockWidget.removeAction (toolState.checkResult 1) 1).checkedAction = none :=
  ⟨rfl,
   (C16_checked_action_invariant (BaseDockWidget.removeAction (toolState.checkResult 1) 1)
      (Reached.removeAction 1
        (Reached.setChecked 2 1 true
          (Reached.addAction 2 1 "Outline"
            (Reached.addAction 2 0 "Files"
              (Reached.new toolHeap (fun p h => by simp [toolHeap] at h ⊢))
              (by decide) (addAction_eq 1 _ 0 "Files"))
            (by decide) (addAction_eq 1 _ 1 "Outline"))
          (by decide) (setChecked_true 0 1 toolState)))).2.2.1 (by decide)⟩

/-- C17 fails as stated: with two registered actions that share the object name
`"x"`, `removeAction` of the second one (added with title `"B"`) removes the
entry created for the first one (title `"A"`); the combo box is left with the
entry of the removed action while the first action stays registered. -/
theorem C17_counterexample :
    ∃ w0 w : BaseDockWidget,
      (BaseDockWidget.new sameNameHeap).addAction 2 0 "A" = Except.ok w0 ∧
      w0.addAction 2 1 "B" = Except.ok w ∧
      w.m_comboBox.items = [⟨"A", "x", 0⟩, ⟨"B", "x", 1⟩] ∧
      (w.removeAction 1).m_actions = [0] ∧
      (w.removeAction 1).m_comboBox.items = [⟨"B", "x", 1⟩] :=
  ⟨_, _, rfl, rfl, rfl, rfl, rfl⟩

/-- C17 (amended): after every sequence of `addAction` and `removeAction` calls
that keeps the object names of the registered actions pairwise distinct, the
action list has no duplicates and the combo box holds exactly one entry per
registered action, in registration order, each entry with the title and the
object name given when the action was added; and `removeAction(a)` removes the
entry that the `addAction` of `a` created and no other. -/
theorem C17_distinct_names_combo_parallel (reg : List (ActionPtr × String))
    (w : BaseDockWidget) (h : RegisteredDistinct reg w) :
    w.m_actions.Nodup ∧
    w.m_actions = reg.map Prod.fst ∧
    w.m_comboBox.items =
      reg.map (fun p => ({ text := p.2, data := (w.heap p.1).objectName, owner := p.1 } :
        ComboItem)) ∧
    (∀ a, (w.removeAction a).m_comboBox.items =
      w.m_comboBox.items.filter (fun it => it.owner ≠ a)) := by
  obtain ⟨hpar, hnodup, hnd⟩ := h.reachedDistinct.inv
  obtain ⟨h1, h2⟩ := h.items
  exact ⟨hnodup, h1, h2, fun a => removeAction_items_filter w a hpar hnodup hnd⟩

/-- Witness of C17 (amended): `toolState`, reached by `addAction(0, "Files")`
and `addAction(1, "Outline")`. -/
theorem C17_distinct_names_combo_parallel_witness :
    toolState.m_comboBox.items = [⟨"Files", "files", 0⟩, ⟨"Outline", "outline", 1⟩] ∧
    (toolState.removeAction 0).m_comboBox.items = [⟨"Outline", "outline", 1⟩] :=
  ⟨(C17_distinct_names_combo_parallel [(0, "Files"), (1, "Outline")] toolState
      (RegisteredDistinct.addAction 2 1 "Outline"
        (RegisteredDistinct.addAction 2 0 "Files" (RegisteredDistinct.new toolHeap) (by decide)
          (addAction_eq 1 _ 0 "Files") (by decide))
        (by decide) (addAction_eq 1 _ 1 "Outline") (by decide))).2.2.1,
   (C17_distinct_names_combo_parallel [(0, "Files"), (1, "Outline")] toolState
      (RegisteredDistinct.addAction 2 1 "Outline"
        (RegisteredDistinct.addAction 2 0 "Files" (RegisteredDistinct.new toolHeap) (by decide)
          (addAction_eq 1 _ 0 "Files") (by decide))
        (by decide) (addAction_eq 1 _ 1 "Outline") (by decide))).2.2.2 0⟩

end DockClaims2

/-! ### Lemmas on the shell list parser -/

section ParserLemmas

theorem findIdx?_takeWhile (p : Char → Bool) (l : List Char) (i : Nat) :
    l.findIdx? p i =
      if l.all (fun x => !p x) then none
      else some (i + (l.takeWhile (fun x => !p x)).length) := by
  induction l generalizing i with
  | nil => rfl
  | cons a l ih =>
    rw [List.findIdx?_cons]
    by_cases h : p a = true
    · simp [h]
    · have h' : p a = false := by simpa using h
      simp only [h', Bool.false_eq_true, if_false, List.all_cons, Bool.not_false, Bool.true_and,
        List.takeWhile_cons, if_true, List.length_cons]
      rw [ih (i + 1)]
      split
      · rfl
      · congr 1
        omega

theorem take_length_takeWhile (q : Char → Bool) (l : List Char) :
    l.take (l.takeWhile q).length = l.takeWhile q := by
  induction l with
  | nil => rfl
  | cons a l ih =>
    by_cases h : q a = true
    · simp [List.takeWhile_cons, h, ih]
    · simp [List.takeWhile_cons, h]

theorem indexOfChar_of_not_mem (ch : Char) (l : List Char) (h : ch ∉ l) :
    indexOfChar ch l = -1 := by
  unfold indexOfChar List.indexOf?
  rw [findIdx?_takeWhile]
  have : l.all (fun x => !(x == ch)) = true := by
    rw [List.all_eq_true]
    intro x hx
    have : x ≠ ch := fun e => h (e ▸ hx)
    simp [this]
  rw [if_pos this]

theorem indexOfChar_of_mem (ch : Char) (l : List Char) (h : ch ∈ l) :
    indexOfChar ch l = ((l.takeWhile (fun c => c ≠ ch)).length : Int) := by
  unfold indexOfChar List.indexOf?
  rw [findIdx?_takeWhile]
  have : ¬ (l.all (fun x => !(x == ch)) = true) := by
    rw [List.all_eq_true]
    intro hall
    have := hall ch h
    simp at this
  rw [if_neg this]
  have hf : (fun x : Char => !(x == ch)) = (fun c => decide (c ≠ ch)) := by
    funext x
    by_cases hx : x = ch
    · simp [hx]
    · simp [hx]
  simp only [Nat.zero_add, hf]

theorem trimmedChars_head (l : List Char) (c : Char)
    (h : (trimmedChars l).head? = some c) : QChar.isSpace c = false := by
  unfold trimmedChars at h
  rw [List.head?_reverse] at h
  have hsplit := List.takeWhile_append_dropWhile QChar.isSpace (l.dropWhile QChar.isSpace).reverse
  have hlast : ((l.dropWhile QChar.isSpace).reverse).getLast? = some c := by
    rw [← hsplit, List.getLast?_append, h]
    rfl
  rw [List.getLast?_reverse] at hlast
  have := List.head?_dropWhile_not QChar.isSpace l
  rw [hlast] at this
  exact this

theorem trimmedChars_getLast (l : List Char) (c : Char)
    (h : (trimmedChars l).getLast? = some c) : QChar.isSpace c = false := by
  unfold trimmedChars at h
  rw [List.getLast?_reverse] at h
  have := List.head?_dropWhile_not QChar.isSpace (l.dropWhile QChar.isSpace).reverse
  rw [h] at this
  exact this

theorem mem_trimmedChars (l : List Char) (x : Char) (h : x ∈ trimmedChars l) : x ∈ l := by
  unfold trimmedChars at h
  rw [List.mem_reverse] at h
  have h1 := (List.dropWhile_sublist QChar.isSpace).subset h
  rw [List.mem_reverse] at h1
  exact (List.dropWhile_sublist QChar.isSpace).subset h1

theorem trimmedChars_ne_nil (c : Char) (rest : List Char) (hc : QChar.isSpace c = false) :
    trimmedChars (c :: rest) ≠ [] := by
  unfold trimmedChars
  have hd : (c :: rest).dropWhile QChar.isSpace = c :: rest := by
    simp [List.dropWhile_cons, hc]
  rw [hd]
  intro h
  rw [List.reverse_eq_nil_iff, List.dropWhile_eq_nil_iff] at h
  have := h c (by simp)
  rw [hc] at this
  cases this

/-- The loop body of `GetUnixShellList` gives the entry said in words. -/
theorem shellOfLine_eq_spec (line : List Char) :
    shellOfLine line = (shellEntrySpec line).map String.mk := by
  unfold shellOfLine shellEntrySpec
  simp only
  generalize trimmedChars line = t
  cases t with
  | nil => simp
  | cons c0 rest =>
    by_cases h0 : c0 = '#'
    · simp [h0]
    · have hcond : ¬ ((c0 :: rest) = [] ∨ (c0 :: rest).head? = some '#') := by
        simp [h0]
      rw [if_neg hcond]
      have hb : ((c0 :: rest).isEmpty || decide ((c0 :: rest).head? = some '#')) = false := by
        simp [h0]
      simp only [hb, Bool.false_eq_true, if_false]
      by_cases hm : '#' ∈ c0 :: rest
      · rw [if_pos hm, indexOfChar_of_mem _ _ hm]
        have hlen : 0 < ((c0 :: rest).takeWhile (fun c => c ≠ '#')).length := by
          simp [List.takeWhile_cons, h0]
        have hpos : ((((c0 :: rest).takeWhile (fun c => decide (c ≠ '#'))).length : Nat) : Int) > 0 := by
          exact_mod_cast hlen
        rw [if_pos hpos]
        simp only [Int.toNat_ofNat, take_length_takeWhile, Option.map_some']
      · rw [if_neg hm, indexOfChar_of_not_mem _ _ hm]
        simp

theorem shellEntrySpec_props (line e : List Char) (h : shellEntrySpec line = some e) :
    e ≠ [] ∧ (∀ c, e.head? = some c → QChar.isSpace c = false) ∧
    (∀ c, e.getLast? = some c → QChar.isSpace c = false) ∧ '#' ∉ e := by
  unfold shellEntrySpec at h
  split at h
  · cases h
  · next hcond =>
    simp only [not_or] at hcond
    obtain ⟨hne, hhead⟩ := hcond
    cases ht : trimmedChars line with
    | nil => exact absurd ht hne
    | cons c0 rest =>
      have hc0 : QChar.isSpace c0 = false := trimmedChars_head line c0 (by rw [ht]; rfl)
      have h0 : c0 ≠ '#' := by
        intro e0
        apply hhead
        rw [ht, e0]
        rfl
      rw [ht] at h
      split at h
      · cases h
        have htw : (c0 :: rest).takeWhile (fun c => decide (c ≠ '#')) =
            c0 :: rest.takeWhile (fun c => decide (c ≠ '#')) := by
          simp [List.takeWhile_cons, h0]
        refine ⟨?_, fun c hc => trimmedChars_head _ c hc,
          fun c hc => trimmedChars_getLast _ c hc, ?_⟩
        · rw [htw]
          exact trimmedChars_ne_nil c0 _ hc0
        · intro hin
          have := List.mem_takeWhile_imp (mem_trimmedChars _ _ hin)
          simp at this
      · next hno =>
        cases h
        refine ⟨by simp, ?_, ?_, hno⟩
        · intro c hc
          exact trimmedChars_head line c (by rw [ht]; exact hc)
        · intro c hc
          exact trimmedChars_getLast line c (by rw [ht]; exact hc)

theorem splitChars_ne_nil (sep : Char) (l : List Char) : splitChars sep l ≠ [] := by
  cases l with
  | nil => simp [splitChars]
  | cons c cs =>
    unfold splitChars
    split
    · simp
    · split <;> simp

theorem joinChars_splitChars (sep : Char) (l : List Char) :
    joinChars sep (splitChars sep l) = l := by
  induction l with
  | nil => rfl
  | cons c cs ih =>
    unfold splitChars
    by_cases h : c = sep
    · rw [if_pos h]
      cases hs : splitChars sep cs with
      | nil => exact absurd hs (splitChars_ne_nil sep cs)
      | cons a b =>
        rw [hs] at ih
        simp only [joinChars, List.nil_append, ih, h]
    · rw [if_neg h]
      cases hs : splitChars sep cs with
      | nil => exact absurd hs (splitChars_ne_nil sep cs)
      | cons a b =>
        rw [hs] at ih
        cases b with
        | nil =>
          simp only [joinChars] at ih ⊢
          rw [ih]
        | cons b1 b2 =>
          simp only [joinChars, List.cons_append] at ih ⊢
          rw [ih]

theorem not_mem_splitChars (sep : Char) (l : List Char) :
    ∀ part ∈ splitChars sep l, sep ∉ part := by
  induction l with
  | nil =>
    intro part hp
    simp only [splitChars, List.mem_singleton] at hp
    rw [hp]
    simp
  | cons c cs ih =>
    intro part hp
    unfold splitChars at hp
    by_cases h : c = sep
    · rw [if_pos h] at hp
      rcases List.mem_cons.mp hp with e | e
      · rw [e]; simp
      · exact ih part e
    · rw [if_neg h] at hp
      cases hs : splitChars sep cs with
      | nil => exact absurd hs (splitChars_ne_nil sep cs)
      | cons a b =>
        rw [hs] at hp ih
        simp only at hp
        rcases List.mem_cons.mp hp with e | e
        · rw [e]
          intro hin
          rcases List.mem_cons.mp hin with e1 | e1
          · exact h e1.symm
          · exact ih a (List.mem_cons_self _ _) e1
        · exact ih part (List.mem_cons_of_mem _ e)

end ParserLemmas

/-! ### Claim on the shell list parser -/

section ParserClaims

/-- C18: for every text of the shell list file, `GetUnixShellList` returns, in
file order, one entry per line (the lines being the pieces of the text between
its `'\n'` characters) that after trimming is non-empty and does not start with
`'#'`, the entry being the trimmed text before the first `'#'` of the trimmed
line, or the whole trimmed line when it has no `'#'`; every returned entry is
non-empty, neither starts nor ends with white space, and contains no `'#'`. -/
theorem C18_shell_list_parsing (ar : String) :
    GetUnixShellList (some ar) =
      ((splitChars '\n' ar.data).filterMap shellEntrySpec).map String.mk ∧
    joinChars '\n' (splitChars '\n' ar.data) = ar.data ∧
    (∀ line ∈ splitChars '\n' ar.data, '\n' ∉ line) ∧
    (∀ e ∈ GetUnixShellList (some ar),
      e.data ≠ [] ∧ (∀ c, e.data.head? = some c → QChar.isSpace c = false) ∧
      (∀ c, e.data.getLast? = some c → QChar.isSpace c = false) ∧ '#' ∉ e.data) := by
  have heq : GetUnixShellList (some ar) =
      ((splitChars '\n' ar.data).filterMap shellEntrySpec).map String.mk := by
    unfold GetUnixShellList
    simp only
    rw [List.map_filterMap]
    congr 1
    funext line
    exact shellOfLine_eq_spec line
  refine ⟨heq, joinChars_splitChars _ _, not_mem_splitChars _ _, ?_⟩
  intro e he
  rw [heq, List.mem_map] at he
  obtain ⟨cs, hcs, rfl⟩ := he
  rw [List.mem_filterMap] at hcs
  obtain ⟨line, _, hline⟩ := hcs
  exact shellEntrySpec_props line cs hline

/-- Witness of C18: a shell list with a comment line, an indented line with a
trailing comment, an empty line and a line without line end. -/
theorem C18_shell_list_parsing_witness :
    GetUnixShellList (some "# shells\n  /bin/sh  # default\r\n\n/bin/zsh") =
      ["/bin/sh", "/bin/zsh"] ∧
    (∀ e ∈ GetUnixShellList (some "# shells\n  /bin/sh  # default\r\n\n/bin/zsh"),
      e.data ≠ [] ∧ '#' ∉ e.data) :=
  ⟨by decide,
   fun e he =>
     ⟨((C18_shell_list_parsing "# shells\n  /bin/sh  # default\r\n\n/bin/zsh").2.2.2 e he).1,
      ((C18_shell_list_parsing "# shells\n  /bin/sh  # default\r\n\n/bin/zsh").2.2.2 e he).2.2.2⟩⟩

end ParserClaims

/-! ### Lemmas on `newTerminal` -/

section TitleLemmas

theorem placeMarker_of_ne (c : Char) (cs : List Char) (h : c ≠ '%') :
    placeMarker (c :: cs) = none := by
  unfold placeMarker
  split
  · next heq => simp at heq; exact absurd heq.1 h
  · next heq => simp at heq; exact absurd heq.1 h
  · rfl

theorem markerNumbers_append (l r : List Char) (h : '%' ∉ l) :
    markerNumbers 0 (l ++ r) = markerNumbers 0 r := by
  induction l with
  | nil => rfl
  | cons c l ih =>
    have hc : c ≠ '%' := fun e => h (e ▸ List.mem_cons_self _ _)
    have hl : '%' ∉ l := fun e => h (List.mem_cons_of_mem _ e)
    rw [List.cons_append]
    simp only [markerNumbers, placeMarker_of_ne c _ hc]
    exact ih hl

theorem replaceMarkers_append (lowest : Nat) (arg larg l r : List Char) (h : '%' ∉ l) :
    replaceMarkers lowest arg larg 0 (l ++ r) = l ++ replaceMarkers lowest arg larg 0 r := by
  induction l with
  | nil => rfl
  | cons c l ih =>
    have hc : c ≠ '%' := fun e => h (e ▸ List.mem_cons_self _ _)
    have hl : '%' ∉ l := fun e => h (List.mem_cons_of_mem _ e)
    rw [List.cons_append]
    simp only [replaceMarkers, placeMarker_of_ne c _ hc]
    exact congrArg _ (ih hl)

/-- The tab title for a shell name without `'%'`: the name, a blank, the
number. -/
theorem tabTitle_of_no_marker (name : String) (k : Nat) (localeNumber : Nat → String)
    (h : '%' ∉ name.data) :
    (argInt (argString "%1 %2" name) k localeNumber).data =
      name.data ++ ' ' :: (Nat.repr k).data := by
  have h1 : (argString "%1 %2" name).data = name.data ++ [' ', '%', '2'] := by
    simp [argString, argChars, markerNumbers, placeMarker, replaceMarkers, digitValue,
      List.min?]
  unfold argInt
  rw [h1]
  unfold argChars
  rw [markerNumbers_append _ _ h]
  simp [markerNumbers, placeMarker, digitValue, List.min?, replaceMarkers_append _ _ _ _ _ h,
    replaceMarkers]


theorem Terminal.selectedCommand_cons (first : Command) (rest : List Command) (n : String) :
    Terminal.selectedCommand (first :: rest) n =
      Except.ok (((first :: rest).find? (fun c => decide (n = c.name))).getD first) := by
  unfold Terminal.selectedCommand
  simp only
  split
  · split
    · next c hc => rw [hc]; rfl
    · next hc => rw [hc]; rfl
  · next hlen =>
    have hr : rest = [] := by
      cases rest with
      | nil => rfl
      | cons a b => simp at hlen
    subst hr
    by_cases hn : n = first.name
    · simp [List.find?, hn]
    · simp [List.find?, hn]

/-- What `newTerminal` does on a non-empty command list: it completes; the
counter goes up by one; the new tab is titled by the format `"%1 %2"` filled
with the shell name and the counter, and starts the first command named
`m_curName` (the first command when none is), with its arguments, followed by
its login arguments in login mode. -/
theorem Terminal.newTerminal_cons (t : Terminal) (env : TermEnv) (first : Command)
    (rest : List Command) (h : t.m_cmdList = first :: rest) :
    ∃ t', t.newTerminal env = Except.ok t' ∧
      t'.m_indexId = t.m_indexId + 1 ∧ t'.m_cmdList = t.m_cmdList ∧
      t'.m_curName = t.m_curName ∧ t'.m_loginMode = t.m_loginMode ∧
      t'.tabs = t.tabs ++
        [{ title := argInt (argString "%1 %2" t.m_curName) (t.m_indexId + 1) env.localeNumber,
           darkMode := t.m_darkMode,
           program :=
             (((first :: rest).find? (fun c => decide (t.m_curName = c.name))).getD first).path,
           arguments :=
             if t.m_loginMode then
               (((first :: rest).find? (fun c => decide (t.m_curName = c.name))).getD first).args ++
               (((first :: rest).find? (fun c => decide (t.m_curName = c.name))).getD
                 first).loginArgs
             else
               (((first :: rest).find? (fun c => decide (t.m_curName = c.name))).getD first).args,
           workingDir := Terminal.workingDir env,
           environment := env.goEnvironment }] := by
  have hsel : Terminal.selectedCommand t.m_cmdList t.m_curName =
      Except.ok (((first :: rest).find? (fun c => decide (t.m_curName = c.name))).getD first) := by
    rw [h]
    exact Terminal.selectedCommand_cons first rest t.m_curName
  unfold Terminal.newTerminal
  rw [hsel]
  exact ⟨_, rfl, rfl, rfl, rfl, rfl, rfl⟩

/-- The counter after `k` calls of `newTerminal`. -/
theorem Terminal.newTerminalTimes_cons (env : TermEnv) (k : Nat) (t : Terminal)
    (first : Command) (rest : List Command) (h : t.m_cmdList = first :: rest) :
    ∃ t', Terminal.newTerminalTimes env k t = Except.ok t' ∧
      t'.m_indexId = t.m_indexId + k ∧ t'.m_cmdList = t.m_cmdList ∧
      t'.m_curName = t.m_curName ∧ t'.m_loginMode = t.m_loginMode := by
  induction k with
  | zero => exact ⟨t, rfl, rfl, rfl, rfl, rfl⟩
  | succ k ih =>
    obtain ⟨t1, h1, hid, hcmds, hname, hlogin⟩ := ih
    obtain ⟨t2, h2, hid2, hcmds2, hname2, hlogin2, _⟩ :=
      Terminal.newTerminal_cons t1 env first rest (hcmds.trans h)
    refine ⟨t2, ?_, ?_, hcmds2.trans hcmds, hname2.trans hname, hlogin2.trans hlogin⟩
    · simp only [Terminal.newTerminalTimes, h1, h2]
    · rw [hid2, hid]
      rfl

/-- For a shell name without `'%'` the `k`-th call of `newTerminal` on a newly
constructed terminal titles its tab with the name, a blank and `k`. -/
theorem Terminal.kth_title_of_no_marker (env : TermEnv) (k : Nat) (t : Terminal)
    (first : Command) (rest : List Command) (h : t.m_cmdList = first :: rest)
    (h0 : t.m_indexId = 0) (hname : '%' ∉ t.m_curName.data) :
    ∃ t', Terminal.newTerminalTimes env (k + 1) t = Except.ok t' ∧
      (t'.tabs.getLast?.map fun tab => tab.title.data) =
        some (t.m_curName.data ++ ' ' :: (Nat.repr (k + 1)).data) := by
  obtain ⟨t1, h1, hid, hcmds, hn, _⟩ := Terminal.newTerminalTimes_cons env k t first rest h
  obtain ⟨t2, h2, _, _, _, _, htabs⟩ :=
    Terminal.newTerminal_cons t1 env first rest (hcmds.trans h)
  refine ⟨t2, by simp only [Terminal.newTerminalTimes, h1, h2], ?_⟩
  rw [htabs]
  simp only [List.getLast?_append, List.getLast?_singleton, Option.or, Option.map_some',
    Option.some.injEq]
  rw [hn, hid, h0, Nat.zero_add]
  exact tabTitle_of_no_marker _ _ _ hname

end TitleLemmas

/-! ### Claim on `newTerminal` -/

section TitleClaims

/-- C19 fails on the machine `markerFs`, whose second shell is `/opt/%1sh`:
after that shell is picked in the menu the current shell name is `"%1sh"`, and
the first call of `newTerminal` starts `/opt/%1sh` with `-l` but titles its tab
`"1sh %2"`, not `"%1sh 1"`. -/
theorem C19_title_with_place_marker :
    ∃ t t', Terminal.new markerFs emptySettings = Except.ok t ∧
      t.m_cmdList.map Command.name = ["bash", "%1sh"] ∧
      (t.triggerShellAction 1).m_curName = "%1sh" ∧
      (t.triggerShellAction 1).newTerminal plainEnv = Except.ok t' ∧
      t'.tabs.map TermTab.program = ["/opt/%1sh"] ∧
      t'.tabs.map TermTab.arguments = [["-l"]] ∧
      t'.tabs.map TermTab.title = ["1sh %2"] :=
  ⟨_, _, rfl, rfl, rfl, rfl, rfl, rfl, rfl⟩

end TitleClaims

/-! ### Claims on the quick-open popup -/

section QuickOpenClaims

/-- C20: with a model of `n ≥ 1` rows (and at least one column) shown as a flat
list and a current index that is invalid or lies in the model, `Key_Down` is
consumed, emits `indexChanage` with the new current index, and moves the
current row `r` to `r + 1`, or to row 0 from the last row or from no current
row; `Key_Up` is consumed, emits `indexChanage` with the new current index, and
moves `r` to `r - 1`, or to row `n - 1` from row 0 or from no current row;
`Key_Up` after `Key_Down` brings back the row that was current. -/
theorem C20_key_navigation_wraps (w : QuickOpenWidget) (m : ItemModel)
    (hm : w.model = some m) (hrows : 1 ≤ m.rowCount) (hcols : 1 ≤ m.columnCount)
    (hcur : ∀ i, w.currentIndex = some i → i.1 < m.rowCount) :
    ((w.eventFilter (QEvent.KeyPress Key_Down)).1 = true ∧
     (w.eventFilter (QEvent.KeyPress Key_Down)).2.emitted =
       w.emitted ++ [(w.eventFilter (QEvent.KeyPress Key_Down)).2.currentIndex] ∧
     (w.eventFilter (QEvent.KeyPress Key_Down)).2.currentIndex.map Prod.fst =
       some (match w.currentIndex with
         | some i => if i.1 + 1 < m.rowCount then i.1 + 1 else 0
         | none => 0)) ∧
    ((w.eventFilter (QEvent.KeyPress Key_Up)).1 = true ∧
     (w.eventFilter (QEvent.KeyPress Key_Up)).2.emitted =
       w.emitted ++ [(w.eventFilter (QEvent.KeyPress Key_Up)).2.currentIndex] ∧
     (w.eventFilter (QEvent.KeyPress Key_Up)).2.currentIndex.map Prod.fst =
       some (match w.currentIndex with
         | some i => if 1 ≤ i.1 then i.1 - 1 else m.rowCount - 1
         | none => m.rowCount - 1)) ∧
    (∀ i, w.currentIndex = some i →
      (((w.eventFilter (QEvent.KeyPress Key_Down)).2.eventFilter
        (QEvent.KeyPress Key_Up)).2.currentIndex.map Prod.fst = some i.1)) := by
  have hud : ¬ (Key_Down = Key_Up) := by decide
  have hfirst : m.index 0 0 = some (0, 0) := by
    unfold ItemModel.index
    rw [if_pos ⟨le_refl _, by exact_mod_cast hrows, hcols⟩]
    rfl
  have hlast : m.index ((m.rowCount : Int) - 1) 0 = some (m.rowCount - 1, 0) := by
    unfold ItemModel.index
    rw [if_pos ⟨by omega, by omega, hcols⟩]
    congr 2
    omega
  have hbelow : ∀ i : Nat × Nat, i.1 < m.rowCount →
      m.indexBelow (some i) = if i.1 + 1 < m.rowCount then some (i.1 + 1, i.2) else none := by
    intro i hi
    simp only [ItemModel.indexBelow, ItemModel.viewIndex, hi, if_true]
    by_cases h : i.1 + 1 < m.rowCount
    · rw [if_pos h, if_neg (by omega)]
      congr 2
    · rw [if_neg h, if_pos (by omega)]
  have habove : ∀ i : Nat × Nat, i.1 < m.rowCount →
      m.indexAbove (some i) = if 1 ≤ i.1 then some (i.1 - 1, i.2) else none := by
    intro i hi
    simp only [ItemModel.indexAbove, ItemModel.viewIndex, hi, if_true]
    by_cases h : 1 ≤ i.1
    · rw [if_pos h, if_neg (by omega)]
      congr 2
      omega
    · rw [if_neg h, if_pos (by omega)]
  have hdown : (w.eventFilter (QEvent.KeyPress Key_Down)).2.currentIndex =
      (match w.currentIndex with
        | some i => if i.1 + 1 < m.rowCount then some (i.1 + 1, i.2) else some (0, 0)
        | none => some (0, 0)) := by
    simp only [QuickOpenWidget.eventFilter, hm, hud, if_false, if_true]
    cases hc : w.currentIndex with
    | none => simp [ItemModel.indexBelow, hfirst]
    | some i =>
      rw [hbelow i (hcur i hc)]
      by_cases h : i.1 + 1 < m.rowCount
      · simp [h]
      · simp [h, hfirst]
  have hup : ∀ v : QuickOpenWidget, v.model = some m →
      (∀ i, v.currentIndex = some i → i.1 < m.rowCount) →
      (v.eventFilter (QEvent.KeyPress Key_Up)).2.currentIndex =
      (match v.currentIndex with
        | some i => if 1 ≤ i.1 then some (i.1 - 1, i.2) else some (m.rowCount - 1, 0)
        | none => some (m.rowCount - 1, 0)) := by
    intro v hv hvc
    simp only [QuickOpenWidget.eventFilter, hv, if_true]
    cases hc : v.currentIndex with
    | none => simp [ItemModel.indexAbove, hlast]
    | some i =>
      rw [habove i (hvc i hc)]
      by_cases h : 1 ≤ i.1
      · simp [h]
      · simp [h, hlast]
  refine ⟨⟨?_, ?_, ?_⟩, ⟨?_, ?_, ?_⟩, ?_⟩
  · simp only [QuickOpenWidget.eventFilter, hm, hud, if_false, if_true]
  · simp only [QuickOpenWidget.eventFilter, hm, hud, if_false, if_true]
  · rw [hdown]
    cases w.currentIndex with
    | none => rfl
    | some i => simp only; split <;> rfl
  · simp only [QuickOpenWidget.eventFilter, hm, if_true]
  · simp only [QuickOpenWidget.eventFilter, hm, if_true]
  · rw [hup w hm hcur]
    cases w.currentIndex with
    | none => rfl
    | some i => simp only; split <;> rfl
  · intro i hi
    have hmodel : (w.eventFilter (QEvent.KeyPress Key_Down)).2.model = some m := by
      simp only [QuickOpenWidget.eventFilter, hm, hud, if_false, if_true]
    have hlt := hcur i hi
    have hd : (w.eventFilter (QEvent.KeyPress Key_Down)).2.currentIndex =
        if i.1 + 1 < m.rowCount then some (i.1 + 1, i.2) else some (0, 0) := by
      rw [hdown, hi]
    rw [hup _ hmodel]
    · rw [hd]
      by_cases h : i.1 + 1 < m.rowCount
      · simp [h]
      · simp only [h, if_false]
        simp
        omega
    · intro j hj
      rw [hd] at hj
      by_cases h : i.1 + 1 < m.rowCount
      · simp only [h, if_true, Option.some.injEq] at hj
        rw [← hj]; exact h
      · simp only [h, if_false, Option.some.injEq] at hj
        rw [← hj]; exact hrows

/-- Witness of C20: `fiveRowPopup`, whose last row is current: `Key_Down` wraps
to row 0 and `Key_Up` after it is back on row 4. -/
theorem C20_key_navigation_wraps_witness :
    (fiveRowPopup.eventFilter (QEvent.KeyPress Key_Down)).2.currentIndex.map Prod.fst = some 0 ∧
    ((fiveRowPopup.eventFilter (QEvent.KeyPress Key_Down)).2.eventFilter
      (QEvent.KeyPress Key_Up)).2.currentIndex.map Prod.fst = some 4 :=
  ⟨(C20_key_navigation_wraps fiveRowPopup ⟨5, 1⟩ rfl (by decide) (by decide)
      (by decide)).1.2.2,
   (C20_key_navigation_wraps fiveRowPopup ⟨5, 1⟩ rfl (by decide) (by decide)
      (by decide)).2.2 (4, 0) rfl⟩

end QuickOpenClaims

/-! ### Lemma on `createMenu` -/

section SplitMenuLemmas

theorem SplitDockWidget.createMenu_moveMenu (w : SplitDockWidget) (area : Int) (split : Bool) :
    (w.createMenu area split).moveMenu =
      SplitDockWidget.moveEntries area TopDockWidgetArea "Top" ++
      SplitDockWidget.moveEntries area BottomDockWidgetArea "Bottom" ++
      SplitDockWidget.moveEntries area LeftDockWidgetArea "Left" ++
      SplitDockWidget.moveEntries area RightDockWidgetArea "Right" := rfl

end SplitMenuLemmas

/-! ### Claim on the menus of `SplitDockWidget` -/

section SplitMenuClaims

/-- C21: after `createMenu(area, split)` with `area` one of Top, Bottom, Left,
Right, the "Move To" menu has six entries, two for each of the three other
areas in the order Top, Bottom, Left, Right and none for `area`: a plain entry
and one whose text adds `" (Split)"`. Triggered in any later state of the base
widget, the plain entry for target `t` emits
`moveActionTo(area, t, checkedAction, false)` and the other one
`moveActionTo(area, t, checkedAction, true)`, changing nothing else. The button
menu holds the floating action, one entry that is "Unsplit" when `split` is
true and "Split" otherwise, and the "Move To" sub-menu; "Split" emits
`moveActionTo(area, area, checkedAction, true)` and "Unsplit" emits
`moveActionTo(area, area, checkedAction, false)`. -/
theorem C21_split_dock_menus (w : SplitDockWidget) (area : Int) (split : Bool)
    (harea : area ∈ [TopDockWidgetArea, BottomDockWidgetArea, LeftDockWidgetArea,
      RightDockWidgetArea]) :
    (w.createMenu area split).moveMenu.length = 6 ∧
    (w.createMenu area split).moveMenu.map DockMenuAction.data =
      ([TopDockWidgetArea, BottomDockWidgetArea, LeftDockWidgetArea,
        RightDockWidgetArea].filter (fun t => t ≠ area)).flatMap (fun t => [t, t]) ∧
    (∀ e ∈ (w.createMenu area split).moveMenu, e.data ≠ area) ∧
    (∀ t ∈ [TopDockWidgetArea, BottomDockWidgetArea, LeftDockWidgetArea,
        RightDockWidgetArea], t ≠ area →
      ∃ plain withSplit : DockMenuAction,
        (w.createMenu area split).moveMenu.filter (fun e => e.data = t) = [plain, withSplit] ∧
        withSplit.text = plain.text ++ " (Split)" ∧
        (∀ (b : BaseDockWidget) (es : List MoveActionTo),
          SplitDockWidget.trigger { w.createMenu area split with base := b, emitted := es } plain =
            { w.createMenu area split with
                base := b,
                emitted := es ++ [⟨area, t, b.checkedAction, some false⟩] }) ∧
        (∀ (b : BaseDockWidget) (es : List MoveActionTo),
          SplitDockWidget.trigger { w.createMenu area split with base := b, emitted := es }
              withSplit =
            { w.createMenu area split with
                base := b,
                emitted := es ++ [⟨area, t, b.checkedAction, some true⟩] })) ∧
    (w.createMenu area split).menu.map DockMenuAction.text =
      ["Floating Window", if split = true then "Unsplit" else "Split", "Move To"] ∧
    (∃ e : DockMenuAction,
      (w.createMenu area split).menu.filter
          (fun a => a.text = "Split" ∨ a.text = "Unsplit") = [e] ∧
      e.text = (if split = true then "Unsplit" else "Split") ∧
      (∀ (b : BaseDockWidget) (es : List MoveActionTo),
        SplitDockWidget.trigger { w.createMenu area split with base := b, emitted := es } e =
          { w.createMenu area split with
              base := b,
              emitted := es ++ [⟨area, area, b.checkedAction, some (!split)⟩] })) := by
  simp only [List.mem_cons, List.mem_singleton, List.not_mem_nil, or_false] at harea
  rcases harea with h | h | h | h <;> subst h
  all_goals
    refine ⟨rfl, rfl, by rw [SplitDockWidget.createMenu_moveMenu]; decide, ?_, by cases split <;> rfl, ?_⟩
  all_goals try
    (cases split
     · exact ⟨_, rfl, rfl, fun _ _ => rfl⟩
     · exact ⟨_, rfl, rfl, fun _ _ => rfl⟩)
  all_goals
    intro t ht hne
    simp only [List.mem_cons, List.mem_singleton, List.not_mem_nil, or_false] at ht
    rcases ht with h | h | h | h <;> subst h
    all_goals first
      | exact absurd rfl hne
      | exact ⟨_, _, rfl, rfl, fun _ _ => rfl, fun _ _ => rfl⟩

/-- Witness of C21: `createMenu(Left, false)` on `newSplitDock` gives the six
entries Top, Bottom, Right with data 4, 4, 8, 8, 2, 2 and the texts
"Floating Window", "Split", "Move To" in the button menu. -/
theorem C21_split_dock_menus_witness :
    LeftDockWidgetArea ∈ [TopDockWidgetArea, BottomDockWidgetArea, LeftDockWidgetArea,
      RightDockWidgetArea] ∧
    (newSplitDock.createMenu LeftDockWidgetArea false).moveMenu.length = 6 ∧
    (newSplitDock.createMenu LeftDockWidgetArea false).moveMenu.map DockMenuAction.data =
      [4, 4, 8, 8, 2, 2] ∧
    (newSplitDock.createMenu LeftDockWidgetArea false).menu.map DockMenuAction.text =
      ["Floating Window", "Split", "Move To"] :=
  ⟨by decide,
   (C21_split_dock_menus newSplitDock LeftDockWidgetArea false (by decide)).1,
   (C21_split_dock_menus newSplitDock LeftDockWidgetArea false (by decide)).2.1,
   (C21_split_dock_menus newSplitDock LeftDockWidgetArea false (by decide)).2.2.2.2.1⟩

end SplitMenuClaims

end LiteIDE
